import Mathlib

/-!
# A virtual-disk file system (`vsfs.c`): shallow embedding and verification

The embedding follows `src/vsfs.c` function by function.

Conventions of the embedding.

* `uint32_t` and `int` values are `Nat` and `Int`; every place where the C
  code converts or can wrap is written with `u32` (reduction modulo `2^32`)
  or `i32` (two's-complement reading of the low 32 bits).
* The header `vsfs.h` is not part of the sources.  The three constants it
  supplies, `BLOCKSIZE`, `MODE_READ` and `MODE_APPEND`, are parameters of the
  functions that use them.
* The backing store is the host file behind `vs_fd`: a length, a byte
  content, the current file offset, and the largest length the host lets the
  file reach (writes past that length are short).  `lseek`, `read` and
  `write` follow POSIX on a regular file.
* `struct FileSystemMetadata` is kept as a record.  When one of its parts is
  handed to `read_block` / `write_block` as raw memory, the record is viewed
  through its byte image `metaByte` (little-endian, natural alignment:
  superblock at byte 0, allocation table at byte 2048, directory at byte
  67584, 128 bytes per directory entry).  The padding bytes of the superblock
  (bytes 32..2047) and of a directory entry (bytes 30..31 and 45..127) are
  part of the record, field `padding`: they are written to and read from the
  backing store like every other byte, no code initialises them, and `strcmp`
  reads them when a stored name fills the 30 bytes of `filename` without a
  terminator.
* Memory after the metadata record reads as 0: in the global `virtual_disk`
  the record is followed by the pointer `data`, which is never assigned.
* A caller buffer `buf` is the memory starting at that pointer, a function
  from byte offsets to bytes.
* The product `k * BLOCKSIZE` in `read_block` / `write_block` is an `int`;
  it is reduced with `i32`, and `lseek` refuses a negative offset.
* Diagnostic output (`printf`, `perror`) is not modelled, and `vs_fd` is taken
  to refer to the host file whenever a file operation runs.
-/

namespace VSFS

/-! ## Constants of `vsfs.c` -/

def MAX_FILENAME_LENGTH : Nat := 30
def MAX_DIRECTORY_ENTRIES : Nat := 128
def MAX_DIRECTORY_ENTRIES_PER_BLOCK : Nat := 16
def SUPERBLOCK_SIZE : Nat := 1
def FAT_SIZE : Nat := 32
def MAX_OPEN_FILES : Nat := 16
def MAX_DISK_SIZE : Nat := 8388608
def MIN_DISK_SIZE : Nat := 262144
def ROOT_DIR_BLOCK : Nat := 8

/-! ## Machine integers -/

/-- Conversion to `uint32_t`: the value modulo `2^32`. -/
def u32 (x : Int) : Nat := (x % 4294967296).toNat

/-- Conversion to a 32-bit `int`: two's-complement reading of the low 32 bits. -/
def i32 (x : Int) : Int := (x + 2147483648) % 4294967296 - 2147483648

/-! ## Data model -/

structure Superblock where
  size : Nat
  block_size : Nat
  fat_start : Nat
  fat_blocks : Nat
  root_dir_start : Nat
  root_dir_blocks : Nat
  data_start : Nat
  data_blocks : Nat
  /-- Byte at offset `a` of the struct, for the offsets 32..2047 of `padding`. -/
  padding : Nat → Nat

structure DirectoryEntry where
  filename : List Nat
  size : Nat
  start_block : Nat
  current_position : Nat
  is_used : Nat
  /-- Byte at offset `o` of the struct, for the offsets that belong to no
  other field: 30..31 (alignment) and 45..127 (`padding` and tail). -/
  padding : Nat → Nat

structure FileSystemMetadata where
  superblock : Superblock
  fat_table : Nat → Nat
  root_directory : Nat → DirectoryEntry

/-- The host file behind `vs_fd`. -/
structure Disk where
  openable : Bool
  size : Nat
  limit : Nat
  pos : Nat
  bytes : Nat → Nat

/-- The globals of `vsfs.c`: the host file, `virtual_disk.metadata`,
`OpenFileTable` and `OpenFileModes`. -/
structure State where
  vdisk : Disk
  metadata : FileSystemMetadata
  OpenFileTable : Nat → Int
  OpenFileModes : Nat → Int

/-- A block of raw memory, addressed from the pointer handed to the callee. -/
abbrev Mem := Nat → Nat

/-! ## Byte image of the metadata record -/

/-- Byte `j` of the little-endian representation of `v`. -/
def leByte (v j : Nat) : Nat := v / 256 ^ j % 256

/-- The `uint32_t` stored little-endian at address `a` of `f`. -/
def rd32 (f : Mem) (a : Nat) : Nat :=
  f a % 256 + 256 * (f (a + 1) % 256) + 65536 * (f (a + 2) % 256)
    + 16777216 * (f (a + 3) % 256)

/-- Byte offset of `fat_table` inside `struct FileSystemMetadata`. -/
def FAT_OFFSET : Nat := 2048

/-- Byte offset of `root_directory` inside `struct FileSystemMetadata`. -/
def DIR_OFFSET : Nat := 67584

/-- Size in bytes of `struct FileSystemMetadata`. -/
def META_BYTES : Nat := 83968

def superblockField (sb : Superblock) (i : Nat) : Nat :=
  match i with
  | 0 => sb.size
  | 1 => sb.block_size
  | 2 => sb.fat_start
  | 3 => sb.fat_blocks
  | 4 => sb.root_dir_start
  | 5 => sb.root_dir_blocks
  | 6 => sb.data_start
  | _ => sb.data_blocks

/-- Byte `o` of a 128-byte `struct DirectoryEntry`: `filename` at 0..29,
`size` at 32, `start_block` at 36, `current_position` at 40, `is_used` at 44,
padding elsewhere. -/
def entryByte (e : DirectoryEntry) (o : Nat) : Nat :=
  if o < 30 then e.filename.getD o 0
  else if o < 32 then e.padding o % 256
  else if o < 36 then leByte e.size (o - 32)
  else if o < 40 then leByte e.start_block (o - 36)
  else if o < 44 then leByte e.current_position (o - 40)
  else if o = 44 then e.is_used % 256
  else e.padding o % 256

/-- Byte `a` of the memory occupied by a `struct FileSystemMetadata`. -/
def metaByte (md : FileSystemMetadata) (a : Nat) : Nat :=
  if a < 32 then leByte (superblockField md.superblock (a / 4)) (a % 4)
  else if a < FAT_OFFSET then md.superblock.padding a % 256
  else if a < DIR_OFFSET then leByte (md.fat_table ((a - FAT_OFFSET) / 4)) (a % 4)
  else if a < META_BYTES then
    entryByte (md.root_directory ((a - DIR_OFFSET) / 128)) ((a - DIR_OFFSET) % 128)
  else 0

def entryOfBytes (f : Mem) (a : Nat) : DirectoryEntry :=
  { filename := (List.range 30).map (fun j => f (a + j) % 256)
    size := rd32 f (a + 32)
    start_block := rd32 f (a + 36)
    current_position := rd32 f (a + 40)
    is_used := f (a + 44) % 256
    padding := fun o => f (a + o) % 256 }

/-- The record read back from a byte image. -/
def metaOfBytes (f : Mem) : FileSystemMetadata :=
  { superblock :=
      { size := rd32 f 0
        block_size := rd32 f 4
        fat_start := rd32 f 8
        fat_blocks := rd32 f 12
        root_dir_start := rd32 f 16
        root_dir_blocks := rd32 f 20
        data_start := rd32 f 24
        data_blocks := rd32 f 28
        padding := fun a => f a % 256 }
    fat_table := fun i => rd32 f (FAT_OFFSET + 4 * i)
    root_directory := fun i => entryOfBytes f (DIR_OFFSET + 128 * i) }

/-- The memory seen from the pointer `base + off`. -/
def memFrom (f : Mem) (off : Nat) : Mem := fun j => f (off + j)

/-- The memory `f` after the region starting at `off` was replaced by `g`. -/
def memPatch (f : Mem) (off : Nat) (g : Mem) : Mem :=
  fun a => if off ≤ a then g (a - off) else f a

/-! ## Host file primitives -/

/-- `open(vdiskname, ...)`: a fresh file offset. -/
def hostOpen (d : Disk) : Disk := { d with pos := 0 }

/-- `lseek(vs_fd, off, SEEK_SET)`; a negative offset is refused and the
offset stays where it was. -/
def lseek (d : Disk) (off : Int) : Disk :=
  if 0 ≤ off then { d with pos := off.toNat } else d

/-- `ftruncate(vs_fd, len)`: fails beyond the host limit; otherwise the file
has length `len`, keeps its content below the old length and reads 0 above. -/
def ftruncate (d : Disk) (len : Nat) : Option Disk :=
  if d.limit < len then none
  else some { d with size := len, bytes := fun a => if a < len ∧ a < d.size then d.bytes a else 0 }

/-- `read_block`: seek to `k * BLOCKSIZE` and read `BLOCKSIZE` bytes into
`block`.  Returns the status, the memory at `block` and the host file. -/
def read_block (BLOCKSIZE : Nat) (d : Disk) (block : Mem) (k : Int) : Int × Mem × Disk :=
  let offset := i32 (k * BLOCKSIZE)
  let d1 := lseek d offset
  let n := min BLOCKSIZE (d1.size - d1.pos)
  let block1 : Mem := fun j => if j < n then d1.bytes (d1.pos + j) % 256 else block j
  let d2 := { d1 with pos := d1.pos + n }
  if n ≠ BLOCKSIZE then (-1, block1, d2) else (0, block1, d2)

/-- `write_block`: seek to `k * BLOCKSIZE` and write `BLOCKSIZE` bytes taken
from `block`.  Returns the status and the host file. -/
def write_block (BLOCKSIZE : Nat) (d : Disk) (block : Mem) (k : Int) : Int × Disk :=
  let offset := i32 (k * BLOCKSIZE)
  let d1 := lseek d offset
  let n := min BLOCKSIZE (d1.limit - d1.pos)
  let d2 : Disk :=
    { d1 with
      bytes := fun a => if d1.pos ≤ a ∧ a < d1.pos + n then block (a - d1.pos) % 256 else d1.bytes a
      size := if n = 0 then d1.size else max d1.size (d1.pos + n)
      pos := d1.pos + n }
  if n ≠ BLOCKSIZE then (-1, d2) else (0, d2)

/-! ## Loops and C strings -/

/-- The first index `i` with `start ≤ i < start + n` at which `p` holds. -/
def firstIndex (p : Nat → Bool) : Nat → Nat → Option Nat
  | 0, _ => none
  | n + 1, i => if p i then some i else firstIndex p n (i + 1)

/-- The array `f` with slot `i` set to `v`. -/
def setAt {α : Type} (f : Nat → α) (i : Nat) (v : α) : Nat → α :=
  fun j => if j = i then v else f j

/-- `strcmp`: a list is the memory at the pointer, and the end of the list
stands for a zero byte.  A name passed by the caller is the list of its
characters; the `filename` field of a directory entry is passed as
`filenameAt`, the memory from the field to the end of the directory, so that
after a stored name of 30 characters the comparison reads on into the bytes
that follow the field. -/
def strcmp : List Nat → List Nat → Int
  | [], [] => 0
  | [], b :: _ => -(b : Int)
  | a :: _, [] => (a : Int)
  | a :: s1, b :: s2 =>
    if a = 0 ∧ b = 0 then 0 else if a ≠ b then (a : Int) - (b : Int) else strcmp s1 s2

/-- `strlen`. -/
def strlen : List Nat → Nat
  | [] => 0
  | c :: s => if c = 0 then 0 else strlen s + 1

/-- `strncpy(dest, src, n)`: the `n` bytes stored at `dest`. -/
def strncpy (src : List Nat) : Nat → List Nat
  | 0 => []
  | n + 1 =>
    match src with
    | [] => 0 :: strncpy [] n
    | c :: s => if c = 0 then 0 :: strncpy [] n else c :: strncpy s n

/-- The 128 bytes of a directory entry. -/
def entryBytes (e : DirectoryEntry) : List Nat := (List.range 128).map (entryByte e)

/-- The bytes of `n` directory entries from entry `i` on. -/
def directoryFrom (root_directory : Nat → DirectoryEntry) : Nat → Nat → List Nat
  | 0, _ => []
  | n + 1, i => entryBytes (root_directory i) ++ directoryFrom root_directory n (i + 1)

/-- The memory at `root_directory[i].filename`: the bytes of the directory
from entry `i` to its end. -/
def filenameAt (root_directory : Nat → DirectoryEntry) (i : Nat) : List Nat :=
  directoryFrom root_directory (MAX_DIRECTORY_ENTRIES - i) i

/-! ## Format, mount, unmount -/

/-- The local `fs_metadata` of `vsformat` once superblock, allocation table
and directory have been initialised; `1 << m` is taken modulo `2^32`.
`stack` is the content of the uninitialised local: the padding bytes keep
it. -/
def formatMetadata (BLOCKSIZE : Nat) (stack : FileSystemMetadata) (m : Nat) :
    FileSystemMetadata :=
  let disk_size : Nat := u32 ((2 : Int) ^ m)
  { superblock :=
      { size := disk_size
        block_size := u32 BLOCKSIZE
        fat_start := SUPERBLOCK_SIZE
        fat_blocks := FAT_SIZE
        root_dir_start := SUPERBLOCK_SIZE + FAT_SIZE
        root_dir_blocks := ROOT_DIR_BLOCK
        data_start := SUPERBLOCK_SIZE + FAT_SIZE + ROOT_DIR_BLOCK
        data_blocks :=
          u32 ((disk_size : Int) / BLOCKSIZE - SUPERBLOCK_SIZE - FAT_SIZE - ROOT_DIR_BLOCK)
        padding := stack.superblock.padding }
    fat_table := fun _ => 0xFFFFFFFF
    root_directory := fun i =>
      { filename := List.replicate MAX_FILENAME_LENGTH 0
        size := 0
        start_block := 0
        current_position := 0
        is_used := 0
        padding := (stack.root_directory i).padding } }

/-- The loop `for (i = ...; ...; i++) if (write_block(src i, blk i) != 0) return -1;`
with `n` iterations left. -/
def writeLoop (BLOCKSIZE : Nat) (src : Nat → Mem) (blk : Nat → Int) :
    Nat → Nat → Disk → Int × Disk
  | 0, _, d => (0, d)
  | n + 1, i, d =>
    let r := write_block BLOCKSIZE d (src i) (blk i)
    if r.1 ≠ 0 then (-1, r.2) else writeLoop BLOCKSIZE src blk n (i + 1) r.2

/-- The loop `for (i = ...; ...; i++) if (read_block(base + off i, blk i) != 0) return -1;`
over the memory image `img`, with `n` iterations left. -/
def readLoop (BLOCKSIZE : Nat) (off : Nat → Nat) (blk : Nat → Int) :
    Nat → Nat → Mem → Disk → Int × Mem × Disk
  | 0, _, img, d => (0, img, d)
  | n + 1, i, img, d =>
    let r := read_block BLOCKSIZE d (memFrom img (off i)) (blk i)
    let img1 := memPatch img (off i) r.2.1
    if r.1 ≠ 0 then (-1, img1, r.2.2) else readLoop BLOCKSIZE off blk n (i + 1) img1 r.2.2

/-- `vsformat(vdiskname, m)` on the host file `d`.  `stack` is the content of
the uninitialised local `fs_metadata`: when the superblock is written the
allocation table and the directory still hold it, and the padding bytes hold
it throughout. -/
def vsformat (BLOCKSIZE : Nat) (stack : FileSystemMetadata) (d : Disk) (m : Nat) : Int × Disk :=
  if !d.openable then (-1, d)
  else
    let d0 := hostOpen d
    let disk_size : Nat := u32 ((2 : Int) ^ m)
    match ftruncate d0 disk_size with
    | none => (-1, d0)
    | some d1 =>
      let fs := formatMetadata BLOCKSIZE stack m
      let fs0 : FileSystemMetadata := { stack with superblock := fs.superblock }
      let r0 := write_block BLOCKSIZE d1 (memFrom (metaByte fs0) 0) 0
      if r0.1 ≠ 0 then (-1, r0.2)
      else
        let fs1 : FileSystemMetadata := { fs0 with fat_table := fs.fat_table }
        let r1 := writeLoop BLOCKSIZE (fun i => memFrom (metaByte fs1) (FAT_OFFSET + 4 * i))
          (fun i => (SUPERBLOCK_SIZE : Int) + i) FAT_SIZE 0 r0.2
        if r1.1 ≠ 0 then (-1, r1.2)
        else
          let r2 := writeLoop BLOCKSIZE (fun i => memFrom (metaByte fs) (DIR_OFFSET + 128 * i))
            (fun i => (SUPERBLOCK_SIZE : Int) + FAT_SIZE + i) ROOT_DIR_BLOCK 0 r1.2
          if r2.1 ≠ 0 then (-1, r2.2) else (0, r2.2)

/-- `vsmount(vdiskname)`.  The destination of the i-th read is
`&fat_table[i]` resp. `&root_directory[i]`, that is 4 resp. 128 bytes further
for each block, as in the source.  A failed mount leaves the metadata as far
as it was loaded. -/
def vsmount (BLOCKSIZE : Nat) (st : State) : Int × State :=
  if !st.vdisk.openable then (-1, st)
  else
    let d0 := hostOpen st.vdisk
    let img0 := metaByte st.metadata
    let r0 := read_block BLOCKSIZE d0 (memFrom img0 0) 0
    let img1 := memPatch img0 0 r0.2.1
    if r0.1 = -1 then (-1, { st with vdisk := r0.2.2, metadata := metaOfBytes img1 })
    else
      let r1 := readLoop BLOCKSIZE (fun i => FAT_OFFSET + 4 * i)
        (fun i => (SUPERBLOCK_SIZE : Int) + i) FAT_SIZE 0 img1 r0.2.2
      if r1.1 ≠ 0 then (-1, { st with vdisk := r1.2.2, metadata := metaOfBytes r1.2.1 })
      else
        let r2 := readLoop BLOCKSIZE (fun i => DIR_OFFSET + 128 * i)
          (fun i => (SUPERBLOCK_SIZE : Int) + FAT_SIZE + i) ROOT_DIR_BLOCK 0 r1.2.1 r1.2.2
        if r2.1 ≠ 0 then (-1, { st with vdisk := r2.2.2, metadata := metaOfBytes r2.2.1 })
        else (0, { st with vdisk := r2.2.2, metadata := metaOfBytes r2.2.1 })

/-- `vsumount()`: one `write_block` for the superblock, one for the
allocation table and one for the directory, as in the source. -/
def vsumount (BLOCKSIZE : Nat) (st : State) : Int × State :=
  let img := metaByte st.metadata
  let r0 := write_block BLOCKSIZE st.vdisk (memFrom img 0) 0
  if r0.1 ≠ 0 then (-1, { st with vdisk := r0.2 })
  else
    let r1 := write_block BLOCKSIZE r0.2 (memFrom img FAT_OFFSET)
      (i32 st.metadata.superblock.fat_start)
    if r1.1 ≠ 0 then (-1, { st with vdisk := r1.2 })
    else
      let r2 := write_block BLOCKSIZE r1.2 (memFrom img DIR_OFFSET)
        (i32 st.metadata.superblock.root_dir_start)
      if r2.1 ≠ 0 then (-1, { st with vdisk := r2.2 }) else (0, { st with vdisk := r2.2 })

/-! ## Directory operations -/

/-- `find_free_directory_entry`. -/
def find_free_directory_entry (root_directory : Nat → DirectoryEntry) : Int :=
  match firstIndex (fun i => (root_directory i).is_used == 0) MAX_DIRECTORY_ENTRIES 0 with
  | some i => (i : Int)
  | none => -1

/-- `update_root_directory`. -/
def update_root_directory (BLOCKSIZE : Nat) (st : State) : Int × State :=
  let r := write_block BLOCKSIZE st.vdisk (memFrom (metaByte st.metadata) DIR_OFFSET)
    (i32 st.metadata.superblock.root_dir_start)
  if r.1 ≠ 0 then (-1, { st with vdisk := r.2 }) else (0, { st with vdisk := r.2 })

/-- `vscreate(filename)`.  The five fields are assigned; the padding bytes of
the entry keep their content. -/
def vscreate (BLOCKSIZE : Nat) (st : State) (filename : List Nat) : Int × State :=
  let root_directory := st.metadata.root_directory
  let free_entry_index := find_free_directory_entry root_directory
  if free_entry_index = -1 then (-1, st)
  else
    let e : DirectoryEntry :=
      { root_directory free_entry_index.toNat with
        filename := strncpy filename MAX_FILENAME_LENGTH
        size := 0
        start_block := 0
        current_position := 0
        is_used := 1 }
    let st1 : State :=
      { st with metadata :=
          { st.metadata with root_directory := setAt root_directory free_entry_index.toNat e } }
    let r := update_root_directory BLOCKSIZE st1
    if r.1 ≠ 0 then (-1, r.2) else (0, r.2)

/-- The search loop shared by `vsopen` and `vsdelete`: the first in-use entry
for which `strcmp(root_directory[i].filename, filename)` is 0, or -1. -/
def find_file (root_directory : Nat → DirectoryEntry) (filename : List Nat) : Int :=
  match firstIndex
      (fun i => (root_directory i).is_used != 0
        && strcmp (filenameAt root_directory i) filename == 0)
      MAX_DIRECTORY_ENTRIES 0 with
  | some i => (i : Int)
  | none => -1

/-- `vsopen(filename, mode)`. -/
def vsopen (st : State) (filename : List Nat) (mode : Int) : Int × State :=
  let file_index := find_file st.metadata.root_directory filename
  if file_index = -1 then (-1, st)
  else if (firstIndex (fun i => st.OpenFileTable i == file_index) MAX_OPEN_FILES 0).isSome then
    (-1, st)
  else
    let open_file_index : Int :=
      match firstIndex (fun i => st.OpenFileTable i == -1) MAX_OPEN_FILES 0 with
      | some i => (i : Int)
      | none => -1
    if open_file_index = -1 then (-1, st)
    else
      (open_file_index,
        { st with
          OpenFileTable := setAt st.OpenFileTable open_file_index.toNat file_index
          OpenFileModes := setAt st.OpenFileModes open_file_index.toNat mode })

/-- `vssize(fd)`.  The second test `file_index == -1` of the source repeats
the third disjunct of the first test and cannot fire; the same holds in
`vsclose`, `vsread` and `vsappend`. -/
def vssize (st : State) (fd : Int) : Int :=
  if fd < 0 ∨ fd ≥ MAX_OPEN_FILES ∨ st.OpenFileTable fd.toNat = -1 then -1
  else
    let file_index := st.OpenFileTable fd.toNat
    i32 (st.metadata.root_directory file_index.toNat).size

/-- `vsclose(fd)`. -/
def vsclose (st : State) (fd : Int) : Int × State :=
  if fd < 0 ∨ fd ≥ MAX_OPEN_FILES ∨ st.OpenFileTable fd.toNat = -1 then (-1, st)
  else (0, { st with OpenFileTable := setAt st.OpenFileTable fd.toNat (-1) })

/-- `vsdelete(filename)`, for a non-null `filename`.  The cursor of the
deleted entry is not reset, as in the source. -/
def vsdelete (BLOCKSIZE : Nat) (st : State) (filename : List Nat) : Int × State :=
  if strlen filename > MAX_FILENAME_LENGTH then (-1, st)
  else
    let entryIndex := find_file st.metadata.root_directory filename
    if entryIndex = -1 then (-1, st)
    else
      let old := st.metadata.root_directory entryIndex.toNat
      let e : DirectoryEntry :=
        { old with
          is_used := 0
          size := 0
          start_block := 0
          filename := List.replicate MAX_FILENAME_LENGTH 0 }
      let st1 : State :=
        { st with metadata :=
            { st.metadata with
              root_directory := setAt st.metadata.root_directory entryIndex.toNat e } }
      let r := write_block BLOCKSIZE st1.vdisk (memFrom (metaByte st1.metadata) DIR_OFFSET)
        ((SUPERBLOCK_SIZE : Int) + FAT_SIZE)
      if r.1 = -1 then (-1, { st1 with vdisk := r.2 }) else (0, { st1 with vdisk := r.2 })

/-! ## Read and append -/

/-- Outcome of the transfer loop of `vsread`. -/
inductive ReadLoop where
  | io_error (d : Disk) (buf : Mem)
  | done (d : Disk) (buf : Mem) (current_position : Nat)

/-- The `while (remaining_bytes > 0)` loop of `vsread`; `none` when the
iteration budget (first argument) is used up before the loop ends. -/
def vsread_loop (BLOCKSIZE : Nat) (start_block : Int) :
    Nat → Disk → Mem → Nat → Int → Int → Option ReadLoop
  | 0, d, buf, current_position, _, remaining_bytes =>
    if remaining_bytes > 0 then none else some (ReadLoop.done d buf current_position)
  | fuel + 1, d, buf, current_position, offset, remaining_bytes =>
    if remaining_bytes > 0 then
      let block_number := i32 (start_block + (current_position / BLOCKSIZE : Nat))
      let block_offset := i32 ((current_position % BLOCKSIZE : Nat))
      let read_size :=
        if remaining_bytes < BLOCKSIZE - block_offset then remaining_bytes
        else BLOCKSIZE - block_offset
      let r := read_block BLOCKSIZE d (memFrom buf offset.toNat) block_number
      let buf1 := memPatch buf offset.toNat r.2.1
      if r.1 ≠ 0 then some (ReadLoop.io_error r.2.2 buf1)
      else
        vsread_loop BLOCKSIZE start_block fuel r.2.2 buf1 (u32 (current_position + read_size))
          (offset + read_size) (remaining_bytes - read_size)
    else some (ReadLoop.done d buf current_position)

/-- `vsread(fd, buf, n)`: the return value, the globals and the memory at
`buf` afterwards.  Every iteration of the loop consumes at least one byte
when `BLOCKSIZE` is positive, so `bytes_to_read` iterations are enough. -/
def vsread (BLOCKSIZE : Nat) (st : State) (fd : Int) (buf : Mem) (n : Int) :
    Option (Int × State × Mem) :=
  if fd < 0 ∨ fd ≥ MAX_OPEN_FILES ∨ st.OpenFileTable fd.toNat = -1 then some (-1, st, buf)
  else
    let file_index := st.OpenFileTable fd.toNat
    let root_directory := st.metadata.root_directory
    let current_position := (root_directory file_index.toNat).current_position
    let available_bytes := u32 ((root_directory file_index.toNat).size - (current_position : Int))
    let bytes_to_read : Int := if u32 n < available_bytes then n else i32 available_bytes
    let start_block := i32 (root_directory file_index.toNat).start_block
    match vsread_loop BLOCKSIZE start_block bytes_to_read.toNat st.vdisk buf current_position 0
        bytes_to_read with
    | none => none
    | some (ReadLoop.io_error d buf1) => some (-1, { st with vdisk := d }, buf1)
    | some (ReadLoop.done d buf1 cur) =>
      let e := { root_directory file_index.toNat with current_position := cur }
      some (bytes_to_read,
        { st with
          vdisk := d
          metadata := { st.metadata with
            root_directory := setAt root_directory file_index.toNat e } },
        buf1)

/-- `vsappend(fd, buf, n)`.  The body of the `while` loop ends either with
`return -1` or with `remaining_bytes <= 0`, so it runs at most once. -/
def vsappend (BLOCKSIZE : Nat) (MODE_APPEND : Int) (st : State) (fd : Int) (buf : Mem) (n : Int) :
    Int × State :=
  if fd < 0 ∨ fd ≥ MAX_OPEN_FILES ∨ st.OpenFileTable fd.toNat = -1
      ∨ st.OpenFileModes fd.toNat ≠ MODE_APPEND then (-1, st)
  else
    let file_index := st.OpenFileTable fd.toNat
    let root_directory := st.metadata.root_directory
    let current_position := (root_directory file_index.toNat).current_position
    let start_block := i32 (root_directory file_index.toNat).start_block
    let block_number := i32 (start_block + (current_position / BLOCKSIZE : Nat))
    let block_offset := i32 ((current_position % BLOCKSIZE : Nat))
    let finish (d : Disk) (cur : Nat) : Int × State :=
      let e := { root_directory file_index.toNat with current_position := cur, size := cur }
      (n, { st with
            vdisk := d
            metadata := { st.metadata with
              root_directory := setAt root_directory file_index.toNat e } })
    if n > 0 then
      let append_size := if n < BLOCKSIZE - block_offset then n else BLOCKSIZE - block_offset
      let r := write_block BLOCKSIZE st.vdisk (memFrom buf 0) block_number
      if r.1 ≠ 0 then (-1, { st with vdisk := r.2 })
      else if n - append_size > 0 then (-1, { st with vdisk := r.2 })
      else finish r.2 (u32 (current_position + append_size))
    else finish st.vdisk current_position

/-! ## Definitions used to state the properties -/

/-- A block index whose block lies wholly inside the host file. -/
def readable (BLOCKSIZE : Nat) (d : Disk) (k : Int) : Prop :=
  0 ≤ i32 (k * BLOCKSIZE) ∧ (i32 (k * BLOCKSIZE)).toNat + BLOCKSIZE ≤ d.size

/-- A run of consecutive `vsappend` calls on one descriptor: the list of
return values and the globals after the last call. -/
def appendRun (BLOCKSIZE : Nat) (MODE_APPEND : Int) (fd : Int) :
    State → List (Mem × Int) → List Int × State
  | st, [] => ([], st)
  | st, c :: rest =>
    let r := vsappend BLOCKSIZE MODE_APPEND st fd c.1 c.2
    let q := appendRun BLOCKSIZE MODE_APPEND fd r.2 rest
    (r.1 :: q.1, q.2)

/-- A volume as `vsformat` followed by `vsmount` leaves it: empty directory,
empty open-file table, the directory region at block 33, and a host file that
can hold the 41 metadata blocks. -/
def FreshVolume (BLOCKSIZE : Nat) (st : State) : Prop :=
  (∀ i, i < MAX_DIRECTORY_ENTRIES → (st.metadata.root_directory i).is_used = 0)
  ∧ (∀ i, i < MAX_OPEN_FILES → st.OpenFileTable i = -1)
  ∧ st.metadata.superblock.root_dir_start = SUPERBLOCK_SIZE + FAT_SIZE
  ∧ 41 * BLOCKSIZE ≤ st.vdisk.limit
  ∧ 41 * BLOCKSIZE < 2147483648

/-- The return values of the call sequence create, open for append, append,
size, close, open for reading, read. -/
structure RoundTrip where
  created : Int
  fd : Int
  appended : Int
  size : Int
  closed : Int
  fd2 : Int
  read : Option (Int × State × Mem)

/-- The call sequence `vscreate(name); fd = vsopen(name, MODE_APPEND);
vsappend(fd, src, n); vssize(fd); vsclose(fd); fd2 = vsopen(name, MODE_READ);
vsread(fd2, buf, n)`. -/
def roundTrip (BLOCKSIZE : Nat) (MODE_READ MODE_APPEND : Int) (st : State) (name : List Nat)
    (src : Mem) (n : Int) (buf : Mem) : RoundTrip :=
  let c := vscreate BLOCKSIZE st name
  let o := vsopen c.2 name MODE_APPEND
  let a := vsappend BLOCKSIZE MODE_APPEND o.2 o.1 src n
  let cl := vsclose a.2 o.1
  let o2 := vsopen cl.2 name MODE_READ
  { created := c.1
    fd := o.1
    appended := a.1
    size := vssize a.2 o.1
    closed := cl.1
    fd2 := o2.1
    read := vsread BLOCKSIZE o2.2 o2.1 buf n }

/-- The directory entry `vscreate` makes of the unused entry `e`. -/
def createdEntry (e : DirectoryEntry) (filename : List Nat) : DirectoryEntry :=
  { e with
    filename := strncpy filename MAX_FILENAME_LENGTH
    size := 0
    start_block := 0
    current_position := 0
    is_used := 1 }

/-- The characters of a C string: the bytes before the first zero byte. -/
def cstring (s : List Nat) : List Nat := s.takeWhile (fun c => c != 0)

/-- The 30 bytes of the `filename` field of a directory entry. -/
def filenameBytes (e : DirectoryEntry) : List Nat :=
  (List.range MAX_FILENAME_LENGTH).map (entryByte e)

/-- The name a directory entry holds: the characters in the 30 bytes of its
`filename` field, up to the first zero byte if there is one. -/
def entryName (e : DirectoryEntry) : List Nat := cstring (filenameBytes e)

/-- One call of the file interface, with its arguments. -/
inductive Call where
  | vscreate (filename : List Nat)
  | vsdelete (filename : List Nat)
  | vsopen (filename : List Nat) (mode : Int)
  | vsclose (fd : Int)
  | vsread (fd : Int) (buf : Mem) (n : Int)
  | vsappend (fd : Int) (buf : Mem) (n : Int)

/-- The globals after one call, whatever it returned; `none` when the loop
of `vsread` is cut off by its iteration budget. -/
def step (BLOCKSIZE : Nat) (MODE_APPEND : Int) (st : State) : Call → Option State
  | Call.vscreate filename => some (vscreate BLOCKSIZE st filename).2
  | Call.vsdelete filename => some (vsdelete BLOCKSIZE st filename).2
  | Call.vsopen filename mode => some (vsopen st filename mode).2
  | Call.vsclose fd => some (vsclose st fd).2
  | Call.vsread fd buf n =>
    match vsread BLOCKSIZE st fd buf n with
    | some r => some r.2.1
    | none => none
  | Call.vsappend fd buf n => some (vsappend BLOCKSIZE MODE_APPEND st fd buf n).2

/-- The globals after a sequence of calls. -/
def run (BLOCKSIZE : Nat) (MODE_APPEND : Int) : State → List Call → Option State
  | st, [] => some st
  | st, c :: rest =>
    match step BLOCKSIZE MODE_APPEND st c with
    | some st1 => run BLOCKSIZE MODE_APPEND st1 rest
    | none => none

/-- No two in-use directory entries hold the same name. -/
def UniqueNames (root_directory : Nat → DirectoryEntry) : Prop :=
  ∀ i j, i < MAX_DIRECTORY_ENTRIES → j < MAX_DIRECTORY_ENTRIES →
    (root_directory i).is_used ≠ 0 → (root_directory j).is_used ≠ 0 →
    entryName (root_directory i) = entryName (root_directory j) → i = j

/-- Every in-use directory entry holds a name that ends inside the
`filename` field: one of the 30 bytes is the terminator. -/
def TerminatedNames (root_directory : Nat → DirectoryEntry) : Prop :=
  ∀ i, i < MAX_DIRECTORY_ENTRIES → (root_directory i).is_used ≠ 0 →
    (entryName (root_directory i)).length < MAX_FILENAME_LENGTH

/-- Every `vscreate` of the sequence is given a name of fewer than
`MAX_FILENAME_LENGTH` characters for which the lookup of `vsopen` finds no
in-use entry when the call is made. -/
def createsAreNew (BLOCKSIZE : Nat) (MODE_APPEND : Int) : State → List Call → Prop
  | _, [] => True
  | st, c :: rest =>
    (match c with
      | Call.vscreate filename =>
        strlen filename < MAX_FILENAME_LENGTH
          ∧ find_file st.metadata.root_directory filename = -1
      | _ => True)
    ∧ (match step BLOCKSIZE MODE_APPEND st c with
      | some st1 => createsAreNew BLOCKSIZE MODE_APPEND st1 rest
      | none => True)

/-- Every directory-entry index sits in at most one occupied slot of the
open-file table. -/
def TableInjective (OpenFileTable : Nat → Int) : Prop :=
  ∀ i j, i < MAX_OPEN_FILES → j < MAX_OPEN_FILES →
    OpenFileTable i ≠ -1 → OpenFileTable i = OpenFileTable j → i = j

/-- The names behind the descriptors: when `vsopen(filename, mode)` returns a
descriptor, the name it was given is noted for that slot. -/
def noteOpen (st : State) (opened : Nat → List Nat) : Call → Nat → List Nat
  | Call.vsopen filename mode =>
    if (vsopen st filename mode).1 = -1 then opened
    else setAt opened (vsopen st filename mode).1.toNat filename
  | _ => opened

/-- The globals after a sequence of calls, together with the names noted by
`noteOpen`. -/
def runNoted (BLOCKSIZE : Nat) (MODE_APPEND : Int) :
    State → (Nat → List Nat) → List Call → Option (State × (Nat → List Nat))
  | st, opened, [] => some (st, opened)
  | st, opened, c :: rest =>
    match step BLOCKSIZE MODE_APPEND st c with
    | some st1 => runNoted BLOCKSIZE MODE_APPEND st1 (noteOpen st opened c) rest
    | none => none

/-- No `vsdelete` of the sequence names a file that a slot of the open-file
table refers to when the call is made. -/
def noDeleteOfOpen (BLOCKSIZE : Nat) (MODE_APPEND : Int) : State → List Call → Prop
  | _, [] => True
  | st, c :: rest =>
    (match c with
      | Call.vsdelete filename =>
        ∀ s, s < MAX_OPEN_FILES → st.OpenFileTable s ≠ -1 →
          st.OpenFileTable s ≠ find_file st.metadata.root_directory filename
      | _ => True)
    ∧ (match step BLOCKSIZE MODE_APPEND st c with
      | some st1 => noDeleteOfOpen BLOCKSIZE MODE_APPEND st1 rest
      | none => True)

/-- Every occupied slot of the open-file table refers to an in-use directory
entry that holds the name noted for the slot (its first
`MAX_FILENAME_LENGTH` characters, which is all the field can hold). -/
def DescriptorsValid (st : State) (opened : Nat → List Nat) : Prop :=
  ∀ s, s < MAX_OPEN_FILES → st.OpenFileTable s ≠ -1 →
    ∃ idx : Nat, idx < MAX_DIRECTORY_ENTRIES ∧ st.OpenFileTable s = (idx : Int)
      ∧ (st.metadata.root_directory idx).is_used ≠ 0
      ∧ entryName (st.metadata.root_directory idx)
          = (cstring (opened s)).take MAX_FILENAME_LENGTH

/-- In every in-use directory entry the cursor is at most the size. -/
def CursorInBounds (root_directory : Nat → DirectoryEntry) : Prop :=
  ∀ i, i < MAX_DIRECTORY_ENTRIES → (root_directory i).is_used ≠ 0 →
    (root_directory i).current_position ≤ (root_directory i).size

/-- The block index `vsappend(fd, buf, n)` hands to `write_block` when `n > 0`
and the descriptor passes the checks: `start_block + current_position /
BLOCKSIZE` of the file behind `fd`. -/
def vsappend_block_number (BLOCKSIZE : Nat) (st : State) (fd : Int) : Int :=
  let file_index := st.OpenFileTable fd.toNat
  let root_directory := st.metadata.root_directory
  let current_position := (root_directory file_index.toNat).current_position
  let start_block := i32 (root_directory file_index.toNat).start_block
  i32 (start_block + (current_position / BLOCKSIZE : Nat))

/-- The transfer of `write_block` at block `k` is complete whatever the
content: the host file can hold a whole block at the offset reached. -/
def writable (BLOCKSIZE : Nat) (d : Disk) (k : Int) : Prop :=
  ∀ block : Mem, (write_block BLOCKSIZE d block k).1 = 0

/-! ## Concrete volumes and inputs -/

/-- A directory entry of zero-initialised static storage. -/
def zeroEntry : DirectoryEntry :=
  { filename := List.replicate MAX_FILENAME_LENGTH 0
    size := 0
    start_block := 0
    current_position := 0
    is_used := 0
    padding := fun _ => 0 }

/-- The metadata at program start: static storage, all zero. -/
def zeroMetadata : FileSystemMetadata :=
  { superblock := ⟨0, 0, 0, 0, 0, 0, 0, 0, fun _ => 0⟩
    fat_table := fun _ => 0
    root_directory := fun _ => zeroEntry }

/-- The globals at program start, with host file `d`. -/
def initialState (d : Disk) : State :=
  { vdisk := d
    metadata := zeroMetadata
    OpenFileTable := fun _ => -1
    OpenFileModes := fun _ => -1 }

/-- An empty host file that may grow to 4 GiB. -/
def blankDisk : Disk :=
  { openable := true
    size := 0
    limit := 4294967296
    pos := 0
    bytes := fun _ => 0 }

/-- The volume after `vsformat(path, 18)` and `vsmount(path)` with 2048-byte
blocks, the uninitialised local of `vsformat` having held zero bytes. -/
def freshVolume : State :=
  (vsmount 2048 (initialState (vsformat 2048 zeroMetadata blankDisk 18).2)).2

/-- The bytes of a list, followed by zero bytes. -/
def memOfList (l : List Nat) : Mem := fun j => l.getD j 0

/-- The name "a.txt". -/
def name_a_txt : List Nat := [97, 46, 116, 120, 116]

/-- The five bytes "hello". -/
def hello : List Nat := [104, 101, 108, 108, 111]

/-- The name "a". -/
def name_a : List Nat := [97]

/-- The name "b". -/
def name_b : List Nat := [98]

/-- The fresh volume after `vscreate("a")`. -/
def oneFile : State := (vscreate 2048 freshVolume name_a).2

/-- File "a" opened with mode 1 (taken as `MODE_APPEND`); the descriptor is 0. -/
def oneFileOpen : State := (vsopen oneFile name_a 1).2

/-- The fresh volume after `vscreate("a"); vscreate("b")`. -/
def twoFiles : State := (vscreate 2048 oneFile name_b).2

/-- `twoFiles` after `vsumount(); vsmount(path)` in the same process. -/
def remounted : State := (vsmount 2048 (vsumount 2048 twoFiles).2).2

/-- The store left by unmounting `twoFiles`, mounted by a new process. -/
def restarted : State := (vsmount 2048 (initialState (vsumount 2048 twoFiles).2.vdisk)).2

/-- The fresh volume after `vscreate("a"); vscreate("a")`. -/
def duplicateNames : State := (vscreate 2048 oneFile name_a).2

/-- Files "a" and "b" both open for appending: descriptor 0 is "a", descriptor 1 is "b". -/
def twoOpen : State := (vsopen (vsopen twoFiles name_a 1).2 name_b 1).2

/-- `twoOpen` after appending the byte 120 to "a". -/
def afterAppendA : State := (vsappend 2048 1 twoOpen 0 (memOfList [120]) 1).2

/-- `afterAppendA` after appending the byte 121 to "b". -/
def afterAppendB : State := (vsappend 2048 1 afterAppendA 1 (memOfList [121]) 1).2

/-- The block that `vsread` and `vsappend` address for byte `pos` of a file:
`start_block + pos / BLOCKSIZE`, computed as in the source. -/
def fileBlock (BLOCKSIZE : Nat) (e : DirectoryEntry) (pos : Nat) : Int :=
  i32 (i32 e.start_block + (pos / BLOCKSIZE : Nat))

/-- A mounted volume whose entry 0 is a 5000-byte file read up to byte 100
and open on descriptor 0. -/
def partlyRead : State :=
  { freshVolume with
    metadata := { freshVolume.metadata with
      root_directory := setAt freshVolume.metadata.root_directory 0
        { filename := strncpy name_a MAX_FILENAME_LENGTH
          size := 5000
          start_block := 0
          current_position := 100
          is_used := 1
          padding := fun _ => 0 } }
    OpenFileTable := setAt freshVolume.OpenFileTable 0 0 }

/-- File "a" opened with mode 0 (not the append mode 1); the descriptor is 0. -/
def oneFileOpenForRead : State := (vsopen oneFile name_a 0).2

/-- A name of 31 characters: thirty times "a", then "b". -/
def longName : List Nat := List.replicate 30 97 ++ [98]

/-- The name "c". -/
def name_c : List Nat := [99]

/-- `oneFileOpen` after `vsdelete("a")`, the file behind descriptor 0. -/
def deletedWhileOpen : State := (vsdelete 2048 oneFileOpen name_a).2

/-- `deletedWhileOpen` after `vscreate("b")`. -/
def slotReused : State := (vscreate 2048 deletedWhileOpen name_b).2

/-- A buffer of 2049 bytes with value 120. -/
def manyBytes : Mem := fun j => if j < 2049 then 120 else 0


/-- A name of 30 characters: thirty times "a". -/
def name30 : List Nat := List.replicate 30 97

/-- The fresh volume after `vscreate("b"); vscreate("a"); vsopen("a", 1);
vsdelete("b"); vscreate("a")`: descriptor 0 is still open on entry 1, and
entry 0 holds a second file named "a". -/
def shadowed : State :=
  (vscreate 2048
    (vsdelete 2048
      (vsopen (vscreate 2048 (vscreate 2048 freshVolume name_b).2 name_a).2 name_a 1).2
      name_b).2
    name_a).2

/-- The fresh volume after `vscreate(name30); vsdelete(name30);
vscreate(longName)`. -/
def truncatedTwin : State :=
  (vscreate 2048 (vsdelete 2048 (vscreate 2048 freshVolume name30).2 name30).2 longName).2

/-- Metadata whose padding bytes all hold 88, as the uninitialised local of
`vsformat` may. -/
def paddedMetadata : FileSystemMetadata :=
  { superblock := ⟨0, 0, 0, 0, 0, 0, 0, 0, fun _ => 88⟩
    fat_table := fun _ => 0
    root_directory := fun _ => { zeroEntry with padding := fun _ => 88 } }

/-- The volume after `vsformat(path, 18)` and `vsmount(path)` with 2048-byte
blocks, the uninitialised local of `vsformat` having held `paddedMetadata`. -/
def paddedVolume : State :=
  (vsmount 2048 (initialState (vsformat 2048 paddedMetadata blankDisk 18).2)).2


/-- `slotReused` after `vscreate("a")`: descriptor 0, opened on the deleted
file "a", refers to entry 0, which holds "b"; the new file "a" is entry 1. -/
def recreated : State := (vscreate 2048 slotReused name_a).2

/-- The name that `strcmp` reads from an entry of `paddedVolume` whose name
field holds `name30`: the 30 characters and the two padding bytes behind the
field (the byte after them, the low byte of the size 0, ends it). -/
def name32 : List Nat := name30 ++ [88, 88]

/-- The volume `paddedVolume` after `vscreate("b"); vscreate(name30);
vsopen(name32, 1); vsdelete("b"); vscreate(name30)`: descriptor 0 is open on
entry 1, and entry 0 holds a second file with the same 30 characters. -/
def paddedShadowed : State :=
  (vscreate 2048
    (vsdelete 2048
      (vsopen (vscreate 2048 (vscreate 2048 paddedVolume name_b).2 name30).2 name32 1).2
      name_b).2
    name30).2

/-! Several statements below are settled by evaluating the operations on a
concrete volume; the evaluation needs a deeper recursion limit. -/

set_option maxRecDepth 1000000

/-! ## Lemmas: machine integers and block transfers -/

theorem u32_of_range {x : Int} (h0 : 0 ≤ x) (h1 : x < 4294967296) : u32 x = x.toNat := by
  unfold u32
  rw [Int.emod_eq_of_lt h0 h1]

theorem u32_natCast {x : Nat} (h1 : x < 4294967296) : u32 (x : Int) = x := by
  rw [u32_of_range (by omega) (by omega)]
  simp

theorem i32_of_range {x : Int} (h0 : -2147483648 ≤ x) (h1 : x < 2147483648) : i32 x = x := by
  unfold i32
  omega

theorem read_block_readable (BS : Nat) (d : Disk) (blk : Mem) (k : Int)
    (h : readable BS d k) :
    (read_block BS d blk k).1 = 0 ∧ (read_block BS d blk k).2.2.size = d.size := by
  obtain ⟨h0, h1⟩ := h
  unfold read_block lseek
  simp only [h0, if_true]
  have : min BS (d.size - (i32 (k * BS)).toNat) = BS := by
    apply Nat.min_eq_left; omega
  simp [this]

theorem vsread_loop_done (BS : Nat) (hBS : 0 < BS) (hBS2 : BS < 2147483648) (start_block : Int) :
    ∀ (fuel : Nat) (d : Disk) (buf : Mem) (cur : Nat) (offset remaining : Int),
      0 ≤ remaining → remaining.toNat ≤ fuel → (cur : Int) + remaining < 4294967296 →
      (∀ p : Nat, cur ≤ p → (p : Int) < cur + remaining →
        readable BS d (i32 (start_block + (p / BS : Nat)))) →
      ∃ d1 buf1, vsread_loop BS start_block fuel d buf cur offset remaining
          = some (ReadLoop.done d1 buf1 (cur + remaining.toNat)) := by
  intro fuel
  induction fuel with
  | zero =>
    intro d buf cur offset remaining h0 hf _ _
    have : remaining = 0 := by omega
    subst this
    exact ⟨d, buf, by simp [vsread_loop]⟩
  | succ fuel ih =>
    intro d buf cur offset remaining h0 hf hlt hrd
    by_cases hr : remaining > 0
    · have hmod : (cur % BS : Nat) < BS := Nat.mod_lt _ hBS
      have hbo : i32 ((cur % BS : Nat) : Int) = ((cur % BS : Nat) : Int) :=
        i32_of_range (by omega) (by omega)
      have hfirst := read_block_readable BS d (memFrom buf offset.toNat) _
        (hrd cur (le_refl _) (by omega))
      unfold vsread_loop
      simp only [hr, if_true, hbo]
      simp only [hfirst.1, ne_eq, not_true_eq_false, if_false]
      by_cases hc : remaining < (BS : Int) - ((cur % BS : Nat) : Int)
      · simp only [hc, if_true]
        have hu : u32 ((cur : Int) + remaining) = cur + remaining.toNat := by
          rw [u32_of_range (by omega) (by omega)]; omega
        rw [hu]
        obtain ⟨d1, buf1, h1⟩ := ih (read_block BS d (memFrom buf offset.toNat)
            (i32 (start_block + ((cur / BS : Nat) : Int)))).2.2
          (memPatch buf offset.toNat (read_block BS d (memFrom buf offset.toNat)
            (i32 (start_block + ((cur / BS : Nat) : Int)))).2.1)
          (cur + remaining.toNat) (offset + remaining) (remaining - remaining)
          (by omega) (by simp) (by omega) (by intro p hp1 hp2; omega)
        refine ⟨d1, buf1, ?_⟩
        rw [h1]; simp
      · simp only [hc, if_false]
        have hrs : (0 : Int) < (BS : Int) - ((cur % BS : Nat) : Int) := by omega
        have hu : u32 ((cur : Int) + ((BS : Int) - ((cur % BS : Nat) : Int)))
            = cur + (BS - cur % BS) := by
          rw [u32_of_range (by omega) (by omega)]; omega
        rw [hu]
        obtain ⟨d1, buf1, h1⟩ := ih (read_block BS d (memFrom buf offset.toNat)
            (i32 (start_block + ((cur / BS : Nat) : Int)))).2.2
          (memPatch buf offset.toNat (read_block BS d (memFrom buf offset.toNat)
            (i32 (start_block + ((cur / BS : Nat) : Int)))).2.1)
          (cur + (BS - cur % BS)) (offset + ((BS : Int) - ((cur % BS : Nat) : Int)))
          (remaining - ((BS : Int) - ((cur % BS : Nat) : Int)))
          (by omega) (by omega) (by omega)
          (by
            intro p hp1 hp2
            have := hrd p (by omega) (by omega)
            unfold readable at this ⊢
            rw [hfirst.2]; exact this)
        refine ⟨d1, buf1, ?_⟩
        have hx : cur + (BS - cur % BS)
            + (remaining - ((BS : Int) - ((cur % BS : Nat) : Int))).toNat
            = cur + remaining.toNat := by omega
        rw [hx] at h1
        exact h1
    · have : remaining = 0 := by omega
      subst this
      exact ⟨d, buf, by simp [vsread_loop]⟩

theorem lseek_natCast (d : Disk) (off : Nat) : lseek d (off : Int) = { d with pos := off } := by
  simp [lseek]

theorem i32_natCast_mul (k BS : Nat) (h : k * BS < 2147483648) :
    i32 ((k : Int) * (BS : Int)) = ((k * BS : Nat) : Int) := by
  rw [← Nat.cast_mul]
  exact i32_of_range (by have := Int.ofNat_nonneg (k * BS); omega) (by exact_mod_cast h)

theorem write_block_fits (BS : Nat) (d : Disk) (blk : Mem) (k : Nat)
    (h1 : k * BS < 2147483648) (h2 : k * BS + BS ≤ d.limit) :
    (write_block BS d blk (k : Int)).1 = 0
    ∧ (write_block BS d blk (k : Int)).2.limit = d.limit := by
  have hmin : min BS (d.limit - k * BS) = BS := Nat.min_eq_left (by omega)
  simp only [write_block, i32_natCast_mul k BS h1, lseek_natCast, hmin]
  simp

/-! ## Lemmas: arrays, search loops and C strings -/

theorem setAt_same {α : Type} (f : Nat → α) (i : Nat) (v : α) : setAt f i v i = v := by
  simp [setAt]

theorem setAt_other {α : Type} (f : Nat → α) (i j : Nat) (v : α) (h : j ≠ i) :
    setAt f i v j = f j := by
  simp [setAt, h]

theorem firstIndex_some {p : Nat → Bool} : ∀ {n s i : Nat}, firstIndex p n s = some i →
    s ≤ i ∧ i < s + n ∧ p i = true ∧ ∀ j, s ≤ j → j < i → p j = false := by
  intro n
  induction n with
  | zero => intro s i h; simp [firstIndex] at h
  | succ n ih =>
    intro s i h
    unfold firstIndex at h
    by_cases hp : p s = true
    · rw [if_pos hp] at h
      have hi : s = i := by simpa using h
      subst hi
      exact ⟨le_refl _, by omega, hp, fun j h1 h2 => by omega⟩
    · rw [if_neg hp] at h
      obtain ⟨h1, h2, h3, h4⟩ := ih h
      refine ⟨by omega, by omega, h3, ?_⟩
      intro j hj1 hj2
      by_cases hjs : j = s
      · subst hjs; simpa using hp
      · exact h4 j (by omega) hj2

theorem firstIndex_none {p : Nat → Bool} : ∀ {n s : Nat}, firstIndex p n s = none →
    ∀ j, s ≤ j → j < s + n → p j = false := by
  intro n
  induction n with
  | zero => intro s _ j h1 h2; omega
  | succ n ih =>
    intro s h j hj1 hj2
    unfold firstIndex at h
    by_cases hp : p s = true
    · rw [if_pos hp] at h; simp at h
    · rw [if_neg hp] at h
      by_cases hjs : j = s
      · subst hjs; simpa using hp
      · exact ih h j (by omega) (by omega)

theorem firstIndex_eq_some {p : Nat → Bool} : ∀ {n s i : Nat}, s ≤ i → i < s + n → p i = true →
    (∀ j, s ≤ j → j < i → p j = false) → firstIndex p n s = some i := by
  intro n
  induction n with
  | zero => intro s i h1 h2; omega
  | succ n ih =>
    intro s i h1 h2 h3 h4
    unfold firstIndex
    by_cases hsi : s = i
    · subst hsi; rw [if_pos h3]
    · have : p s = false := h4 s (le_refl _) (by omega)
      rw [if_neg (by simp [this])]
      exact ih (by omega) (by omega) h3 (fun j hj1 hj2 => h4 j (by omega) hj2)

theorem firstIndex_eq_none {p : Nat → Bool} : ∀ {n s : Nat},
    (∀ j, s ≤ j → j < s + n → p j = false) → firstIndex p n s = none := by
  intro n
  induction n with
  | zero => intro s _; rfl
  | succ n ih =>
    intro s h
    unfold firstIndex
    have : p s = false := h s (le_refl _) (by omega)
    rw [if_neg (by simp [this])]
    exact ih (fun j hj1 hj2 => h j (by omega) (by omega))

theorem firstIndex_exists {p : Nat → Bool} {n s j : Nat} (h1 : s ≤ j) (h2 : j < s + n)
    (h3 : p j = true) : ∃ i, firstIndex p n s = some i ∧ i ≤ j := by
  cases h : firstIndex p n s with
  | none => have := firstIndex_none h j h1 h2; simp [h3] at this
  | some i =>
    refine ⟨i, rfl, ?_⟩
    obtain ⟨_, _, _, h4⟩ := firstIndex_some h
    by_contra hc
    have := h4 j h1 (by omega)
    simp [h3] at this

theorem find_free_directory_entry_zero (dir : Nat → DirectoryEntry) (h : (dir 0).is_used = 0) :
    find_free_directory_entry dir = 0 := by
  unfold find_free_directory_entry
  rw [firstIndex_eq_some (i := 0) (le_refl _) (by simp [MAX_DIRECTORY_ENTRIES]) (by simp [h])
    (fun j h1 h2 => by omega)]
  rfl

theorem find_file_zero (dir : Nat → DirectoryEntry) (name : List Nat)
    (h1 : (dir 0).is_used ≠ 0) (h2 : strcmp (filenameAt dir 0) name = 0) :
    find_file dir name = 0 := by
  unfold find_file
  rw [firstIndex_eq_some (i := 0) (le_refl _) (by simp [MAX_DIRECTORY_ENTRIES])
    (by simp [h1, h2]) (fun j h1 h2 => by omega)]
  rfl

/-- `vsopen` on a table without open files, for a name held by entry 0. -/
theorem vsopen_first (st : State) (name : List Nat) (mode : Int)
    (h1 : (st.metadata.root_directory 0).is_used ≠ 0)
    (h2 : strcmp (filenameAt st.metadata.root_directory 0) name = 0)
    (ht : ∀ i, i < MAX_OPEN_FILES → st.OpenFileTable i = -1) :
    vsopen st name mode = (0, { st with
      OpenFileTable := setAt st.OpenFileTable 0 0
      OpenFileModes := setAt st.OpenFileModes 0 mode }) := by
  have hnone : firstIndex (fun i => st.OpenFileTable i == ((0 : Nat) : Int)) MAX_OPEN_FILES 0
      = none := by
    apply firstIndex_eq_none
    intro j _ hj
    rw [ht j (by simpa using hj)]
    rfl
  have hsome : firstIndex (fun i => st.OpenFileTable i == -1) MAX_OPEN_FILES 0 = some 0 :=
    firstIndex_eq_some (le_refl _) (by simp [MAX_OPEN_FILES])
      (by simp [ht 0 (by simp [MAX_OPEN_FILES])]) (fun j h1 h2 => by omega)
  unfold vsopen
  rw [find_file_zero _ _ h1 h2]
  simp only [Nat.cast_zero] at hnone
  simp [hnone, hsome]

/-! ## Lemmas: stored names and `strcmp` on the directory memory -/

theorem strcmp_eq_zero_iff : ∀ (a b : List Nat),
    strcmp a b = 0 ↔ cstring a = cstring b := by
  intro a
  unfold cstring
  induction a with
  | nil =>
    intro b
    cases b with
    | nil => simp [strcmp]
    | cons y t =>
      by_cases hy : y = 0
      · simp [strcmp, List.takeWhile_cons, hy]
      · simp [strcmp, List.takeWhile_cons, hy]
  | cons x s ih =>
    intro b
    cases b with
    | nil =>
      by_cases hx : x = 0
      · simp [strcmp, List.takeWhile_cons, hx]
      · simp [strcmp, List.takeWhile_cons, hx]
    | cons y t =>
      by_cases hx : x = 0
      · by_cases hy : y = 0
        · simp [strcmp, List.takeWhile_cons, hx, hy]
        · have hne : ¬ ((0 : Int) - (y : Int) = 0) := by omega
          have hxy : ¬ (0 = y) := fun h => hy h.symm
          simp [strcmp, List.takeWhile_cons, hx, hy, hne, hxy]
      · by_cases hy : y = 0
        · have hne : ¬ ((x : Int) - 0 = 0) := by omega
          simp [strcmp, List.takeWhile_cons, hx, hy, hne]
        · by_cases hxy : x = y
          · subst hxy
            simp [strcmp, List.takeWhile_cons, hx, ih t]
          · have hne : ¬ ((x : Int) - (y : Int) = 0) := by omega
            simp [strcmp, List.takeWhile_cons, hx, hy, hxy, hne]

theorem strlen_eq_length : ∀ (s : List Nat), strlen s = (cstring s).length := by
  intro s
  unfold cstring
  induction s with
  | nil => rfl
  | cons c s ih =>
    by_cases hc : c = 0
    · simp [strlen, List.takeWhile_cons, hc]
    · simp [strlen, List.takeWhile_cons, hc, ih]

theorem strncpy_length : ∀ (k : Nat) (s : List Nat), (strncpy s k).length = k := by
  intro k
  induction k with
  | zero => intro s; simp [strncpy]
  | succ k ih =>
    intro s
    cases s with
    | nil => simp [strncpy, ih]
    | cons c s =>
      by_cases hc : c = 0
      · simp [strncpy, hc, ih]
      · simp [strncpy, hc, ih]

theorem cstring_strncpy : ∀ (k : Nat) (s : List Nat),
    cstring (strncpy s k) = (cstring s).take k := by
  intro k
  unfold cstring
  induction k with
  | zero => intro s; simp [strncpy]
  | succ k ih =>
    intro s
    cases s with
    | nil => simp [strncpy, List.takeWhile_cons]
    | cons c s =>
      by_cases hc : c = 0
      · simp [strncpy, hc, List.takeWhile_cons]
      · simp [strncpy, hc, List.takeWhile_cons, ih]

/-- The characters of the first part of a memory region, read off the
characters of the whole. -/
theorem cstring_append_take : ∀ (a r : List Nat),
    cstring a = (cstring (a ++ r)).take a.length := by
  intro a r
  unfold cstring
  induction a with
  | nil => simp
  | cons x a ih =>
    by_cases hx : x = 0
    · simp [List.takeWhile_cons, hx]
    · simp [List.takeWhile_cons, hx, ih]

/-- A zero byte inside the first part of a memory region ends the string
there. -/
theorem cstring_append_of_lt : ∀ (a r : List Nat), (cstring a).length < a.length →
    cstring (a ++ r) = cstring a := by
  intro a r
  unfold cstring
  induction a with
  | nil => intro h; simp at h
  | cons x a ih =>
    intro h
    by_cases hx : x = 0
    · simp [List.takeWhile_cons, hx]
    · simp only [List.cons_append, List.takeWhile_cons, bne_iff_ne, ne_eq, hx, not_false_eq_true,
        decide_True, if_true, List.length_cons, add_lt_add_iff_right] at h ⊢
      rw [ih h]

/-- `strcmp` does not read past the terminator of its second argument. -/
theorem strcmp_append : ∀ (a r name : List Nat), strlen name < a.length →
    strcmp (a ++ r) name = strcmp a name := by
  intro a
  induction a with
  | nil => intro r name h; simp at h
  | cons x a ih =>
    intro r name h
    cases name with
    | nil => simp [strcmp]
    | cons y n =>
      by_cases hy : y = 0
      · subst hy
        by_cases hx : x = 0
        · simp [strcmp, hx]
        · simp [strcmp, hx]
      · simp only [strlen, hy, if_false, List.length_cons, add_lt_add_iff_right] at h
        simp only [List.cons_append, strcmp, hy, and_false, if_false]
        have := ih r n h
        simp only [List.append_eq] at this ⊢
        rw [this]

theorem length_filenameBytes (e : DirectoryEntry) :
    (filenameBytes e).length = MAX_FILENAME_LENGTH := by
  simp [filenameBytes]

theorem filenameBytes_eq (e : DirectoryEntry) :
    filenameBytes e = (List.range MAX_FILENAME_LENGTH).map (fun o => e.filename.getD o 0) := by
  unfold filenameBytes
  apply List.map_congr_left
  intro o ho
  have : o < 30 := by simpa [MAX_FILENAME_LENGTH] using ho
  simp [entryByte, this]

theorem filenameBytes_congr {e1 e2 : DirectoryEntry} (h : e1.filename = e2.filename) :
    filenameBytes e1 = filenameBytes e2 := by
  rw [filenameBytes_eq, filenameBytes_eq, h]

theorem map_getD_range (l : List Nat) :
    (List.range l.length).map (fun o => l.getD o 0) = l := by
  apply List.ext_getElem
  · simp
  · intro n h1 h2
    simp [List.getD_eq_getElem?_getD, List.getElem?_eq_getElem h2]

theorem filenameBytes_of_length {e : DirectoryEntry}
    (h : e.filename.length = MAX_FILENAME_LENGTH) : filenameBytes e = e.filename := by
  rw [filenameBytes_eq, ← h]
  exact map_getD_range _

theorem entryName_congr {e1 e2 : DirectoryEntry} (h : e1.filename = e2.filename) :
    entryName e1 = entryName e2 := by
  unfold entryName
  rw [filenameBytes_congr h]

theorem entryName_createdEntry (e : DirectoryEntry) (name : List Nat) :
    entryName (createdEntry e name) = (cstring name).take MAX_FILENAME_LENGTH := by
  unfold entryName
  rw [filenameBytes_of_length (by simp [createdEntry, strncpy_length])]
  exact cstring_strncpy _ _

theorem length_entryName_le (e : DirectoryEntry) :
    (entryName e).length ≤ MAX_FILENAME_LENGTH := by
  unfold entryName cstring
  have := (List.takeWhile_prefix (fun c => c != 0) (l := filenameBytes e)).length_le
  rw [length_filenameBytes] at this
  exact this

theorem entryBytes_split (e : DirectoryEntry) :
    entryBytes e
      = filenameBytes e ++ (e.padding 30 % 256 :: (List.range' 31 97).map (entryByte e)) := by
  have h : List.range 128 = List.range 30 ++ 30 :: List.range' 31 97 := by decide
  unfold entryBytes filenameBytes
  rw [h]
  simp [MAX_FILENAME_LENGTH, entryByte]

/-- The memory at `root_directory[i].filename`: the 30 bytes of the field,
the padding byte at offset 30, and what follows. -/
theorem filenameAt_split (dir : Nat → DirectoryEntry) (i : Nat) (hi : i < MAX_DIRECTORY_ENTRIES) :
    ∃ rest, filenameAt dir i = filenameBytes (dir i) ++ ((dir i).padding 30 % 256 :: rest) := by
  obtain ⟨n, hn⟩ : ∃ n, MAX_DIRECTORY_ENTRIES - i = n + 1 := ⟨MAX_DIRECTORY_ENTRIES - i - 1, by omega⟩
  unfold filenameAt
  rw [hn]
  unfold directoryFrom
  rw [entryBytes_split]
  refine ⟨(List.range' 31 97).map (entryByte (dir i)) ++ directoryFrom dir n (i + 1), ?_⟩
  simp

/-- An entry for which the comparison of `vsopen` succeeds holds the name,
cut to the 30 characters the field can hold. -/
theorem entryName_of_match {dir : Nat → DirectoryEntry} {i : Nat} {name : List Nat}
    (hi : i < MAX_DIRECTORY_ENTRIES) (h : strcmp (filenameAt dir i) name = 0) :
    entryName (dir i) = (cstring name).take MAX_FILENAME_LENGTH := by
  obtain ⟨rest, hrest⟩ := filenameAt_split dir i hi
  rw [hrest] at h
  unfold entryName
  rw [cstring_append_take (filenameBytes (dir i)) _, (strcmp_eq_zero_iff _ _).mp h,
    length_filenameBytes]

/-- An entry that holds a name of fewer than 30 characters is found by the
comparison of `vsopen`. -/
theorem match_of_entryName {dir : Nat → DirectoryEntry} {i : Nat} {name : List Nat}
    (hi : i < MAX_DIRECTORY_ENTRIES) (hlen : strlen name < MAX_FILENAME_LENGTH)
    (h : entryName (dir i) = cstring name) : strcmp (filenameAt dir i) name = 0 := by
  obtain ⟨rest, hrest⟩ := filenameAt_split dir i hi
  rw [hrest, strcmp_eq_zero_iff]
  unfold entryName at h
  rw [cstring_append_of_lt _ _ (by rw [h, ← strlen_eq_length, length_filenameBytes]; exact hlen)]
  exact h

/-- For a name of at most 30 characters the comparison of `vsopen` reads only
the `filename` field and the padding byte behind it. -/
theorem strcmp_filenameAt_congr {dir dir1 : Nat → DirectoryEntry} {i : Nat} {name : List Nat}
    (hi : i < MAX_DIRECTORY_ENTRIES) (hlen : strlen name ≤ MAX_FILENAME_LENGTH)
    (hf : (dir1 i).filename = (dir i).filename)
    (hp : (dir1 i).padding 30 = (dir i).padding 30) :
    strcmp (filenameAt dir1 i) name = strcmp (filenameAt dir i) name := by
  obtain ⟨rest, hrest⟩ := filenameAt_split dir i hi
  obtain ⟨rest1, hrest1⟩ := filenameAt_split dir1 i hi
  have hlen1 : strlen name < (filenameBytes (dir i) ++ [(dir i).padding 30 % 256]).length := by
    rw [List.length_append, length_filenameBytes]
    simp only [List.length_singleton]
    omega
  have e : ∀ (a : List Nat) (b : Nat) (r : List Nat), a ++ b :: r = (a ++ [b]) ++ r := by
    intro a b r
    simp
  rw [hrest, hrest1, filenameBytes_congr hf, hp, e _ _ rest, e _ _ rest1,
    strcmp_append _ _ _ hlen1, strcmp_append _ _ _ hlen1]

/-- An entry whose field was filled by `strncpy` from a name of fewer than 30
characters is found by the comparison of `vsopen`. -/
theorem match_of_filename {dir : Nat → DirectoryEntry} {i : Nat} {name : List Nat}
    (hi : i < MAX_DIRECTORY_ENTRIES) (hlen : strlen name < MAX_FILENAME_LENGTH)
    (hf : (dir i).filename = strncpy name MAX_FILENAME_LENGTH) :
    strcmp (filenameAt dir i) name = 0 := by
  apply match_of_entryName hi hlen
  unfold entryName
  rw [filenameBytes_of_length (by rw [hf, strncpy_length]), hf, cstring_strncpy,
    List.take_of_length_le (by rw [← strlen_eq_length]; omega)]

/-! ## Lemmas: single operations -/

/-- What a successful `vsopen` did: it found entry `fi`, which no slot of the
table referred to, and occupied the first free slot `slot`. -/
theorem vsopen_success {st : State} {name : List Nat} {mode : Int}
    (h : (vsopen st name mode).1 ≠ -1) :
    ∃ fi slot : Nat, fi < 128 ∧ slot < 16
      ∧ find_file st.metadata.root_directory name = (fi : Int)
      ∧ (∀ j, j < 16 → st.OpenFileTable j ≠ (fi : Int))
      ∧ st.OpenFileTable slot = -1
      ∧ (∀ j, j < slot → st.OpenFileTable j ≠ -1)
      ∧ vsopen st name mode =
          ((slot : Int), { st with
            OpenFileTable := setAt st.OpenFileTable slot (fi : Int)
            OpenFileModes := setAt st.OpenFileModes slot mode }) := by
  unfold vsopen at h ⊢
  unfold find_file at h ⊢
  cases hf : firstIndex (fun i => (st.metadata.root_directory i).is_used != 0
      && strcmp (filenameAt st.metadata.root_directory i) name == 0) MAX_DIRECTORY_ENTRIES 0 with
  | none => simp [hf] at h
  | some fi =>
    simp only [hf] at h ⊢
    have hfi := firstIndex_some hf
    have hne : ¬ ((fi : Int) = -1) := by omega
    simp only [hne, if_false] at h ⊢
    cases ht : firstIndex (fun i => st.OpenFileTable i == (fi : Int)) MAX_OPEN_FILES 0 with
    | some x => simp [ht] at h
    | none =>
      simp only [ht, Option.isSome_none, Bool.false_eq_true, if_false] at h ⊢
      cases hs : firstIndex (fun i => st.OpenFileTable i == -1) MAX_OPEN_FILES 0 with
      | none => simp [hs] at h
      | some slot =>
        have hslot := firstIndex_some hs
        have hne2 : ¬ ((slot : Int) = -1) := by omega
        simp only [hne2, if_false]
        refine ⟨fi, slot, ?_, ?_, rfl, ?_, ?_, ?_, ?_⟩
        · have := hfi.2.1; simp only [MAX_DIRECTORY_ENTRIES] at this; omega
        · have := hslot.2.1; simp only [MAX_OPEN_FILES] at this; omega
        · intro j hj
          have := firstIndex_none ht j (Nat.zero_le _) (by simp only [MAX_OPEN_FILES]; omega)
          simpa using this
        · simpa using hslot.2.2.1
        · intro j hj
          have := hslot.2.2.2 j (Nat.zero_le _) hj
          simpa using this
        · simp

/-- The directory after a `vsdelete` that got past its two checks. -/
theorem vsdelete_success {BS : Nat} {st : State} {name : List Nat}
    (h : (vsdelete BS st name).1 = 0) :
    ∃ fi : Nat, fi < 128
      ∧ find_file st.metadata.root_directory name = (fi : Int)
      ∧ ((st.metadata.root_directory fi).is_used ≠ 0)
      ∧ strcmp (filenameAt st.metadata.root_directory fi) name = 0
      ∧ (vsdelete BS st name).2.metadata.root_directory
          = setAt st.metadata.root_directory fi
              { st.metadata.root_directory fi with
                is_used := 0
                size := 0
                start_block := 0
                filename := List.replicate MAX_FILENAME_LENGTH 0 }
      ∧ (vsdelete BS st name).2.OpenFileTable = st.OpenFileTable
      ∧ (vsdelete BS st name).2.OpenFileModes = st.OpenFileModes := by
  unfold vsdelete at h ⊢
  by_cases hl : strlen name > MAX_FILENAME_LENGTH
  · simp [hl] at h
  · simp only [hl, if_false] at h ⊢
    unfold find_file at h ⊢
    cases hf : firstIndex (fun i => (st.metadata.root_directory i).is_used != 0
        && strcmp (filenameAt st.metadata.root_directory i) name == 0) MAX_DIRECTORY_ENTRIES 0 with
    | none => simp [hf] at h
    | some fi =>
      simp only [hf] at h ⊢
      have hfi := firstIndex_some hf
      have hne : ¬ ((fi : Int) = -1) := by omega
      simp only [hne, if_false, Int.toNat_ofNat] at h ⊢
      have hp := hfi.2.2.1
      simp only [Bool.and_eq_true, bne_iff_ne, ne_eq, beq_iff_eq] at hp
      refine ⟨fi, ?_, rfl, hp.1, hp.2, ?_, ?_, ?_⟩
      · have := hfi.2.1; simp only [MAX_DIRECTORY_ENTRIES] at this; omega
      · split <;> rfl
      · split <;> rfl
      · split <;> rfl

/-- A `vsappend` that returns its non-negative `n` leaves the open-file table
alone and moves cursor and size of the file to `cursor + n` (as `uint32_t`). -/
theorem vsappend_success {BS : Nat} {MA : Int} {st : State} {fd : Int} {buf : Mem} {n : Int}
    (hn : 0 ≤ n) (h : (vsappend BS MA st fd buf n).1 = n)
    (hcur : (st.metadata.root_directory (st.OpenFileTable fd.toNat).toNat).current_position
      < 4294967296) :
    (vsappend BS MA st fd buf n).2.OpenFileTable = st.OpenFileTable
    ∧ ((vsappend BS MA st fd buf n).2.metadata.root_directory
        (st.OpenFileTable fd.toNat).toNat).current_position
      = u32 ((st.metadata.root_directory (st.OpenFileTable fd.toNat).toNat).current_position + n)
    ∧ ((vsappend BS MA st fd buf n).2.metadata.root_directory
        (st.OpenFileTable fd.toNat).toNat).size
      = u32 ((st.metadata.root_directory (st.OpenFileTable fd.toNat).toNat).current_position + n)
    := by
  generalize hidx : (st.OpenFileTable fd.toNat).toNat = idx at *
  generalize hc : (st.metadata.root_directory idx).current_position = cur at *
  unfold vsappend at h ⊢
  by_cases hg : fd < 0 ∨ fd ≥ (MAX_OPEN_FILES : Int) ∨ st.OpenFileTable fd.toNat = -1
      ∨ st.OpenFileModes fd.toNat ≠ MA
  · rw [if_pos hg] at h
    have h2 : (-1 : Int) = n := h
    clear h hg
    omega
  · rw [if_neg hg] at h ⊢
    simp only [hidx, hc] at h ⊢
    by_cases hpos : n > 0
    · rw [if_pos hpos] at h ⊢
      generalize write_block BS st.vdisk (memFrom buf 0)
        (i32 (i32 ((st.metadata.root_directory idx).start_block : Int)
          + ((cur / BS : Nat) : Int))) = r at h ⊢
      generalize i32 ((cur % BS : Nat) : Int) = bo at h ⊢
      by_cases hw : r.1 ≠ 0
      · rw [if_pos hw] at h
        have h2 : (-1 : Int) = n := h
        clear h
        omega
      · rw [if_neg hw] at h ⊢
        by_cases hlt : n < (BS : Int) - bo
        · simp only [if_pos hlt, sub_self, gt_iff_lt, lt_self_iff_false, if_false, setAt_same]
          refine ⟨?_, ?_, ?_⟩ <;> first | rfl | trivial
        · simp only [if_neg hlt] at h ⊢
          by_cases hrem : n - ((BS : Int) - bo) > 0
          · rw [if_pos hrem] at h
            have h2 : (-1 : Int) = n := h
            clear h
            omega
          · rw [if_neg hrem]
            have hn2 : (BS : Int) - bo = n :=
              le_antisymm (not_lt.mp hlt) (sub_nonpos.mp (not_lt.mp hrem))
            rw [hn2]
            simp only [setAt_same]
            refine ⟨?_, ?_, ?_⟩ <;> first | rfl | trivial
    · rw [if_neg hpos]
      have : n = 0 := by clear h; omega
      subst this
      simp only [setAt_same, add_zero]
      rw [u32_natCast hcur]
      refine ⟨?_, ?_, ?_⟩ <;> first | rfl | trivial

theorem appendRun_size (BS : Nat) (MA : Int) (fd : Int) :
    ∀ (calls : List (Mem × Int)) (st : State) (c : Nat),
      (st.metadata.root_directory (st.OpenFileTable fd.toNat).toNat).current_position = c →
      (st.metadata.root_directory (st.OpenFileTable fd.toNat).toNat).size = c →
      (∀ x ∈ calls, 0 ≤ x.2) →
      (appendRun BS MA fd st calls).1 = calls.map (fun x => x.2) →
      (c : Int) + (calls.map (fun x => x.2)).sum < 4294967296 →
      (appendRun BS MA fd st calls).2.OpenFileTable = st.OpenFileTable
      ∧ (((appendRun BS MA fd st calls).2.metadata.root_directory
          (st.OpenFileTable fd.toNat).toNat).size : Int)
        = c + (calls.map (fun x => x.2)).sum := by
  intro calls
  induction calls with
  | nil =>
    intro st c _ hs _ _ _
    simp [appendRun, hs]
  | cons x rest ih =>
    intro st c hc hs hnn hret hsum
    simp only [appendRun, List.map_cons, List.cons.injEq] at hret
    simp only [List.map_cons, List.sum_cons] at hsum ⊢
    have hx : 0 ≤ x.2 := hnn x (List.mem_cons_self _ _)
    have hrest : ∀ y ∈ rest, 0 ≤ y.2 := fun y hy => hnn y (List.mem_cons_of_mem _ hy)
    have hsumnn : 0 ≤ (rest.map (fun y => y.2)).sum := by
      apply List.sum_nonneg
      intro y hy
      obtain ⟨z, hz, rfl⟩ := List.mem_map.mp hy
      exact hrest z hz
    obtain ⟨h1, h2, h3⟩ := vsappend_success hx hret.1 (by rw [hc]; omega)
    rw [hc] at h2 h3
    have hu : u32 ((c : Int) + x.2) = c + x.2.toNat := by
      rw [u32_of_range (by omega) (by omega)]; omega
    rw [hu] at h2 h3
    have := ih (vsappend BS MA st fd x.1 x.2).2 (c + x.2.toNat)
      (by rw [h1]; exact h2) (by rw [h1]; exact h3) hrest hret.2 (by omega)
    simp only [appendRun]
    rw [h1] at this
    refine ⟨this.1, ?_⟩
    rw [this.2]
    omega

theorem vscreate_fresh (BS : Nat) (st : State) (name : List Nat)
    (h0 : (st.metadata.root_directory 0).is_used = 0)
    (hrd : st.metadata.superblock.root_dir_start = SUPERBLOCK_SIZE + FAT_SIZE)
    (hlim : 41 * BS ≤ st.vdisk.limit) (hBS : 41 * BS < 2147483648) :
    ∃ d1, d1.limit = st.vdisk.limit ∧ vscreate BS st name = (0,
      { vdisk := d1
        metadata := { st.metadata with
          root_directory := setAt st.metadata.root_directory 0 (createdEntry (st.metadata.root_directory 0) name) }
        OpenFileTable := st.OpenFileTable
        OpenFileModes := st.OpenFileModes }) := by
  have hk : i32 ((SUPERBLOCK_SIZE + FAT_SIZE : Nat) : Int) = (33 : Int) := by
    simp only [SUPERBLOCK_SIZE, FAT_SIZE]; rfl
  have hw := write_block_fits BS st.vdisk
    (memFrom (metaByte { st.metadata with
      root_directory := setAt st.metadata.root_directory 0 (createdEntry (st.metadata.root_directory 0) name) }) DIR_OFFSET)
    33 (by omega) (by omega)
  rw [show ((33 : Nat) : Int) = (33 : Int) from rfl] at hw
  obtain ⟨hw1, hw2⟩ := hw
  refine ⟨_, hw2, ?_⟩
  unfold vscreate update_root_directory
  simp only [find_free_directory_entry_zero _ h0, hrd, hk]
  have hne : ¬ ((0 : Int) = -1) := by decide
  simp only [hne, if_false, Int.toNat_zero]
  simp only [createdEntry] at hw1 ⊢
  simp only [hw1, ne_eq, not_true_eq_false, if_false]

theorem vsappend_first_block (BS : Nat) (MA : Int) (st : State) (src : Mem) (n : Int)
    (ht : st.OpenFileTable 0 = 0) (hm : st.OpenFileModes 0 = MA)
    (hs : (st.metadata.root_directory 0).start_block = 0)
    (hc : (st.metadata.root_directory 0).current_position = 0)
    (hlim : BS ≤ st.vdisk.limit) (hBS : BS < 2147483648)
    (hn : 1 ≤ n ∧ n ≤ BS) :
    ∃ d1, d1.limit = st.vdisk.limit ∧ vsappend BS MA st 0 src n = (n,
      { vdisk := d1
        metadata := { st.metadata with
          root_directory := setAt st.metadata.root_directory 0
            { st.metadata.root_directory 0 with
              current_position := n.toNat
              size := n.toNat } }
        OpenFileTable := st.OpenFileTable
        OpenFileModes := st.OpenFileModes }) := by
  obtain ⟨hn1, hn2⟩ := hn
  have hw := write_block_fits BS st.vdisk (memFrom src 0) 0 (by omega) (by omega)
  rw [show ((0 : Nat) : Int) = (0 : Int) from rfl] at hw
  obtain ⟨hw1, hw2⟩ := hw
  have hg : ¬ ((0 : Int) < 0 ∨ (0 : Int) ≥ (MAX_OPEN_FILES : Int)
      ∨ st.OpenFileTable (0 : Int).toNat = -1 ∨ st.OpenFileModes (0 : Int).toNat ≠ MA) := by
    simp [MAX_OPEN_FILES, ht, hm]
  have hbn : i32 (i32 ((0 : Nat) : Int) + ((0 / BS : Nat) : Int)) = (0 : Int) := by
    simp [i32]
  have hbo : i32 (((0 % BS : Nat)) : Int) = 0 := by simp [i32]
  have happ : (if n < (BS : Int) - 0 then n else (BS : Int) - 0) = n := by
    split
    · rfl
    · omega
  have hu : u32 (((0 : Nat) : Int) + n) = n.toNat := by
    rw [u32_of_range (by omega) (by omega)]; simp
  refine ⟨_, hw2, ?_⟩
  unfold vsappend
  rw [if_neg hg]
  simp only [Int.toNat_zero, ht, hs, hc, hbn, hbo, happ, hu]
  have hpos : n > 0 := by omega
  simp only [hpos, if_true, sub_self, gt_iff_lt, lt_self_iff_false, if_false]
  simp only [hw1, ne_eq, not_true_eq_false, if_false]

theorem vsclose_slot_zero (st : State) (h : st.OpenFileTable 0 ≠ -1) :
    vsclose st 0 = (0, { st with OpenFileTable := setAt st.OpenFileTable 0 (-1) }) := by
  unfold vsclose
  have hg : ¬ ((0 : Int) < 0 ∨ (0 : Int) ≥ (MAX_OPEN_FILES : Int)
      ∨ st.OpenFileTable (0 : Int).toNat = -1) := by
    simp [MAX_OPEN_FILES, h]
  rw [if_neg hg]
  rfl

/-- At end of file (`cursor = size`) `vsread` returns 0 and leaves the buffer alone. -/
theorem vsread_eof (BS : Nat) (st : State) (buf : Mem) (n : Int)
    (ht : st.OpenFileTable 0 = 0)
    (hc : (st.metadata.root_directory 0).current_position = (st.metadata.root_directory 0).size) :
    vsread BS st 0 buf n = some (0,
      { st with metadata := { st.metadata with
          root_directory := setAt st.metadata.root_directory 0
            { st.metadata.root_directory 0 with
              current_position := (st.metadata.root_directory 0).current_position } } },
      buf) := by
  have hg : ¬ ((0 : Int) < 0 ∨ (0 : Int) ≥ (MAX_OPEN_FILES : Int)
      ∨ st.OpenFileTable (0 : Int).toNat = -1) := by
    simp [MAX_OPEN_FILES, ht]
  have hav : u32 (((st.metadata.root_directory 0).size : Int)
      - ((st.metadata.root_directory 0).current_position : Int)) = 0 := by
    rw [hc, sub_self]; rfl
  have hb : (if u32 n < 0 then n else i32 ((0 : Nat) : Int)) = 0 := by
    rw [if_neg (Nat.not_lt_zero _)]; rfl
  unfold vsread
  rw [if_neg hg]
  simp only [Int.toNat_zero, ht, hav, hb, vsread_loop, gt_iff_lt, lt_self_iff_false, if_false]

/-- One `vsappend` of a whole block at a block-aligned cursor. -/
theorem vsappend_full_block (BS : Nat) (MA : Int) (st : State) (src : Mem) (q : Nat)
    (hBS : 0 < BS)
    (ht : st.OpenFileTable 0 = 0) (hm : st.OpenFileModes 0 = MA)
    (hs : (st.metadata.root_directory 0).start_block = 0)
    (hc : (st.metadata.root_directory 0).current_position = q * BS)
    (hlim : q * BS + BS ≤ st.vdisk.limit) (h31 : q * BS + BS ≤ 2147483648) :
    ∃ d1, d1.limit = st.vdisk.limit ∧ vsappend BS MA st 0 src BS = ((BS : Int),
      { vdisk := d1
        metadata := { st.metadata with
          root_directory := setAt st.metadata.root_directory 0
            { st.metadata.root_directory 0 with
              current_position := (q + 1) * BS
              size := (q + 1) * BS } }
        OpenFileTable := st.OpenFileTable
        OpenFileModes := st.OpenFileModes }) := by
  have hw := write_block_fits BS st.vdisk (memFrom src 0) q (by omega) hlim
  obtain ⟨hw1, hw2⟩ := hw
  have hg : ¬ ((0 : Int) < 0 ∨ (0 : Int) ≥ (MAX_OPEN_FILES : Int)
      ∨ st.OpenFileTable (0 : Int).toNat = -1 ∨ st.OpenFileModes (0 : Int).toNat ≠ MA) := by
    simp [MAX_OPEN_FILES, ht, hm]
  have hdiv : q * BS / BS = q := Nat.mul_div_cancel _ hBS
  have hmod : q * BS % BS = 0 := Nat.mul_mod_left _ _
  have hq : q < 2147483648 := by
    have : q * 1 ≤ q * BS := Nat.mul_le_mul_left _ hBS
    omega
  have hbn : i32 (i32 ((0 : Nat) : Int) + ((q * BS / BS : Nat) : Int)) = (q : Int) := by
    rw [hdiv]
    rw [show i32 ((0 : Nat) : Int) = 0 from rfl, zero_add]
    exact i32_of_range (by omega) (by omega)
  have hbo : i32 (((q * BS % BS : Nat)) : Int) = 0 := by rw [hmod]; rfl
  have happ : (if (BS : Int) < (BS : Int) - 0 then (BS : Int) else (BS : Int) - 0) = BS := by
    simp
  have hnat : (q + 1) * BS = q * BS + BS := by ring
  have hu : u32 (((q * BS : Nat) : Int) + (BS : Int)) = (q + 1) * BS := by
    have e : ((q * BS : Nat) : Int) + (BS : Int) = (((q + 1) * BS : Nat) : Int) := by
      rw [hnat]; push_cast; ring
    rw [e]
    exact u32_natCast (by omega)
  refine ⟨_, hw2, ?_⟩
  unfold vsappend
  rw [if_neg hg]
  simp only [Int.toNat_zero, ht, hs, hc, hbn, hbo, happ, hu]
  have hpos : (BS : Int) > 0 := by exact_mod_cast hBS
  simp only [hpos, if_true, sub_self, gt_iff_lt, lt_self_iff_false, if_false]
  simp only [hw1, ne_eq, not_true_eq_false, if_false]

/-- Appending `k` whole blocks one after the other: every call returns
`BLOCKSIZE` and the size ends at `(q + k) * BLOCKSIZE`. -/
theorem appendRun_full_blocks (BS : Nat) (MA : Int) (src : Mem) (hBS : 0 < BS) :
    ∀ (k : Nat) (st : State) (q : Nat),
      st.OpenFileTable 0 = 0 → st.OpenFileModes 0 = MA →
      (st.metadata.root_directory 0).start_block = 0 →
      (st.metadata.root_directory 0).current_position = q * BS →
      (st.metadata.root_directory 0).size = q * BS →
      (q + k) * BS ≤ st.vdisk.limit → (q + k) * BS ≤ 2147483648 →
      (appendRun BS MA 0 st (List.replicate k (src, (BS : Int)))).1
          = List.replicate k (BS : Int)
      ∧ (appendRun BS MA 0 st (List.replicate k (src, (BS : Int)))).2.OpenFileTable 0 = 0
      ∧ ((appendRun BS MA 0 st (List.replicate k (src, (BS : Int)))).2.metadata.root_directory
          0).size = (q + k) * BS := by
  intro k
  induction k with
  | zero =>
    intro st q ht _ _ _ hsz _ _
    simp [appendRun, ht, hsz]
  | succ k ih =>
    intro st q ht hm hs hc hsz hlim h31
    have e1 : (q + (k + 1)) * BS = q * BS + BS + k * BS := by ring
    obtain ⟨d1, hd1, ha⟩ := vsappend_full_block BS MA st src q hBS ht hm hs hc
      (by omega) (by omega)
    have := ih
      { vdisk := d1
        metadata := { st.metadata with
          root_directory := setAt st.metadata.root_directory 0
            { st.metadata.root_directory 0 with
              current_position := (q + 1) * BS
              size := (q + 1) * BS } }
        OpenFileTable := st.OpenFileTable
        OpenFileModes := st.OpenFileModes } (q + 1) ht hm
      (by simp only [setAt_same]; exact hs) (by simp only [setAt_same])
      (by simp only [setAt_same])
      (by rw [hd1]; have : (q + 1 + k) * BS = (q + (k + 1)) * BS := by ring
          omega)
      (by have : (q + 1 + k) * BS = (q + (k + 1)) * BS := by ring
          omega)
    simp only [List.replicate_succ, appendRun, ha]
    have e2 : (q + 1 + k) * BS = (q + (k + 1)) * BS := by ring
    rw [e2] at this
    exact ⟨by rw [this.1], this.2.1, this.2.2⟩

/-- The state after `vscreate("a"); vsopen("a", 1)` on the fresh volume. -/
theorem oneFileOpen_facts :
    oneFileOpen.OpenFileTable 0 = 0 ∧ oneFileOpen.OpenFileModes 0 = 1
    ∧ (oneFileOpen.metadata.root_directory 0).start_block = 0
    ∧ (oneFileOpen.metadata.root_directory 0).current_position = 0 * 2048
    ∧ (oneFileOpen.metadata.root_directory 0).size = 0 * 2048
    ∧ (0 + 1048576) * 2048 ≤ oneFileOpen.vdisk.limit := by
  refine ⟨?_, ?_, ?_, ?_, ?_, ?_⟩ <;> decide

/-! ## Lemmas: format and mount -/

/-- What a successful `write_block` at a block index whose byte offset fits
an `int` did to the host file. -/
theorem write_block_ok {BS : Nat} {d : Disk} {blk : Mem} {k : Nat} (hBS : 0 < BS)
    (hk : k * BS < 2147483648) (h : (write_block BS d blk (k : Int)).1 = 0) :
    k * BS + BS ≤ d.limit
    ∧ (write_block BS d blk (k : Int)).2.limit = d.limit
    ∧ (write_block BS d blk (k : Int)).2.openable = d.openable
    ∧ (write_block BS d blk (k : Int)).2.size = max d.size (k * BS + BS)
    ∧ (write_block BS d blk (k : Int)).2.bytes
        = fun a => if k * BS ≤ a ∧ a < k * BS + BS then blk (a - k * BS) % 256 else d.bytes a := by
  simp only [write_block, i32_natCast_mul k BS hk, lseek_natCast] at h ⊢
  by_cases hm : min BS (d.limit - k * BS) = BS
  · have hle : BS ≤ d.limit - k * BS := by
      have := Nat.min_le_right BS (d.limit - k * BS)
      omega
    have hne : BS ≠ 0 := by omega
    simp only [hm, ne_eq, not_true_eq_false, if_false, hne]
    refine ⟨by omega, trivial, trivial, trivial, trivial⟩
  · simp [hm] at h

/-- What a `writeLoop` that returned 0 did to the host file: the blocks
`base + i0 .. base + i0 + n - 1` hold the memory handed over, and everything
below them is as before. -/
theorem writeLoop_ok {BS : Nat} (hBS : 0 < BS) (src : Nat → Mem) (blk : Nat → Int) (base : Nat)
    (hblk : ∀ i, blk i = ((base + i : Nat) : Int)) :
    ∀ (n i0 : Nat) (d : Disk), (base + i0 + n) * BS < 2147483648 →
      (writeLoop BS src blk n i0 d).1 = 0 →
      (writeLoop BS src blk n i0 d).2.limit = d.limit
      ∧ (writeLoop BS src blk n i0 d).2.openable = d.openable
      ∧ d.size ≤ (writeLoop BS src blk n i0 d).2.size
      ∧ (0 < n → (base + i0 + n) * BS ≤ (writeLoop BS src blk n i0 d).2.size
          ∧ (base + i0 + n) * BS ≤ d.limit)
      ∧ (∀ a, a < (base + i0) * BS → (writeLoop BS src blk n i0 d).2.bytes a = d.bytes a)
      ∧ (∀ i j, i0 ≤ i → i < i0 + n → j < BS →
          (writeLoop BS src blk n i0 d).2.bytes ((base + i) * BS + j) = src i j % 256) := by
  intro n
  induction n with
  | zero =>
    intro i0 d _ _
    exact ⟨rfl, rfl, le_refl _, fun h => absurd h (lt_irrefl _), fun _ _ => rfl,
      fun i j h1 h2 _ => by omega⟩
  | succ n ih =>
    intro i0 d hlt h
    have e1 : (base + i0 + (n + 1)) * BS = (base + i0) * BS + BS + n * BS := by ring
    have e2 : (base + (i0 + 1) + n) * BS = (base + i0) * BS + BS + n * BS := by ring
    have e3 : (base + (i0 + 1)) * BS = (base + i0) * BS + BS := by ring
    simp only [writeLoop] at h ⊢
    by_cases hw : (write_block BS d (src i0) (blk i0)).1 = 0
    · simp only [hw, ne_eq, not_true_eq_false, if_false] at h ⊢
      rw [hblk i0] at hw h ⊢
      obtain ⟨w1, w2, w3, w4, w5⟩ := write_block_ok hBS (by omega) hw
      obtain ⟨a1, a2, a3, a4, a5, a6⟩ := ih (i0 + 1)
        (write_block BS d (src i0) ((base + i0 : Nat) : Int)).2 (by omega) h
      refine ⟨a1.trans w2, a2.trans w3, ?_, ?_, ?_, ?_⟩
      · rw [w4] at a3
        exact le_trans (le_max_left _ _) a3
      · intro _
        rw [w2] at a4
        constructor
        · by_cases hn : 0 < n
          · have := (a4 hn).1; omega
          · have hn0 : n = 0 := by omega
            subst hn0
            rw [w4] at a3
            have := le_max_right d.size ((base + i0) * BS + BS)
            omega
        · have : n * BS ≥ 0 := Nat.zero_le _
          by_cases hn : 0 < n
          · have := (a4 hn).2; omega
          · have hn0 : n = 0 := by omega
            subst hn0
            omega
      · intro a ha
        rw [a5 a (by omega), w5]
        simp only
        rw [if_neg (by omega)]
      · intro i j hi1 hi2 hj
        by_cases hi : i = i0
        · subst hi
          rw [a5 _ (by omega), w5]
          simp only
          rw [if_pos (by omega)]
          congr 2
          omega
        · exact a6 i j (by omega) (by omega) hj
    · simp [hw] at h

/-- A `read_block` of a block that lies inside the host file. -/
theorem read_block_ok (BS : Nat) (d : Disk) (blk : Mem) (k : Nat)
    (hk : k * BS < 2147483648) (h : k * BS + BS ≤ d.size) :
    (read_block BS d blk (k : Int)).1 = 0
    ∧ (read_block BS d blk (k : Int)).2.1
        = (fun j => if j < BS then d.bytes (k * BS + j) % 256 else blk j)
    ∧ (read_block BS d blk (k : Int)).2.2.size = d.size
    ∧ (read_block BS d blk (k : Int)).2.2.bytes = d.bytes
    ∧ (read_block BS d blk (k : Int)).2.2.limit = d.limit := by
  have hm : min BS (d.size - k * BS) = BS := Nat.min_eq_left (by omega)
  simp only [read_block, i32_natCast_mul k BS hk, lseek_natCast, hm]
  simp

/-- A `readLoop` over blocks that lie inside the host file returns 0 and
leaves the host file content alone; the memory image is unchanged outside the
regions read into; and when every block read holds, byte for byte, what `G`
says for the address the byte is read into, the image from address `A` on is
zero or `G` wherever it was so before. -/
theorem readLoop_ok (BS : Nat) (off : Nat → Nat) (blk : Nat → Int) (base : Nat)
    (hblk : ∀ i, blk i = ((base + i : Nat) : Int)) :
    ∀ (n i0 : Nat) (img : Mem) (d : Disk), (base + i0 + n) * BS < 2147483648 →
      (base + i0 + n) * BS ≤ d.size →
      (readLoop BS off blk n i0 img d).1 = 0
      ∧ (readLoop BS off blk n i0 img d).2.2.size = d.size
      ∧ (readLoop BS off blk n i0 img d).2.2.bytes = d.bytes
      ∧ (readLoop BS off blk n i0 img d).2.2.limit = d.limit
      ∧ (∀ a, (∀ i, i0 ≤ i → i < i0 + n → ¬ (off i ≤ a ∧ a < off i + BS)) →
          (readLoop BS off blk n i0 img d).2.1 a = img a)
      ∧ (∀ (G : Mem) A, (∀ i, i0 ≤ i → i < i0 + n → A ≤ off i) →
          (∀ i j, i0 ≤ i → i < i0 + n → j < BS →
            d.bytes ((base + i) * BS + j) % 256 = G (off i + j)) →
          (∀ a, A ≤ a → img a = 0 ∨ img a = G a) →
          ∀ a, A ≤ a → (readLoop BS off blk n i0 img d).2.1 a = 0
            ∨ (readLoop BS off blk n i0 img d).2.1 a = G a) := by
  intro n
  induction n with
  | zero =>
    intro i0 img d _ _
    exact ⟨rfl, rfl, rfl, rfl, fun _ _ => rfl, fun G A _ _ h a ha => h a ha⟩
  | succ n ih =>
    intro i0 img d hlt hsz
    have e1 : (base + i0 + (n + 1)) * BS = (base + i0) * BS + BS + n * BS := by ring
    have e2 : (base + (i0 + 1) + n) * BS = (base + i0) * BS + BS + n * BS := by ring
    obtain ⟨r1, r2, r3, r4, r5⟩ := read_block_ok BS d (memFrom img (off i0)) (base + i0)
      (by omega) (by omega)
    simp only [readLoop]
    rw [hblk i0]
    simp only [r1, ne_eq, not_true_eq_false, if_false]
    obtain ⟨a1, a2, a3, a4, a5, a6⟩ := ih (i0 + 1)
      (memPatch img (off i0) (read_block BS d (memFrom img (off i0)) ((base + i0 : Nat) : Int)).2.1)
      (read_block BS d (memFrom img (off i0)) ((base + i0 : Nat) : Int)).2.2
      (by omega) (by rw [r3]; omega)
    refine ⟨a1, a2.trans r3, a3.trans r4, a4.trans r5, ?_, ?_⟩
    · intro a ha
      rw [a5 a (fun i h1 h2 => ha i (by omega) (by omega))]
      have h0 := ha i0 (le_refl _) (by omega)
      simp only [memPatch, r2, memFrom]
      by_cases hoa : off i0 ≤ a
      · rw [if_pos hoa, if_neg (by omega)]
        congr 1
        omega
      · rw [if_neg hoa]
    · intro G A hA hz himg a ha
      refine a6 G A (fun i h1 h2 => hA i (by omega) (by omega)) ?_ ?_ a ha
      · intro i j h1 h2 hj
        rw [r4]
        exact hz i j (by omega) (by omega) hj
      · intro b hb
        simp only [memPatch, r2, memFrom]
        by_cases hob : off i0 ≤ b
        · rw [if_pos hob]
          by_cases hj : b - off i0 < BS
          · rw [if_pos hj]
            right
            rw [hz i0 _ (le_refl _) (by omega) hj]
            congr 1
            omega
          · rw [if_neg hj]
            have e : off i0 + (b - off i0) = b := by omega
            rw [e]
            exact himg _ hb
        · rw [if_neg hob]
          exact himg b hb

theorem leByte_zero (j : Nat) : leByte 0 j = 0 := by
  simp [leByte]

theorem entryByte_zeroEntry (o : Nat) : entryByte zeroEntry o = 0 := by
  unfold entryByte zeroEntry
  simp only [leByte_zero, Nat.zero_mod, ite_self]
  split
  · rename_i h
    rw [List.getD_eq_getElem?_getD, List.getElem?_replicate]
    simp [MAX_FILENAME_LENGTH, h]
  · rfl

theorem metaByte_zeroMetadata (a : Nat) : metaByte zeroMetadata a = 0 := by
  unfold metaByte zeroMetadata
  simp only [leByte_zero, entryByte_zeroEntry, ite_self]
  split
  · have : a / 4 < 8 := by omega
    interval_cases (a / 4) <;> simp [superblockField, leByte_zero]
  · rfl

/-- In the directory part of the image `vsformat` builds, the in-use flag of
every entry is zero. -/
theorem metaByte_formatMetadata_used (BS : Nat) (stack : FileSystemMetadata) (m i : Nat)
    (hi : i < 128) :
    metaByte (formatMetadata BS stack m) (DIR_OFFSET + 128 * i + 44) = 0 := by
  unfold metaByte
  simp only [DIR_OFFSET, FAT_OFFSET, META_BYTES]
  rw [if_neg (by omega), if_neg (by omega), if_neg (by omega), if_pos (by omega)]
  have e1 : (67584 + 128 * i + 44 - 67584) / 128 = i := by omega
  have e2 : (67584 + 128 * i + 44 - 67584) % 128 = 44 := by omega
  rw [e1, e2]
  simp [entryByte, formatMetadata]

/-- What a `vsformat` that returned 0 left on the host file. -/
theorem vsformat_ok {BS : Nat} (hBS : 0 < BS) (hBS2 : BS ≤ 2048) {stack : FileSystemMetadata}
    {d : Disk} {m : Nat} (h : (vsformat BS stack d m).1 = 0) :
    41 * BS ≤ (vsformat BS stack d m).2.limit
    ∧ 41 * BS ≤ (vsformat BS stack d m).2.size
    ∧ (vsformat BS stack d m).2.openable = true
    ∧ (∀ a, a < BS → (vsformat BS stack d m).2.bytes a
        = metaByte { stack with superblock := (formatMetadata BS stack m).superblock } a % 256)
    ∧ (∀ i j, i < 8 → j < BS → (vsformat BS stack d m).2.bytes ((33 + i) * BS + j)
        = metaByte (formatMetadata BS stack m) (DIR_OFFSET + 128 * i + j) % 256) := by
  generalize hres : vsformat BS stack d m = res at h ⊢
  unfold vsformat at hres
  by_cases ho : d.openable = true
  · simp only [ho, Bool.not_true, Bool.false_eq_true, if_false] at hres
    cases ht : ftruncate (hostOpen d) (u32 ((2 : Int) ^ m)) with
    | none =>
      simp only [ht] at hres
      rw [← hres] at h
      simp at h
    | some d1 =>
      simp only [ht] at hres
      have hd1 : d1.openable = true := by
        unfold ftruncate at ht
        split at ht
        · simp at ht
        · simp only [Option.some.injEq] at ht
          rw [← ht]; exact ho
      generalize hsrc0 : memFrom (metaByte
        { superblock := (formatMetadata BS stack m).superblock
          fat_table := stack.fat_table
          root_directory := stack.root_directory }) 0 = src0 at hres
      generalize hw0 : write_block BS d1 src0 0 = r0 at hres
      generalize (fun i => memFrom (metaByte
        { superblock := (formatMetadata BS stack m).superblock
          fat_table := (formatMetadata BS stack m).fat_table
          root_directory := stack.root_directory }) (FAT_OFFSET + 4 * i)) = fsrc at hres
      generalize hw1 : writeLoop BS fsrc (fun i => (SUPERBLOCK_SIZE : Int) + (i : Int))
        FAT_SIZE 0 r0.2 = r1 at hres
      generalize hw2 : writeLoop BS
        (fun i => memFrom (metaByte (formatMetadata BS stack m)) (DIR_OFFSET + 128 * i))
        (fun i => (SUPERBLOCK_SIZE : Int) + (FAT_SIZE : Int) + (i : Int))
        ROOT_DIR_BLOCK 0 r1.2 = r2 at hres
      by_cases h0 : r0.1 = 0
      · by_cases h1 : r1.1 = 0
        · by_cases h2 : r2.1 = 0
          · simp only [h0, h1, h2, ne_eq, not_true_eq_false, if_false] at hres
            rw [← hw0] at h0
            obtain ⟨w1, w2, w3, w4, w5⟩ := write_block_ok (k := 0) hBS (by omega) h0
            rw [Nat.cast_zero, hw0] at w2 w3 w4 w5
            rw [← hw1] at h1
            obtain ⟨x1, x2, x3, x4, x5, x6⟩ := writeLoop_ok hBS fsrc
              (fun i => (SUPERBLOCK_SIZE : Int) + (i : Int)) 1
              (fun i => by simp [SUPERBLOCK_SIZE]) FAT_SIZE 0 r0.2
              (by simp only [FAT_SIZE]; omega) h1
            rw [hw1] at x1 x2 x3 x4 x5 x6
            rw [← hw2] at h2
            obtain ⟨y1, y2, y3, y4, y5, y6⟩ := writeLoop_ok hBS
              (fun i => memFrom (metaByte (formatMetadata BS stack m)) (DIR_OFFSET + 128 * i))
              (fun i => (SUPERBLOCK_SIZE : Int) + (FAT_SIZE : Int) + (i : Int)) 33
              (fun i => by simp [SUPERBLOCK_SIZE, FAT_SIZE]) ROOT_DIR_BLOCK 0 r1.2
              (by simp only [ROOT_DIR_BLOCK]; omega) h2
            rw [hw2] at y1 y2 y3 y4 y5 y6
            have y4' := y4 (by simp [ROOT_DIR_BLOCK])
            simp only [ROOT_DIR_BLOCK, FAT_SIZE, Nat.add_zero] at y4' y5 y6 x5
            rw [← hres]
            simp only
            refine ⟨?_, ?_, ?_, ?_, ?_⟩
            · rw [y1]; omega
            · omega
            · rw [y2, x2, w3]; exact hd1
            · intro a ha
              rw [y5 a (by omega), x5 a (by omega), w5]
              simp only [Nat.zero_mul, Nat.zero_le, true_and, Nat.zero_add, Nat.sub_zero]
              rw [if_pos ha, ← hsrc0]
              simp only [memFrom, Nat.zero_add]
            · intro i j hi hj
              rw [y6 i j (Nat.zero_le _) (by omega) hj]
              simp only [memFrom]
          · simp only [h0, h1, h2, ne_eq, not_true_eq_false, not_false_eq_true, if_false,
              if_true] at hres
            rw [← hres] at h
            simp at h
        · simp only [h0, h1, ne_eq, not_true_eq_false, not_false_eq_true, if_false,
            if_true] at hres
          rw [← hres] at h
          simp at h
      · simp only [h0, ne_eq, not_false_eq_true, if_true] at hres
        rw [← hres] at h
        simp at h
  · simp only [ho, Bool.not_false, if_true] at hres
    rw [← hres] at h
    simp at h

theorem rd32_leByte (f : Mem) (a v : Nat) (hv : v < 4294967296)
    (h : ∀ j, j < 4 → f (a + j) = leByte v j % 256 % 256) : rd32 f a = v := by
  have h0 := h 0 (by omega)
  have h1 := h 1 (by omega)
  have h2 := h 2 (by omega)
  have h3 := h 3 (by omega)
  simp only [leByte, Nat.add_zero, pow_zero, Nat.div_one] at h0 h1 h2 h3
  norm_num at h1 h2 h3
  unfold rd32
  rw [h0, h1, h2, h3]
  omega

/-- The memory image after `vsmount` of a volume that `vsformat` formatted
successfully: the mount returns 0, only the host file and the metadata
change, the first 32 bytes of the image are those of the superblock that
`vsformat` built, and from the directory on every byte of the image is zero
or the byte of the directory that `vsformat` built. -/
theorem vsformat_vsmount_image {BS : Nat} (h32 : 32 ≤ BS) (hBS2 : BS ≤ 2048)
    {stack : FileSystemMetadata} {d : Disk} {m : Nat} (h : (vsformat BS stack d m).1 = 0) :
    ∃ (img : Mem) (dM : Disk),
      vsmount BS (initialState (vsformat BS stack d m).2)
        = (0, { initialState (vsformat BS stack d m).2 with
                vdisk := dM, metadata := metaOfBytes img })
      ∧ 41 * BS ≤ dM.limit
      ∧ (∀ a, a < 32 → img a
          = metaByte { stack with superblock := (formatMetadata BS stack m).superblock } a % 256 % 256)
      ∧ (∀ a, DIR_OFFSET ≤ a →
          img a = 0 ∨ img a = metaByte (formatMetadata BS stack m) a % 256 % 256) := by
  obtain ⟨f1, f2, f3, f4, f5⟩ := vsformat_ok (by omega) hBS2 h
  generalize (vsformat BS stack d m).2 = dF at f1 f2 f3 f4 f5 ⊢
  generalize hres : vsmount BS (initialState dF) = res
  unfold vsmount at hres
  simp only [initialState, f3, Bool.not_true, Bool.false_eq_true, if_false] at hres
  -- the superblock
  obtain ⟨r1, r2, r3, r4, r5⟩ := read_block_ok BS (hostOpen dF)
    (memFrom (metaByte zeroMetadata) 0) 0 (by omega) (by simp only [hostOpen]; omega)
  rw [Nat.cast_zero] at r1 r2 r3 r4 r5
  generalize hr0 : read_block BS (hostOpen dF) (memFrom (metaByte zeroMetadata) 0) 0 = r0
    at hres r1 r2 r3 r4 r5
  have hneg : ¬ (r0.1 = -1) := by rw [r1]; decide
  simp only [hneg, if_false] at hres
  generalize himg1 : memPatch (metaByte zeroMetadata) 0 r0.2.1 = img1 at hres
  have hi1 : ∀ a, img1 a = if a < BS then dF.bytes a % 256 else 0 := by
    intro a
    rw [← himg1]
    simp only [memPatch, Nat.zero_le, if_true, Nat.sub_zero, r2, hostOpen, Nat.zero_mul,
      Nat.zero_add, memFrom, metaByte_zeroMetadata]
  -- the allocation table
  obtain ⟨x1, x2, x3, x4, x5, _⟩ := readLoop_ok BS (fun i => FAT_OFFSET + 4 * i)
    (fun i => (SUPERBLOCK_SIZE : Int) + (i : Int)) 1 (fun i => by simp [SUPERBLOCK_SIZE])
    FAT_SIZE 0 img1 r0.2.2 (by simp only [FAT_SIZE]; omega)
    (by simp only [FAT_SIZE, r3, hostOpen]; omega)
  generalize hrl1 : readLoop BS (fun i => FAT_OFFSET + 4 * i)
    (fun i => (SUPERBLOCK_SIZE : Int) + (i : Int)) FAT_SIZE 0 img1 r0.2.2 = rl1
    at hres x1 x2 x3 x4 x5
  simp only [x1, ne_eq, not_true_eq_false, if_false] at hres
  -- the directory
  obtain ⟨y1, y2, y3, y4, y5, y6⟩ := readLoop_ok BS (fun i => DIR_OFFSET + 128 * i)
    (fun i => (SUPERBLOCK_SIZE : Int) + (FAT_SIZE : Int) + (i : Int)) 33
    (fun i => by simp [SUPERBLOCK_SIZE, FAT_SIZE])
    ROOT_DIR_BLOCK 0 rl1.2.1 rl1.2.2 (by simp only [ROOT_DIR_BLOCK]; omega)
    (by simp only [ROOT_DIR_BLOCK, x2, r3, hostOpen]; omega)
  generalize hrl2 : readLoop BS (fun i => DIR_OFFSET + 128 * i)
    (fun i => (SUPERBLOCK_SIZE : Int) + (FAT_SIZE : Int) + (i : Int)) ROOT_DIR_BLOCK 0
    rl1.2.1 rl1.2.2 = rl2 at hres y1 y2 y3 y4 y5 y6
  simp only [y1, ne_eq, not_true_eq_false, if_false] at hres
  refine ⟨rl2.2.1, rl2.2.2, hres.symm, ?_, ?_, ?_⟩
  · simp only [y4, x4, r5, hostOpen]
    exact f1
  · intro a ha
    rw [y5 a (by intro i _ _; simp only [DIR_OFFSET]; omega),
      x5 a (by intro i _ _; simp only [FAT_OFFSET]; omega), hi1 a, if_pos (by omega),
      f4 a (by omega)]
  · apply y6 (fun a => metaByte (formatMetadata BS stack m) a % 256 % 256) DIR_OFFSET
    · intro i _ _; omega
    · intro i j _ hi2 hj
      simp only [ROOT_DIR_BLOCK, Nat.zero_add] at hi2
      rw [x3, r4]
      simp only [hostOpen]
      rw [f5 i j hi2 hj]
    · intro a ha
      left
      simp only [DIR_OFFSET] at ha
      rw [x5 a (by
        intro i _ hi2
        simp only [FAT_SIZE, Nat.zero_add] at hi2
        simp only [FAT_OFFSET]
        omega), hi1 a, if_neg (by omega)]

theorem u32_lt (x : Int) : u32 x < 4294967296 := by
  unfold u32
  omega

/-- The superblock that `vsmount` loads has the eight fields of the one
`vsformat` built. -/
theorem vsformat_vsmount_superblock {BS : Nat} (h32 : 32 ≤ BS) (hBS2 : BS ≤ 2048)
    {stack : FileSystemMetadata} {d : Disk} {m : Nat} (h : (vsformat BS stack d m).1 = 0) :
    ∃ pad, (vsmount BS (initialState (vsformat BS stack d m).2)).2.metadata.superblock
      = { (formatMetadata BS stack m).superblock with padding := pad } := by
  obtain ⟨img, dM, hres, _, hb, _⟩ := vsformat_vsmount_image h32 hBS2 h
  rw [hres]
  have key : ∀ (i v : Nat), i < 8 → v < 4294967296 →
      superblockField (formatMetadata BS stack m).superblock i = v → rd32 img (4 * i) = v := by
    intro i v hi hv hf
    apply rd32_leByte img (4 * i) v hv
    intro j hj
    rw [hb (4 * i + j) (by omega)]
    unfold metaByte
    rw [if_pos (by omega)]
    have e1 : (4 * i + j) / 4 = i := by omega
    have e2 : (4 * i + j) % 4 = j := by omega
    rw [e1, e2]
    simp only
    rw [hf]
  have k0 := key 0 (formatMetadata BS stack m).superblock.size (by omega) (u32_lt _) rfl
  have k1 := key 1 (formatMetadata BS stack m).superblock.block_size (by omega)
    (u32_lt (BS : Int)) rfl
  have k2 := key 2 (formatMetadata BS stack m).superblock.fat_start (by omega)
    (by simp [formatMetadata, SUPERBLOCK_SIZE]) rfl
  have k3 := key 3 (formatMetadata BS stack m).superblock.fat_blocks (by omega)
    (by simp [formatMetadata, FAT_SIZE]) rfl
  have k4 := key 4 (formatMetadata BS stack m).superblock.root_dir_start (by omega)
    (by simp [formatMetadata, SUPERBLOCK_SIZE, FAT_SIZE]) rfl
  have k5 := key 5 (formatMetadata BS stack m).superblock.root_dir_blocks (by omega)
    (by simp [formatMetadata, ROOT_DIR_BLOCK]) rfl
  have k6 := key 6 (formatMetadata BS stack m).superblock.data_start (by omega)
    (by simp [formatMetadata, SUPERBLOCK_SIZE, FAT_SIZE, ROOT_DIR_BLOCK]) rfl
  have k7 := key 7 (formatMetadata BS stack m).superblock.data_blocks (by omega)
    (u32_lt ((u32 ((2 : Int) ^ m) : Int) / BS - SUPERBLOCK_SIZE - FAT_SIZE - ROOT_DIR_BLOCK)) rfl
  norm_num at k0 k1 k2 k3 k4 k5 k6 k7
  refine ⟨fun a => img a % 256, ?_⟩
  simp only [metaOfBytes, k0, k1, k2, k3, k4, k5, k6, k7]

/-- A volume that `vsformat` formatted successfully mounts, and is then a
fresh volume: this holds for every block size from 32 to 2048 bytes, every
exponent, every prior content of the host file and every content of the
uninitialised local of `vsformat`. -/
theorem vsformat_vsmount_fresh {BS : Nat} (h32 : 32 ≤ BS) (hBS2 : BS ≤ 2048)
    {stack : FileSystemMetadata} {d : Disk} {m : Nat} (h : (vsformat BS stack d m).1 = 0) :
    (vsmount BS (initialState (vsformat BS stack d m).2)).1 = 0
    ∧ FreshVolume BS (vsmount BS (initialState (vsformat BS stack d m).2)).2 := by
  obtain ⟨pad, hsb⟩ := vsformat_vsmount_superblock h32 hBS2 h
  obtain ⟨img, dM, hres, hlim, _, hz⟩ := vsformat_vsmount_image h32 hBS2 h
  rw [hres] at hsb ⊢
  refine ⟨rfl, ?_, ?_, ?_, hlim, by omega⟩
  · intro i hi
    simp only [MAX_DIRECTORY_ENTRIES] at hi
    simp only [metaOfBytes, entryOfBytes]
    rcases hz (DIR_OFFSET + 128 * i + 44) (by omega) with h0 | h0
    · rw [h0]
    · rw [h0, metaByte_formatMetadata_used BS stack m i hi]
  · intro i _
    rfl
  · simp only at hsb
    rw [hsb]
    rfl

/-- For an exponent whose volume holds at least the 41 metadata blocks, the
superblock that `vsformat` writes and `vsmount` loads splits the volume into
superblock, allocation table, directory and data region without overlap or
gap. -/
theorem vsformat_vsmount_layout {BS : Nat} (h32 : 32 ≤ BS) (hBS2 : BS ≤ 2048)
    {stack : FileSystemMetadata} {d : Disk} {m : Nat} (hm : m < 32) (hbig : 41 * BS ≤ 2 ^ m)
    (h : (vsformat BS stack d m).1 = 0) :
    (vsmount BS (initialState (vsformat BS stack d m).2)).2.metadata.superblock.fat_start = 1
    ∧ (vsmount BS (initialState (vsformat BS stack d m).2)).2.metadata.superblock.root_dir_start
      = 1 + (vsmount BS
          (initialState (vsformat BS stack d m).2)).2.metadata.superblock.fat_blocks
    ∧ (vsmount BS (initialState (vsformat BS stack d m).2)).2.metadata.superblock.data_start
      = 1 + (vsmount BS (initialState (vsformat BS stack d m).2)).2.metadata.superblock.fat_blocks
        + (vsmount BS
          (initialState (vsformat BS stack d m).2)).2.metadata.superblock.root_dir_blocks
    ∧ (vsmount BS (initialState (vsformat BS stack d m).2)).2.metadata.superblock.data_start
        + (vsmount BS (initialState (vsformat BS stack d m).2)).2.metadata.superblock.data_blocks
      = 2 ^ m / BS := by
  obtain ⟨pad, hsb⟩ := vsformat_vsmount_superblock h32 hBS2 h
  rw [hsb]
  have hpow : (2 : Nat) ^ m < 4294967296 := by
    have : (2 : Nat) ^ m < 2 ^ 32 := Nat.pow_lt_pow_right (by omega) hm
    omega
  have hsz : u32 ((2 : Int) ^ m) = 2 ^ m := by
    have : ((2 : Int) ^ m) = (((2 : Nat) ^ m : Nat) : Int) := by push_cast; rfl
    rw [this]
    exact u32_natCast hpow
  have hq : 41 ≤ 2 ^ m / BS := by
    rw [Nat.le_div_iff_mul_le (by omega)]
    exact hbig
  have hq2 : 2 ^ m / BS < 4294967296 := lt_of_le_of_lt (Nat.div_le_self _ _) hpow
  have hdb : u32 ((((2 : Nat) ^ m : Nat) : Int) / (BS : Int) - (SUPERBLOCK_SIZE : Int)
      - (FAT_SIZE : Int) - (ROOT_DIR_BLOCK : Int)) = 2 ^ m / BS - 41 := by
    have e : (((2 : Nat) ^ m : Nat) : Int) / (BS : Int) = ((2 ^ m / BS : Nat) : Int) := by
      push_cast; rfl
    rw [e]
    simp only [SUPERBLOCK_SIZE, FAT_SIZE, ROOT_DIR_BLOCK]
    rw [u32_of_range (by omega) (by omega)]
    omega
  have hdb2 : (formatMetadata BS stack m).superblock.data_blocks = 2 ^ m / BS - 41 := by
    simp only [formatMetadata, hsz]
    exact hdb
  refine ⟨rfl, rfl, rfl, ?_⟩
  rw [hdb2]
  show 41 + (2 ^ m / BS - 41) = 2 ^ m / BS
  generalize 2 ^ m / BS = q at hq
  omega

/-- The call sequence of `roundTrip` on a fresh volume: every call succeeds,
and the final read, which starts at `cursor = size = n`, returns 0 and leaves
the buffer alone. -/
theorem roundTrip_on_fresh_volume (BS : Nat) (MR MA : Int) (st : State) (name : List Nat)
    (src buf : Mem) (n : Int)
    (hfresh : FreshVolume BS st) (hname : strlen name < MAX_FILENAME_LENGTH)
    (hn : 1 ≤ n ∧ n ≤ BS) :
    (roundTrip BS MR MA st name src n buf).created = 0
    ∧ (roundTrip BS MR MA st name src n buf).fd = 0
    ∧ (roundTrip BS MR MA st name src n buf).appended = n
    ∧ (roundTrip BS MR MA st name src n buf).size = n
    ∧ (roundTrip BS MR MA st name src n buf).closed = 0
    ∧ (roundTrip BS MR MA st name src n buf).fd2 = 0
    ∧ ∃ st1, (roundTrip BS MR MA st name src n buf).read = some (0, st1, buf)
        ∧ ((st1.metadata.root_directory 0).size : Int) = n
        ∧ ((st1.metadata.root_directory 0).current_position : Int) = n := by
  obtain ⟨hdir, htab, hrd, hlim, hBS⟩ := hfresh
  obtain ⟨hn1, hn2⟩ := hn
  have hnn : ((n.toNat : Nat) : Int) = n := Int.toNat_of_nonneg (by omega)
  -- create
  obtain ⟨d1, hd1, hc⟩ := vscreate_fresh BS st name
    (hdir 0 (by simp [MAX_DIRECTORY_ENTRIES])) hrd hlim hBS
  -- open for append
  have ho := vsopen_first
    { vdisk := d1
      metadata := { st.metadata with
        root_directory := setAt st.metadata.root_directory 0
          (createdEntry (st.metadata.root_directory 0) name) }
      OpenFileTable := st.OpenFileTable
      OpenFileModes := st.OpenFileModes } name MA
    (by simp [setAt_same, createdEntry])
    (match_of_filename (by decide) hname (by simp [setAt_same, createdEntry]))
    htab
  -- append
  obtain ⟨d2, hd2, ha⟩ := vsappend_first_block BS MA
    { vdisk := d1
      metadata := { st.metadata with
        root_directory := setAt st.metadata.root_directory 0
          (createdEntry (st.metadata.root_directory 0) name) }
      OpenFileTable := setAt st.OpenFileTable 0 0
      OpenFileModes := setAt st.OpenFileModes 0 MA } src n
    (by simp [setAt_same]) (by simp [setAt_same])
    (by simp [setAt_same, createdEntry]) (by simp [setAt_same, createdEntry])
    (by simp only [hd1]; omega) (by omega) ⟨hn1, hn2⟩
  simp only [setAt_same] at ha
  unfold roundTrip
  simp only [hc, ho, ha]
  generalize hmd : ({
      superblock := st.metadata.superblock
      fat_table := st.metadata.fat_table
      root_directory := setAt (setAt st.metadata.root_directory 0
          (createdEntry (st.metadata.root_directory 0) name)) 0
        { filename := (createdEntry (st.metadata.root_directory 0) name).filename
          size := n.toNat
          start_block := (createdEntry (st.metadata.root_directory 0) name).start_block
          current_position := n.toNat
          is_used := (createdEntry (st.metadata.root_directory 0) name).is_used
          padding := (createdEntry (st.metadata.root_directory 0) name).padding } } :
        FileSystemMetadata) = md3
  have he1 : (md3.root_directory 0).size = n.toNat := by rw [← hmd]; simp only [setAt_same]
  have he2 : (md3.root_directory 0).current_position = n.toNat := by
    rw [← hmd]; simp only [setAt_same]
  have he3 : (md3.root_directory 0).is_used ≠ 0 := by
    rw [← hmd]; simp [setAt_same, createdEntry]
  have he4 : strcmp (filenameAt md3.root_directory 0) name = 0 := by
    rw [← hmd]
    exact match_of_filename (by decide) hname (by simp [setAt_same, createdEntry])
  have hsz : vssize
      { vdisk := d2
        metadata := md3
        OpenFileTable := setAt st.OpenFileTable 0 0
        OpenFileModes := setAt st.OpenFileModes 0 MA } 0 = n := by
    unfold vssize
    have hg : ¬ ((0 : Int) < 0 ∨ (0 : Int) ≥ (MAX_OPEN_FILES : Int)
        ∨ setAt st.OpenFileTable 0 (0 : Int) (0 : Int).toNat = -1) := by
      simp [MAX_OPEN_FILES, setAt_same]
    rw [if_neg hg]
    simp only [Int.toNat_zero, setAt_same, he1, hnn]
    exact i32_of_range (by omega) (by omega)
  have hcl := vsclose_slot_zero
    { vdisk := d2
      metadata := md3
      OpenFileTable := setAt st.OpenFileTable 0 0
      OpenFileModes := setAt st.OpenFileModes 0 MA } (by simp [setAt_same])
  have ho2 := vsopen_first
    { vdisk := d2
      metadata := md3
      OpenFileTable := setAt (setAt st.OpenFileTable 0 0) 0 (-1)
      OpenFileModes := setAt st.OpenFileModes 0 MA } name MR he3 he4
    (by
      intro i hi
      by_cases h0 : i = 0
      · subst h0; simp [setAt_same]
      · simp only [setAt_other _ _ _ _ h0]; exact htab i hi)
  have hr := vsread_eof BS
    { vdisk := d2
      metadata := md3
      OpenFileTable := setAt (setAt (setAt st.OpenFileTable 0 0) 0 (-1)) 0 0
      OpenFileModes := setAt (setAt st.OpenFileModes 0 MA) 0 MR } buf n
    (by simp [setAt_same]) (by simp only [he1, he2])
  simp only [hsz, hcl, ho2, hr, true_and]
  refine ⟨_, rfl, ?_, ?_⟩
  · simp only [setAt_same, he1, hnn]
  · simp only [setAt_same, he2, hnn]

/-! ## Lemmas: the effect of each operation on the globals -/

theorem vsappend_guard (BS : Nat) (MA : Int) (st : State) (fd : Int) (buf : Mem) (n : Int)
    (h : fd < 0 ∨ fd ≥ (MAX_OPEN_FILES : Int) ∨ st.OpenFileTable fd.toNat = -1
      ∨ st.OpenFileModes fd.toNat ≠ MA) :
    vsappend BS MA st fd buf n = (-1, st) := by
  unfold vsappend
  rw [if_pos h]

theorem vsopen_frame (st : State) (name : List Nat) (mode : Int) :
    (vsopen st name mode).2.metadata = st.metadata
    ∧ (vsopen st name mode).2.vdisk = st.vdisk := by
  unfold vsopen
  simp only
  split_ifs <;> exact ⟨rfl, rfl⟩

theorem vsopen_fail {st : State} {name : List Nat} {mode : Int}
    (h : (vsopen st name mode).1 = -1) : vsopen st name mode = (-1, st) := by
  unfold vsopen at h ⊢
  simp only at h ⊢
  split_ifs at h ⊢ <;> first | rfl | exact absurd h ‹_›

theorem vsclose_effect (st : State) (fd : Int) :
    vsclose st fd = (-1, st)
    ∨ (0 ≤ fd ∧ fd < 16 ∧ st.OpenFileTable fd.toNat ≠ -1
        ∧ vsclose st fd = (0, { st with
            OpenFileTable := setAt st.OpenFileTable fd.toNat (-1) })) := by
  unfold vsclose
  by_cases hg : fd < 0 ∨ fd ≥ (MAX_OPEN_FILES : Int) ∨ st.OpenFileTable fd.toNat = -1
  · left; rw [if_pos hg]
  · right
    rw [if_neg hg]
    simp only [not_or, not_lt, ge_iff_le, not_le, MAX_OPEN_FILES, Nat.cast_ofNat] at hg
    exact ⟨hg.1, hg.2.1, hg.2.2, rfl⟩

theorem vscreate_effect (BS : Nat) (st : State) (name : List Nat) :
    (vscreate BS st name).2.OpenFileTable = st.OpenFileTable
    ∧ (vscreate BS st name).2.OpenFileModes = st.OpenFileModes
    ∧ (vscreate BS st name).2.metadata.superblock = st.metadata.superblock
    ∧ (vscreate BS st name).2.metadata.fat_table = st.metadata.fat_table
    ∧ (((∀ i, i < 128 → (st.metadata.root_directory i).is_used ≠ 0)
          ∧ vscreate BS st name = (-1, st))
      ∨ ∃ k, k < 128 ∧ (st.metadata.root_directory k).is_used = 0
          ∧ (∀ j, j < k → (st.metadata.root_directory j).is_used ≠ 0)
          ∧ (vscreate BS st name).2.metadata.root_directory
              = setAt st.metadata.root_directory k
                  (createdEntry (st.metadata.root_directory k) name)
          ∧ (writable BS st.vdisk (i32 st.metadata.superblock.root_dir_start) →
              (vscreate BS st name).1 = 0)) := by
  unfold vscreate find_free_directory_entry update_root_directory
  cases hf : firstIndex (fun i => (st.metadata.root_directory i).is_used == 0)
      MAX_DIRECTORY_ENTRIES 0 with
  | none =>
    simp only [hf, if_true]
    refine ⟨trivial, trivial, trivial, trivial, Or.inl ⟨?_, trivial⟩⟩
    intro i hi
    have := firstIndex_none hf i (Nat.zero_le _) (by simp only [MAX_DIRECTORY_ENTRIES]; omega)
    simpa using this
  | some k =>
    have hk := firstIndex_some hf
    have hne : ¬ ((k : Int) = -1) := by omega
    simp only [hf, hne, if_false, Int.toNat_ofNat]
    refine ⟨?_, ?_, ?_, ?_, Or.inr ⟨k, ?_, ?_, ?_, ?_, ?_⟩⟩
    · split_ifs <;> rfl
    · split_ifs <;> rfl
    · split_ifs <;> rfl
    · split_ifs <;> rfl
    · have := hk.2.1; simp only [MAX_DIRECTORY_ENTRIES] at this; omega
    · simpa using hk.2.2.1
    · intro j hj
      have := hk.2.2.2 j (Nat.zero_le _) hj
      simpa using this
    · split_ifs <;> rfl
    · intro hw
      have := hw (memFrom (metaByte { st.metadata with
        root_directory := setAt st.metadata.root_directory k
          { st.metadata.root_directory k with
            filename := strncpy name MAX_FILENAME_LENGTH
            size := 0
            start_block := 0
            current_position := 0
            is_used := 1 } }) DIR_OFFSET)
      simp [this]

theorem vsread_loop_total (BS : Nat) (hBS : 0 < BS) (hBS2 : BS < 2147483648) (start_block : Int) :
    ∀ (fuel : Nat) (d : Disk) (buf : Mem) (cur : Nat) (offset remaining : Int),
      remaining.toNat ≤ fuel →
      ∃ r, vsread_loop BS start_block fuel d buf cur offset remaining = some r
        ∧ ∀ d1 buf1 c, r = ReadLoop.done d1 buf1 c → c ≤ cur + remaining.toNat := by
  intro fuel
  induction fuel with
  | zero =>
    intro d buf cur offset remaining hf
    have hr : ¬ remaining > 0 := by omega
    refine ⟨ReadLoop.done d buf cur, by simp [vsread_loop, hr], ?_⟩
    intro d1 buf1 c hc
    injection hc with _ _ h3
    omega
  | succ fuel ih =>
    intro d buf cur offset remaining hf
    by_cases hr : remaining > 0
    · have hmod : (cur % BS : Nat) < BS := Nat.mod_lt _ hBS
      have hbo : i32 ((cur % BS : Nat) : Int) = ((cur % BS : Nat) : Int) :=
        i32_of_range (by omega) (by omega)
      unfold vsread_loop
      simp only [hr, if_true, hbo]
      generalize read_block BS d (memFrom buf offset.toNat)
        (i32 (start_block + ((cur / BS : Nat) : Int))) = rb
      by_cases hio : rb.1 ≠ 0
      · rw [if_pos hio]
        refine ⟨_, rfl, ?_⟩
        intro d1 buf1 c hc
        injection hc
      · rw [if_neg hio]
        generalize hrs : (if remaining < (BS : Int) - ((cur % BS : Nat) : Int) then remaining
          else (BS : Int) - ((cur % BS : Nat) : Int)) = rs
        have hrs1 : 1 ≤ rs ∧ rs ≤ remaining := by
          rw [← hrs]
          split_ifs with hlt
          · omega
          · omega
        have hu : u32 ((cur : Int) + rs) ≤ cur + rs.toNat := by
          unfold u32
          omega
        obtain ⟨r, h1, h2⟩ := ih rb.2.2 (memPatch buf offset.toNat rb.2.1) (u32 ((cur : Int) + rs))
          (offset + rs) (remaining - rs) (by omega)
        refine ⟨r, h1, ?_⟩
        intro d1 buf1 c hc
        have := h2 d1 buf1 c hc
        omega
    · refine ⟨ReadLoop.done d buf cur, ?_, ?_⟩
      · unfold vsread_loop
        rw [if_neg hr]
      · intro d1 buf1 c hc
        injection hc with _ _ h3
        omega

theorem vsdelete_effect (BS : Nat) (st : State) (name : List Nat) :
    (vsdelete BS st name).2.OpenFileTable = st.OpenFileTable
    ∧ (vsdelete BS st name).2.OpenFileModes = st.OpenFileModes
    ∧ (vsdelete BS st name).2.metadata.superblock = st.metadata.superblock
    ∧ (vsdelete BS st name).2.metadata.fat_table = st.metadata.fat_table
    ∧ ((vsdelete BS st name = (-1, st)
          ∧ (strlen name > MAX_FILENAME_LENGTH ∨ find_file st.metadata.root_directory name = -1))
      ∨ ∃ fi : Nat, fi < 128 ∧ strlen name ≤ MAX_FILENAME_LENGTH
          ∧ find_file st.metadata.root_directory name = (fi : Int)
          ∧ (st.metadata.root_directory fi).is_used ≠ 0
          ∧ strcmp (filenameAt st.metadata.root_directory fi) name = 0
          ∧ (vsdelete BS st name).2.metadata.root_directory
              = setAt st.metadata.root_directory fi
                  { st.metadata.root_directory fi with
                    is_used := 0
                    size := 0
                    start_block := 0
                    filename := List.replicate MAX_FILENAME_LENGTH 0 }) := by
  unfold vsdelete
  by_cases hl : strlen name > MAX_FILENAME_LENGTH
  · simp only [hl, if_true]
    exact ⟨trivial, trivial, trivial, trivial, Or.inl ⟨trivial, Or.inl trivial⟩⟩
  · simp only [hl, if_false]
    unfold find_file
    cases hf : firstIndex (fun i => (st.metadata.root_directory i).is_used != 0
        && strcmp (filenameAt st.metadata.root_directory i) name == 0) MAX_DIRECTORY_ENTRIES 0 with
    | none =>
      simp only [if_true]
      exact ⟨trivial, trivial, trivial, trivial, Or.inl ⟨trivial, Or.inr trivial⟩⟩
    | some fi =>
      have hfi := firstIndex_some hf
      have hne : ¬ ((fi : Int) = -1) := by omega
      simp only [hne, if_false, Int.toNat_ofNat]
      have hp := hfi.2.2.1
      simp only [Bool.and_eq_true, bne_iff_ne, ne_eq, beq_iff_eq] at hp
      refine ⟨?_, ?_, ?_, ?_, Or.inr ⟨fi, ?_, by omega, rfl, hp.1, hp.2, ?_⟩⟩
      · split <;> rfl
      · split <;> rfl
      · split <;> rfl
      · split <;> rfl
      · have := hfi.2.1; simp only [MAX_DIRECTORY_ENTRIES] at this; omega
      · split <;> rfl


theorem vsappend_effect (BS : Nat) (MA : Int) (st : State) (fd : Int) (buf : Mem) (n : Int) :
    (vsappend BS MA st fd buf n).2.OpenFileTable = st.OpenFileTable
    ∧ (vsappend BS MA st fd buf n).2.OpenFileModes = st.OpenFileModes
    ∧ (vsappend BS MA st fd buf n).2.metadata.superblock = st.metadata.superblock
    ∧ (vsappend BS MA st fd buf n).2.metadata.fat_table = st.metadata.fat_table
    ∧ ((vsappend BS MA st fd buf n).2.metadata.root_directory = st.metadata.root_directory
      ∨ ∃ c : Nat, (vsappend BS MA st fd buf n).2.metadata.root_directory
          = setAt st.metadata.root_directory (st.OpenFileTable fd.toNat).toNat
              { st.metadata.root_directory (st.OpenFileTable fd.toNat).toNat with
                current_position := c
                size := c }) := by
  unfold vsappend
  by_cases hg : fd < 0 ∨ fd ≥ (MAX_OPEN_FILES : Int) ∨ st.OpenFileTable fd.toNat = -1
      ∨ st.OpenFileModes fd.toNat ≠ MA
  · rw [if_pos hg]
    exact ⟨rfl, rfl, rfl, rfl, Or.inl rfl⟩
  · rw [if_neg hg]
    simp only
    by_cases hpos : n > 0
    · rw [if_pos hpos]
      generalize write_block BS st.vdisk (memFrom buf 0)
        (i32 (i32 ((st.metadata.root_directory (st.OpenFileTable fd.toNat).toNat).start_block : Int)
          + (((st.metadata.root_directory (st.OpenFileTable fd.toNat).toNat).current_position
            / BS : Nat) : Int))) = r
      by_cases hw : r.1 ≠ 0
      · rw [if_pos hw]
        exact ⟨rfl, rfl, rfl, rfl, Or.inl rfl⟩
      · rw [if_neg hw]
        split_ifs
        · exact ⟨rfl, rfl, rfl, rfl, Or.inl rfl⟩
        · exact ⟨rfl, rfl, rfl, rfl, Or.inr ⟨_, rfl⟩⟩
        · exact ⟨rfl, rfl, rfl, rfl, Or.inl rfl⟩
        · exact ⟨rfl, rfl, rfl, rfl, Or.inr ⟨_, rfl⟩⟩
    · rw [if_neg hpos]
      exact ⟨rfl, rfl, rfl, rfl, Or.inr ⟨_, rfl⟩⟩


theorem bytes_to_read_le (n : Int) (s c : Nat) (hn1 : -2147483648 ≤ n) (hn2 : n < 2147483648)
    (hcs : c ≤ s) :
    (if u32 n < u32 ((s : Int) - (c : Int)) then n
      else i32 (u32 ((s : Int) - (c : Int)))).toNat ≤ s - c := by
  have ha : u32 ((s : Int) - (c : Int)) ≤ s - c := by
    unfold u32
    omega
  generalize u32 ((s : Int) - (c : Int)) = a at ha ⊢
  by_cases hlt : u32 n < a
  · rw [if_pos hlt]
    unfold u32 at hlt
    omega
  · rw [if_neg hlt]
    unfold i32
    omega

theorem vsread_effect (BS : Nat) (hBS : 0 < BS) (hBS2 : BS < 2147483648) (st : State) (fd : Int)
    (buf : Mem) (n : Int) :
    ∃ r, vsread BS st fd buf n = some r
      ∧ r.2.1.OpenFileTable = st.OpenFileTable
      ∧ r.2.1.OpenFileModes = st.OpenFileModes
      ∧ r.2.1.metadata.superblock = st.metadata.superblock
      ∧ r.2.1.metadata.fat_table = st.metadata.fat_table
      ∧ (r.2.1.metadata.root_directory = st.metadata.root_directory
        ∨ ∃ c : Nat, r.2.1.metadata.root_directory
            = setAt st.metadata.root_directory (st.OpenFileTable fd.toNat).toNat
                { st.metadata.root_directory (st.OpenFileTable fd.toNat).toNat with
                  current_position := c }
            ∧ (-2147483648 ≤ n → n < 2147483648 →
                (st.metadata.root_directory (st.OpenFileTable fd.toNat).toNat).current_position
                  ≤ (st.metadata.root_directory (st.OpenFileTable fd.toNat).toNat).size →
                c ≤ (st.metadata.root_directory (st.OpenFileTable fd.toNat).toNat).size)) := by
  unfold vsread
  by_cases hg : fd < 0 ∨ fd ≥ (MAX_OPEN_FILES : Int) ∨ st.OpenFileTable fd.toNat = -1
  · rw [if_pos hg]
    exact ⟨_, rfl, rfl, rfl, rfl, rfl, Or.inl rfl⟩
  · rw [if_neg hg]
    simp only
    generalize hidx : (st.OpenFileTable fd.toNat).toNat = idx
    generalize he : st.metadata.root_directory idx = e
    generalize hbtr : (if u32 n < u32 ((e.size : Int) - (e.current_position : Int)) then n
      else i32 (u32 ((e.size : Int) - (e.current_position : Int)))) = btr
    obtain ⟨r, h1, h2⟩ := vsread_loop_total BS hBS hBS2 (i32 e.start_block) btr.toNat st.vdisk buf
      e.current_position 0 btr (le_refl _)
    rw [h1]
    cases r with
    | io_error d buf1 => exact ⟨_, rfl, rfl, rfl, rfl, rfl, Or.inl rfl⟩
    | done d buf1 c =>
      refine ⟨_, rfl, rfl, rfl, rfl, rfl, Or.inr ⟨c, rfl, ?_⟩⟩
      intro hn1 hn2 hcs
      have hc := h2 d buf1 c rfl
      have hb := bytes_to_read_le n e.size e.current_position hn1 hn2 hcs
      rw [hbtr] at hb
      clear hg hbtr h1 h2 hidx he
      omega

/-! ## Lemmas: names as C strings -/

theorem strcmp_self (a : List Nat) : strcmp a a = 0 :=
  (strcmp_eq_zero_iff a a).mpr rfl

theorem strcmp_symm {a b : List Nat} (h : strcmp a b = 0) : strcmp b a = 0 :=
  (strcmp_eq_zero_iff b a).mpr ((strcmp_eq_zero_iff a b).mp h).symm

theorem strcmp_trans {a b c : List Nat} (h1 : strcmp a b = 0) (h2 : strcmp b c = 0) :
    strcmp a c = 0 :=
  (strcmp_eq_zero_iff a c).mpr
    (((strcmp_eq_zero_iff a b).mp h1).trans ((strcmp_eq_zero_iff b c).mp h2))

/-- An in-use entry found by no lookup of `name` does not hold `name`. -/
theorem find_file_none {dir : Nat → DirectoryEntry} {name : List Nat}
    (h : find_file dir name = -1) (j : Nat) (hj : j < MAX_DIRECTORY_ENTRIES)
    (hu : (dir j).is_used ≠ 0) : strcmp (filenameAt dir j) name ≠ 0 := by
  unfold find_file at h
  cases hf : firstIndex (fun i => (dir i).is_used != 0 && strcmp (filenameAt dir i) name == 0)
      MAX_DIRECTORY_ENTRIES 0 with
  | some i =>
    rw [hf] at h
    simp only at h
    omega
  | none =>
    have := firstIndex_none hf j (Nat.zero_le _) (by omega)
    simp only [Bool.and_eq_false_imp, bne_iff_ne, ne_eq, beq_eq_false_iff_ne] at this
    exact this hu

/-! ## Lemmas: sequences of calls -/

theorem step_total (BS : Nat) (MA : Int) (hBS : 0 < BS) (hBS2 : BS < 2147483648) (st : State)
    (c : Call) : ∃ st1, step BS MA st c = some st1 := by
  cases c with
  | vsread fd buf n =>
    obtain ⟨r, h, _⟩ := vsread_effect BS hBS hBS2 st fd buf n
    exact ⟨r.2.1, by simp only [step, h]⟩
  | vscreate name => exact ⟨_, rfl⟩
  | vsdelete name => exact ⟨_, rfl⟩
  | vsopen name mode => exact ⟨_, rfl⟩
  | vsclose fd => exact ⟨_, rfl⟩
  | vsappend fd buf n => exact ⟨_, rfl⟩

/-- Replacing an entry by one with the same name field, padding and in-use
flag changes none of these in the directory. -/
theorem setAt_names (dir : Nat → DirectoryEntry) (idx : Nat) (e : DirectoryEntry)
    (h1 : e.is_used = (dir idx).is_used) (h2 : e.filename = (dir idx).filename)
    (h3 : e.padding = (dir idx).padding) (i : Nat) :
    (setAt dir idx e i).is_used = (dir i).is_used
    ∧ (setAt dir idx e i).filename = (dir i).filename
    ∧ (setAt dir idx e i).padding = (dir i).padding := by
  by_cases hi : i = idx
  · subst hi
    rw [setAt_same]
    exact ⟨h1, h2, h3⟩
  · rw [setAt_other _ _ _ _ hi]
    exact ⟨rfl, rfl, rfl⟩

theorem vsappend_names (BS : Nat) (MA : Int) (st : State) (fd : Int) (buf : Mem) (n : Int)
    (i : Nat) :
    ((vsappend BS MA st fd buf n).2.metadata.root_directory i).is_used
      = (st.metadata.root_directory i).is_used
    ∧ ((vsappend BS MA st fd buf n).2.metadata.root_directory i).filename
      = (st.metadata.root_directory i).filename
    ∧ ((vsappend BS MA st fd buf n).2.metadata.root_directory i).padding
      = (st.metadata.root_directory i).padding := by
  obtain ⟨_, _, _, _, h⟩ := vsappend_effect BS MA st fd buf n
  rcases h with h | ⟨c, h⟩
  · rw [h]; exact ⟨rfl, rfl, rfl⟩
  · rw [h]; exact setAt_names _ _ _ (by rfl) (by rfl) (by rfl) i

theorem vsread_names (BS : Nat) (hBS : 0 < BS) (hBS2 : BS < 2147483648) (st : State) (fd : Int)
    (buf : Mem) (n : Int) :
    ∃ r, vsread BS st fd buf n = some r
      ∧ r.2.1.OpenFileTable = st.OpenFileTable
      ∧ ∀ i, (r.2.1.metadata.root_directory i).is_used = (st.metadata.root_directory i).is_used
        ∧ (r.2.1.metadata.root_directory i).filename = (st.metadata.root_directory i).filename
        ∧ (r.2.1.metadata.root_directory i).padding
          = (st.metadata.root_directory i).padding := by
  obtain ⟨r, hr, ht, _, _, _, h⟩ := vsread_effect BS hBS hBS2 st fd buf n
  refine ⟨r, hr, ht, ?_⟩
  intro i
  rcases h with h | ⟨c, h, _⟩
  · rw [h]; exact ⟨rfl, rfl, rfl⟩
  · rw [h]; exact setAt_names _ _ _ (by rfl) (by rfl) (by rfl) i

/-- A directory whose names and in-use flags are those of a directory with
unique names has unique names. -/
theorem uniqueNames_of_names {dir dir1 : Nat → DirectoryEntry} (h : UniqueNames dir)
    (hn : ∀ i, (dir1 i).is_used = (dir i).is_used ∧ (dir1 i).filename = (dir i).filename
      ∧ (dir1 i).padding = (dir i).padding) :
    UniqueNames dir1 := by
  intro i j hi hj hui huj hs
  rw [(hn i).1] at hui
  rw [(hn j).1] at huj
  rw [entryName_congr (hn i).2.1, entryName_congr (hn j).2.1] at hs
  exact h i j hi hj hui huj hs

theorem terminatedNames_of_names {dir dir1 : Nat → DirectoryEntry} (h : TerminatedNames dir)
    (hn : ∀ i, (dir1 i).is_used = (dir i).is_used ∧ (dir1 i).filename = (dir i).filename
      ∧ (dir1 i).padding = (dir i).padding) :
    TerminatedNames dir1 := by
  intro i hi hui
  rw [(hn i).1] at hui
  rw [entryName_congr (hn i).2.1]
  exact h i hi hui

/-- The name held by a created entry, for a name of fewer than 30
characters. -/
theorem entryName_created_short (e : DirectoryEntry) {name : List Nat}
    (hlen : strlen name < MAX_FILENAME_LENGTH) :
    entryName (createdEntry e name) = cstring name := by
  rw [entryName_createdEntry, List.take_of_length_le (by rw [← strlen_eq_length]; omega)]

theorem vscreate_uniqueNames (BS : Nat) (st : State) (name : List Nat)
    (hinv : UniqueNames st.metadata.root_directory)
    (hlen : strlen name < MAX_FILENAME_LENGTH)
    (hnew : find_file st.metadata.root_directory name = -1) :
    UniqueNames (vscreate BS st name).2.metadata.root_directory := by
  obtain ⟨_, _, _, _, h⟩ := vscreate_effect BS st name
  rcases h with ⟨_, h⟩ | ⟨k, hk, hk0, _, h, _⟩
  · rw [h]; exact hinv
  · rw [h]
    intro i j hi hj hui huj hs
    by_cases hik : i = k
    · by_cases hjk : j = k
      · rw [hik, hjk]
      · exfalso
        rw [hik, setAt_same, entryName_created_short _ hlen] at hs
        rw [setAt_other _ _ _ _ hjk] at hs huj
        exact find_file_none hnew j hj huj (match_of_entryName hj hlen hs.symm)
    · by_cases hjk : j = k
      · exfalso
        rw [hjk, setAt_same, entryName_created_short _ hlen] at hs
        rw [setAt_other _ _ _ _ hik] at hs hui
        exact find_file_none hnew i hi hui (match_of_entryName hi hlen hs)
      · rw [setAt_other _ _ _ _ hik] at hs hui
        rw [setAt_other _ _ _ _ hjk] at hs huj
        exact hinv i j hi hj hui huj hs

theorem vscreate_terminatedNames (BS : Nat) (st : State) (name : List Nat)
    (hinv : TerminatedNames st.metadata.root_directory)
    (hlen : strlen name < MAX_FILENAME_LENGTH) :
    TerminatedNames (vscreate BS st name).2.metadata.root_directory := by
  obtain ⟨_, _, _, _, h⟩ := vscreate_effect BS st name
  rcases h with ⟨_, h⟩ | ⟨k, hk, hk0, _, h, _⟩
  · rw [h]; exact hinv
  · rw [h]
    intro i hi hui
    by_cases hik : i = k
    · rw [hik, setAt_same, entryName_created_short _ hlen, ← strlen_eq_length]
      exact hlen
    · rw [setAt_other _ _ _ _ hik] at hui ⊢
      exact hinv i hi hui

theorem vsdelete_terminatedNames (BS : Nat) (st : State) (name : List Nat)
    (hinv : TerminatedNames st.metadata.root_directory) :
    TerminatedNames (vsdelete BS st name).2.metadata.root_directory := by
  obtain ⟨_, _, _, _, h⟩ := vsdelete_effect BS st name
  rcases h with ⟨h, _⟩ | ⟨fi, _, _, _, _, _, h⟩
  · rw [h]; exact hinv
  · rw [h]
    intro i hi hui
    have hik : i ≠ fi := by
      intro hik
      rw [hik, setAt_same] at hui
      exact hui rfl
    rw [setAt_other _ _ _ _ hik] at hui ⊢
    exact hinv i hi hui

theorem vsdelete_uniqueNames (BS : Nat) (st : State) (name : List Nat)
    (hinv : UniqueNames st.metadata.root_directory) :
    UniqueNames (vsdelete BS st name).2.metadata.root_directory := by
  obtain ⟨_, _, _, _, h⟩ := vsdelete_effect BS st name
  rcases h with ⟨h, _⟩ | ⟨fi, _, _, _, _, _, h⟩
  · rw [h]; exact hinv
  · rw [h]
    intro i j hi hj hui huj hs
    have hik : i ≠ fi := by
      intro hik
      rw [hik, setAt_same] at hui
      exact hui rfl
    have hjk : j ≠ fi := by
      intro hjk
      rw [hjk, setAt_same] at huj
      exact huj rfl
    rw [setAt_other _ _ _ _ hik] at hs hui
    rw [setAt_other _ _ _ _ hjk] at hs huj
    exact hinv i j hi hj hui huj hs

theorem step_uniqueNames (BS : Nat) (MA : Int) (hBS : 0 < BS) (hBS2 : BS < 2147483648)
    (st st1 : State) (c : Call) (hinv : UniqueNames st.metadata.root_directory)
    (hnew : match c with
      | Call.vscreate filename =>
        strlen filename < MAX_FILENAME_LENGTH
          ∧ find_file st.metadata.root_directory filename = -1
      | _ => True)
    (hs : step BS MA st c = some st1) : UniqueNames st1.metadata.root_directory := by
  cases c with
  | vscreate name =>
    simp only [step, Option.some.injEq] at hs
    rw [← hs]
    exact vscreate_uniqueNames BS st name hinv hnew.1 hnew.2
  | vsdelete name =>
    simp only [step, Option.some.injEq] at hs
    rw [← hs]
    exact vsdelete_uniqueNames BS st name hinv
  | vsopen name mode =>
    simp only [step, Option.some.injEq] at hs
    rw [← hs, (vsopen_frame st name mode).1]
    exact hinv
  | vsclose fd =>
    simp only [step, Option.some.injEq] at hs
    rw [← hs]
    rcases vsclose_effect st fd with h | ⟨_, _, _, h⟩
    · rw [h]; exact hinv
    · rw [h]; exact hinv
  | vsread fd buf n =>
    obtain ⟨r, hr, _, hn⟩ := vsread_names BS hBS hBS2 st fd buf n
    simp only [step, hr, Option.some.injEq] at hs
    rw [← hs]
    exact uniqueNames_of_names hinv hn
  | vsappend fd buf n =>
    simp only [step, Option.some.injEq] at hs
    rw [← hs]
    exact uniqueNames_of_names hinv (vsappend_names BS MA st fd buf n)

theorem run_uniqueNames (BS : Nat) (MA : Int) (hBS : 0 < BS) (hBS2 : BS < 2147483648) :
    ∀ (calls : List Call) (st : State), UniqueNames st.metadata.root_directory →
      createsAreNew BS MA st calls →
      ∃ st1, run BS MA st calls = some st1 ∧ UniqueNames st1.metadata.root_directory := by
  intro calls
  induction calls with
  | nil =>
    intro st hinv _
    exact ⟨st, rfl, hinv⟩
  | cons c rest ih =>
    intro st hinv hnew
    obtain ⟨st1, hs⟩ := step_total BS MA hBS hBS2 st c
    unfold createsAreNew at hnew
    rw [hs] at hnew
    obtain ⟨st2, h1, h2⟩ := ih st1 (step_uniqueNames BS MA hBS hBS2 st st1 c hinv hnew.1 hs) hnew.2
    refine ⟨st2, ?_, h2⟩
    unfold run
    rw [hs]
    exact h1

theorem find_file_some {dir : Nat → DirectoryEntry} {name : List Nat} {fi : Nat}
    (h : find_file dir name = (fi : Int)) :
    fi < MAX_DIRECTORY_ENTRIES ∧ (dir fi).is_used ≠ 0 ∧ strcmp (filenameAt dir fi) name = 0 := by
  unfold find_file at h
  cases hf : firstIndex (fun i => (dir i).is_used != 0 && strcmp (filenameAt dir i) name == 0)
      MAX_DIRECTORY_ENTRIES 0 with
  | none =>
    rw [hf] at h
    simp only at h
    omega
  | some i =>
    rw [hf] at h
    simp only at h
    have hi : i = fi := by omega
    subst hi
    have hfi := firstIndex_some hf
    have hp := hfi.2.2.1
    simp only [Bool.and_eq_true, bne_iff_ne, ne_eq, beq_iff_eq] at hp
    exact ⟨by have := hfi.2.1; omega, hp.1, hp.2⟩

theorem vsopen_tableInjective (st : State) (name : List Nat) (mode : Int)
    (h : TableInjective st.OpenFileTable) :
    TableInjective (vsopen st name mode).2.OpenFileTable := by
  by_cases hf : (vsopen st name mode).1 = -1
  · rw [vsopen_fail hf]; exact h
  · obtain ⟨fi, slot, _, _, _, hno, _, _, heq⟩ := vsopen_success hf
    rw [heq]
    intro i j hi hj hne hij
    simp only [MAX_OPEN_FILES] at hi hj
    simp only at hne hij
    by_cases his : i = slot
    · by_cases hjs : j = slot
      · rw [his, hjs]
      · exfalso
        rw [his, setAt_same, setAt_other _ _ _ _ hjs] at hij
        exact hno j hj hij.symm
    · by_cases hjs : j = slot
      · exfalso
        rw [hjs, setAt_same, setAt_other _ _ _ _ his] at hij
        exact hno i hi hij
      · rw [setAt_other _ _ _ _ his] at hne hij
        rw [setAt_other _ _ _ _ hjs] at hij
        exact h i j (by simp only [MAX_OPEN_FILES]; exact hi)
          (by simp only [MAX_OPEN_FILES]; exact hj) hne hij

theorem vsclose_tableInjective (st : State) (fd : Int) (h : TableInjective st.OpenFileTable) :
    TableInjective (vsclose st fd).2.OpenFileTable := by
  rcases vsclose_effect st fd with hc | ⟨_, _, _, hc⟩
  · rw [hc]; exact h
  · rw [hc]
    intro i j hi hj hne hij
    simp only at hne hij
    have his : i ≠ fd.toNat := by
      intro his
      rw [his, setAt_same] at hne
      exact hne rfl
    rw [setAt_other _ _ _ _ his] at hne hij
    have hjs : j ≠ fd.toNat := by
      intro hjs
      rw [hjs, setAt_same] at hij
      exact hne hij
    rw [setAt_other _ _ _ _ hjs] at hij
    exact h i j hi hj hne hij

theorem step_tableInjective (BS : Nat) (MA : Int) (hBS : 0 < BS) (hBS2 : BS < 2147483648)
    (st st1 : State) (c : Call) (hinv : TableInjective st.OpenFileTable)
    (hs : step BS MA st c = some st1) : TableInjective st1.OpenFileTable := by
  cases c with
  | vscreate name =>
    simp only [step, Option.some.injEq] at hs
    rw [← hs, (vscreate_effect BS st name).1]
    exact hinv
  | vsdelete name =>
    simp only [step, Option.some.injEq] at hs
    rw [← hs, (vsdelete_effect BS st name).1]
    exact hinv
  | vsopen name mode =>
    simp only [step, Option.some.injEq] at hs
    rw [← hs]
    exact vsopen_tableInjective st name mode hinv
  | vsclose fd =>
    simp only [step, Option.some.injEq] at hs
    rw [← hs]
    exact vsclose_tableInjective st fd hinv
  | vsread fd buf n =>
    obtain ⟨r, hr, ht, _⟩ := vsread_names BS hBS hBS2 st fd buf n
    simp only [step, hr, Option.some.injEq] at hs
    rw [← hs, ht]
    exact hinv
  | vsappend fd buf n =>
    simp only [step, Option.some.injEq] at hs
    rw [← hs, (vsappend_effect BS MA st fd buf n).1]
    exact hinv

theorem run_tableInjective (BS : Nat) (MA : Int) (hBS : 0 < BS) (hBS2 : BS < 2147483648) :
    ∀ (calls : List Call) (st : State), TableInjective st.OpenFileTable →
      ∃ st1, run BS MA st calls = some st1 ∧ TableInjective st1.OpenFileTable := by
  intro calls
  induction calls with
  | nil =>
    intro st hinv
    exact ⟨st, rfl, hinv⟩
  | cons c rest ih =>
    intro st hinv
    obtain ⟨st1, hs⟩ := step_total BS MA hBS hBS2 st c
    obtain ⟨st2, h1, h2⟩ := ih st1 (step_tableInjective BS MA hBS hBS2 st st1 c hinv hs)
    refine ⟨st2, ?_, h2⟩
    unfold run
    rw [hs]
    exact h1

/-- Occupied slots stay valid when the table is kept and the entries they
refer to keep their name and in-use flag. -/
theorem descriptorsValid_of_names {st st1 : State} {opened : Nat → List Nat}
    (h : DescriptorsValid st opened) (ht : st1.OpenFileTable = st.OpenFileTable)
    (hn : ∀ idx, idx < MAX_DIRECTORY_ENTRIES → (st.metadata.root_directory idx).is_used ≠ 0 →
      (∀ s, s < MAX_OPEN_FILES → st.OpenFileTable s ≠ -1 → st.OpenFileTable s = (idx : Int) →
        (st1.metadata.root_directory idx).is_used = (st.metadata.root_directory idx).is_used
        ∧ (st1.metadata.root_directory idx).filename
            = (st.metadata.root_directory idx).filename)) :
    DescriptorsValid st1 opened := by
  intro s hs hocc
  rw [ht] at hocc
  obtain ⟨idx, hidx, heq, hu, hname⟩ := h s hs hocc
  obtain ⟨h1, h2⟩ := hn idx hidx hu s hs hocc heq
  refine ⟨idx, hidx, by rw [ht]; exact heq, ?_, ?_⟩
  · rw [h1]; exact hu
  · rw [entryName_congr h2]; exact hname

theorem vscreate_descriptorsValid (BS : Nat) (st : State) (name : List Nat)
    (opened : Nat → List Nat) (h : DescriptorsValid st opened) :
    DescriptorsValid (vscreate BS st name).2 opened := by
  obtain ⟨ht, _, _, _, hd⟩ := vscreate_effect BS st name
  apply descriptorsValid_of_names h ht
  intro idx _ hu s _ _ _
  rcases hd with ⟨_, hd⟩ | ⟨k, _, hk0, _, hd, _⟩
  · rw [hd]; exact ⟨rfl, rfl⟩
  · have hne : idx ≠ k := by
      intro hik
      rw [hik] at hu
      exact hu hk0
    rw [hd, setAt_other _ _ _ _ hne]
    exact ⟨rfl, rfl⟩

theorem vsdelete_descriptorsValid (BS : Nat) (st : State) (name : List Nat)
    (opened : Nat → List Nat) (h : DescriptorsValid st opened)
    (hok : ∀ s, s < MAX_OPEN_FILES → st.OpenFileTable s ≠ -1 →
      st.OpenFileTable s ≠ find_file st.metadata.root_directory name) :
    DescriptorsValid (vsdelete BS st name).2 opened := by
  obtain ⟨ht, _, _, _, hd⟩ := vsdelete_effect BS st name
  apply descriptorsValid_of_names h ht
  intro idx _ _ s hs hocc heq
  rcases hd with ⟨hd, _⟩ | ⟨fi, _, _, hfi, _, _, hd⟩
  · rw [hd]; exact ⟨rfl, rfl⟩
  · have hne : idx ≠ fi := by
      intro hik
      apply hok s hs hocc
      rw [heq, hfi, hik]
    rw [hd, setAt_other _ _ _ _ hne]
    exact ⟨rfl, rfl⟩

theorem vsopen_descriptorsValid (st : State) (name : List Nat) (mode : Int)
    (opened : Nat → List Nat) (h : DescriptorsValid st opened) :
    DescriptorsValid (vsopen st name mode).2
      (noteOpen st opened (Call.vsopen name mode)) := by
  by_cases hf : (vsopen st name mode).1 = -1
  · simp only [noteOpen, hf, if_true]
    rw [vsopen_fail hf]
    exact h
  · obtain ⟨fi, slot, _, _, hfind, _, _, _, heq⟩ := vsopen_success hf
    obtain ⟨hfi, hu, hname⟩ := find_file_some hfind
    simp only [noteOpen, hf, if_false]
    rw [heq]
    simp only [Int.toNat_ofNat]
    intro s hs hocc
    simp only at hocc ⊢
    by_cases hss : s = slot
    · subst hss
      rw [setAt_same, setAt_same]
      exact ⟨fi, hfi, rfl, hu, entryName_of_match hfi hname⟩
    · rw [setAt_other _ _ _ _ hss] at hocc ⊢
      rw [setAt_other _ _ _ _ hss]
      exact h s hs hocc

theorem vsclose_descriptorsValid (st : State) (fd : Int) (opened : Nat → List Nat)
    (h : DescriptorsValid st opened) : DescriptorsValid (vsclose st fd).2 opened := by
  rcases vsclose_effect st fd with hc | ⟨_, _, _, hc⟩
  · rw [hc]; exact h
  · rw [hc]
    intro s hs hocc
    simp only at hocc ⊢
    have hss : s ≠ fd.toNat := by
      intro hss
      rw [hss, setAt_same] at hocc
      exact hocc rfl
    rw [setAt_other _ _ _ _ hss] at hocc ⊢
    exact h s hs hocc

theorem step_descriptorsValid (BS : Nat) (MA : Int) (hBS : 0 < BS) (hBS2 : BS < 2147483648)
    (st st1 : State) (c : Call) (opened : Nat → List Nat) (hinv : DescriptorsValid st opened)
    (hok : match c with
      | Call.vsdelete filename =>
        ∀ s, s < MAX_OPEN_FILES → st.OpenFileTable s ≠ -1 →
          st.OpenFileTable s ≠ find_file st.metadata.root_directory filename
      | _ => True)
    (hs : step BS MA st c = some st1) : DescriptorsValid st1 (noteOpen st opened c) := by
  cases c with
  | vscreate name =>
    simp only [step, Option.some.injEq] at hs
    rw [← hs]
    exact vscreate_descriptorsValid BS st name opened hinv
  | vsdelete name =>
    simp only [step, Option.some.injEq] at hs
    rw [← hs]
    exact vsdelete_descriptorsValid BS st name opened hinv hok
  | vsopen name mode =>
    simp only [step, Option.some.injEq] at hs
    rw [← hs]
    exact vsopen_descriptorsValid st name mode opened hinv
  | vsclose fd =>
    simp only [step, Option.some.injEq] at hs
    rw [← hs]
    exact vsclose_descriptorsValid st fd opened hinv
  | vsread fd buf n =>
    obtain ⟨r, hr, ht, hn⟩ := vsread_names BS hBS hBS2 st fd buf n
    simp only [step, hr, Option.some.injEq] at hs
    rw [← hs]
    exact descriptorsValid_of_names hinv ht
      (fun idx _ _ _ _ _ _ => ⟨(hn idx).1, (hn idx).2.1⟩)
  | vsappend fd buf n =>
    simp only [step, Option.some.injEq] at hs
    rw [← hs]
    exact descriptorsValid_of_names hinv (vsappend_effect BS MA st fd buf n).1
      (fun idx _ _ _ _ _ _ =>
        ⟨(vsappend_names BS MA st fd buf n idx).1, (vsappend_names BS MA st fd buf n idx).2.1⟩)

theorem runNoted_descriptorsValid (BS : Nat) (MA : Int) (hBS : 0 < BS)
    (hBS2 : BS < 2147483648) :
    ∀ (calls : List Call) (st : State) (opened : Nat → List Nat), DescriptorsValid st opened →
      noDeleteOfOpen BS MA st calls →
      ∃ st1 opened1, runNoted BS MA st opened calls = some (st1, opened1)
        ∧ run BS MA st calls = some st1
        ∧ DescriptorsValid st1 opened1 := by
  intro calls
  induction calls with
  | nil =>
    intro st opened hinv _
    exact ⟨st, opened, rfl, rfl, hinv⟩
  | cons c rest ih =>
    intro st opened hinv hok
    obtain ⟨st1, hs⟩ := step_total BS MA hBS hBS2 st c
    unfold noDeleteOfOpen at hok
    rw [hs] at hok
    obtain ⟨st2, opened2, h1, h2, h3⟩ := ih st1 (noteOpen st opened c)
      (step_descriptorsValid BS MA hBS hBS2 st st1 c opened hinv hok.1 hs) hok.2
    refine ⟨st2, opened2, ?_, ?_, h3⟩
    · unfold runNoted
      rw [hs]
      exact h1
    · unfold run
      rw [hs]
      exact h2

/-! ## Lemmas: cursors, block addresses and the fresh volume -/

theorem vscreate_cursorInBounds (BS : Nat) (st : State) (name : List Nat)
    (h : CursorInBounds st.metadata.root_directory) :
    CursorInBounds (vscreate BS st name).2.metadata.root_directory := by
  obtain ⟨_, _, _, _, hd⟩ := vscreate_effect BS st name
  rcases hd with ⟨_, hd⟩ | ⟨k, _, _, _, hd, _⟩
  · rw [hd]; exact h
  · rw [hd]
    intro i hi hu
    by_cases hik : i = k
    · rw [hik, setAt_same]
      exact le_refl _
    · rw [setAt_other _ _ _ _ hik] at hu ⊢
      exact h i hi hu

theorem vsdelete_cursorInBounds (BS : Nat) (st : State) (name : List Nat)
    (h : CursorInBounds st.metadata.root_directory) :
    CursorInBounds (vsdelete BS st name).2.metadata.root_directory := by
  obtain ⟨_, _, _, _, hd⟩ := vsdelete_effect BS st name
  rcases hd with ⟨hd, _⟩ | ⟨fi, _, _, _, _, _, hd⟩
  · rw [hd]; exact h
  · rw [hd]
    intro i hi hu
    by_cases hik : i = fi
    · rw [hik, setAt_same] at hu
      exact absurd rfl hu
    · rw [setAt_other _ _ _ _ hik] at hu ⊢
      exact h i hi hu

theorem vsappend_cursorInBounds (BS : Nat) (MA : Int) (st : State) (fd : Int) (buf : Mem)
    (n : Int) (h : CursorInBounds st.metadata.root_directory) :
    CursorInBounds (vsappend BS MA st fd buf n).2.metadata.root_directory := by
  obtain ⟨_, _, _, _, hd⟩ := vsappend_effect BS MA st fd buf n
  rcases hd with hd | ⟨c, hd⟩
  · rw [hd]; exact h
  · rw [hd]
    intro i hi hu
    by_cases hik : i = (st.OpenFileTable fd.toNat).toNat
    · rw [hik, setAt_same]
    · rw [setAt_other _ _ _ _ hik] at hu ⊢
      exact h i hi hu

theorem vsread_cursorInBounds (BS : Nat) (hBS : 0 < BS) (hBS2 : BS < 2147483648) (st : State)
    (fd : Int) (buf : Mem) (n : Int) (hn1 : -2147483648 ≤ n) (hn2 : n < 2147483648)
    (h : CursorInBounds st.metadata.root_directory) :
    ∃ r, vsread BS st fd buf n = some r ∧ CursorInBounds r.2.1.metadata.root_directory := by
  obtain ⟨r, hr, _, _, _, _, hd⟩ := vsread_effect BS hBS hBS2 st fd buf n
  refine ⟨r, hr, ?_⟩
  rcases hd with hd | ⟨c, hd, hc⟩
  · rw [hd]; exact h
  · rw [hd]
    intro i hi hu
    by_cases hik : i = (st.OpenFileTable fd.toNat).toNat
    · rw [hik, setAt_same] at hu ⊢
      exact hc hn1 hn2 (h _ (by rw [← hik]; exact hi) hu)
    · rw [setAt_other _ _ _ _ hik] at hu ⊢
      exact h i hi hu

/-- The block `vsappend` writes is the one `vsappend_block_number` names. -/
theorem vsappend_writes_block (BS : Nat) (MA : Int) (st : State) (fd : Int) (buf : Mem) (n : Int)
    (hg : ¬ (fd < 0 ∨ fd ≥ (MAX_OPEN_FILES : Int) ∨ st.OpenFileTable fd.toNat = -1
      ∨ st.OpenFileModes fd.toNat ≠ MA)) (hn : n > 0) :
    (vsappend BS MA st fd buf n).2.vdisk
      = (write_block BS st.vdisk (memFrom buf 0) (vsappend_block_number BS st fd)).2 := by
  unfold vsappend vsappend_block_number
  rw [if_neg hg]
  simp only
  rw [if_pos hn]
  split_ifs <;> rfl

/-- An append that would cross the end of the current block fails, whatever
the allocation table holds, and leaves the metadata as it was. -/
theorem vsappend_crossing_fails (BS : Nat) (MA : Int) (st : State) (fd : Int) (buf : Mem)
    (n : Int) (hBS : 0 < BS) (hBS2 : BS < 2147483648) (hn : n > 0)
    (hcross : (((st.metadata.root_directory (st.OpenFileTable fd.toNat).toNat).current_position
      % BS : Nat) : Int) + n > BS) :
    (vsappend BS MA st fd buf n).1 = -1
    ∧ (vsappend BS MA st fd buf n).2.metadata = st.metadata := by
  unfold vsappend
  by_cases hg : fd < 0 ∨ fd ≥ (MAX_OPEN_FILES : Int) ∨ st.OpenFileTable fd.toNat = -1
      ∨ st.OpenFileModes fd.toNat ≠ MA
  · rw [if_pos hg]
    exact ⟨rfl, rfl⟩
  · rw [if_neg hg]
    simp only
    rw [if_pos hn]
    generalize (st.metadata.root_directory (st.OpenFileTable fd.toNat).toNat).current_position
      = cur at hcross ⊢
    have hmod : (cur % BS : Nat) < BS := Nat.mod_lt _ hBS
    have hbo : i32 ((cur % BS : Nat) : Int) = ((cur % BS : Nat) : Int) :=
      i32_of_range (by omega) (by omega)
    rw [hbo]
    generalize ((cur % BS : Nat) : Int) = bo at hcross ⊢
    have hlt : ¬ (n < (BS : Int) - bo) := by clear hg; omega
    rw [if_neg hlt]
    have hrem : n - ((BS : Int) - bo) > 0 := by clear hg; omega
    rw [if_pos hrem]
    split_ifs <;> exact ⟨rfl, rfl⟩

theorem vsdelete_long_name (BS : Nat) (st : State) (name : List Nat)
    (h : strlen name > MAX_FILENAME_LENGTH) : vsdelete BS st name = (-1, st) := by
  unfold vsdelete
  rw [if_pos h]

theorem freshVolume_fresh : FreshVolume 2048 freshVolume :=
  (vsformat_vsmount_fresh (by decide) (by decide) (by decide)).2

theorem uniqueNames_of_fresh {BS : Nat} {st : State} (h : FreshVolume BS st) :
    UniqueNames st.metadata.root_directory := by
  intro i j hi _ hu _ _
  exact absurd (h.1 i hi) hu

theorem tableInjective_of_free {t : Nat → Int} (h : ∀ i, i < MAX_OPEN_FILES → t i = -1) :
    TableInjective t := by
  intro i j hi _ hne _
  exact absurd (h i hi) hne

theorem descriptorsValid_of_free {st : State} (opened : Nat → List Nat)
    (h : ∀ i, i < MAX_OPEN_FILES → st.OpenFileTable i = -1) : DescriptorsValid st opened := by
  intro s hs hne
  exact absurd (h s hs) hne

/-! ## Lemmas: a descriptor and the name it was opened with -/

theorem step_terminatedNames (BS : Nat) (MA : Int) (hBS : 0 < BS) (hBS2 : BS < 2147483648)
    (st st1 : State) (c : Call) (hinv : TerminatedNames st.metadata.root_directory)
    (hnew : match c with
      | Call.vscreate filename =>
        strlen filename < MAX_FILENAME_LENGTH
          ∧ find_file st.metadata.root_directory filename = -1
      | _ => True)
    (hs : step BS MA st c = some st1) : TerminatedNames st1.metadata.root_directory := by
  cases c with
  | vscreate name =>
    simp only [step, Option.some.injEq] at hs
    rw [← hs]
    exact vscreate_terminatedNames BS st name hinv hnew.1
  | vsdelete name =>
    simp only [step, Option.some.injEq] at hs
    rw [← hs]
    exact vsdelete_terminatedNames BS st name hinv
  | vsopen name mode =>
    simp only [step, Option.some.injEq] at hs
    rw [← hs, (vsopen_frame st name mode).1]
    exact hinv
  | vsclose fd =>
    simp only [step, Option.some.injEq] at hs
    rw [← hs]
    rcases vsclose_effect st fd with h | ⟨_, _, _, h⟩
    · rw [h]; exact hinv
    · rw [h]; exact hinv
  | vsread fd buf n =>
    obtain ⟨r, hr, _, hn⟩ := vsread_names BS hBS hBS2 st fd buf n
    simp only [step, hr, Option.some.injEq] at hs
    rw [← hs]
    exact terminatedNames_of_names hinv hn
  | vsappend fd buf n =>
    simp only [step, Option.some.injEq] at hs
    rw [← hs]
    exact terminatedNames_of_names hinv (vsappend_names BS MA st fd buf n)

/-- The four invariants of a run in which every `vscreate` brings a new short
name and no open file is deleted. -/
theorem runNoted_consistent (BS : Nat) (MA : Int) (hBS : 0 < BS) (hBS2 : BS < 2147483648) :
    ∀ (calls : List Call) (st : State) (opened : Nat → List Nat),
      UniqueNames st.metadata.root_directory → TerminatedNames st.metadata.root_directory →
      DescriptorsValid st opened → TableInjective st.OpenFileTable →
      createsAreNew BS MA st calls → noDeleteOfOpen BS MA st calls →
      ∃ st1 opened1, runNoted BS MA st opened calls = some (st1, opened1)
        ∧ run BS MA st calls = some st1
        ∧ UniqueNames st1.metadata.root_directory
        ∧ TerminatedNames st1.metadata.root_directory
        ∧ DescriptorsValid st1 opened1
        ∧ TableInjective st1.OpenFileTable := by
  intro calls
  induction calls with
  | nil =>
    intro st opened h1 h2 h3 h4 _ _
    exact ⟨st, opened, rfl, rfl, h1, h2, h3, h4⟩
  | cons c rest ih =>
    intro st opened h1 h2 h3 h4 hnew hok
    obtain ⟨st1, hs⟩ := step_total BS MA hBS hBS2 st c
    unfold createsAreNew at hnew
    unfold noDeleteOfOpen at hok
    rw [hs] at hnew hok
    obtain ⟨st2, opened2, g0, g0r, g1, g2, g3, g4⟩ := ih st1 (noteOpen st opened c)
      (step_uniqueNames BS MA hBS hBS2 st st1 c h1 hnew.1 hs)
      (step_terminatedNames BS MA hBS hBS2 st st1 c h2 hnew.1 hs)
      (step_descriptorsValid BS MA hBS hBS2 st st1 c opened h3 hok.1 hs)
      (step_tableInjective BS MA hBS hBS2 st st1 c h4 hs) hnew.2 hok.2
    refine ⟨st2, opened2, ?_, ?_, g1, g2, g3, g4⟩
    · unfold runNoted
      rw [hs]
      exact g0
    · unfold run
      rw [hs]
      exact g0r

/-- A call other than `vsclose(fd)` leaves an occupied slot `fd` and the name
noted for it as they are. -/
theorem step_keeps_slot (BS : Nat) (MA : Int) (hBS : 0 < BS) (hBS2 : BS < 2147483648)
    (st st1 : State) (c : Call) (opened : Nat → List Nat) (fd : Nat)
    (hocc : st.OpenFileTable fd ≠ -1) (hc : c ≠ Call.vsclose (fd : Int))
    (hs : step BS MA st c = some st1) :
    st1.OpenFileTable fd = st.OpenFileTable fd ∧ noteOpen st opened c fd = opened fd := by
  cases c with
  | vscreate name =>
    simp only [step, Option.some.injEq] at hs
    rw [← hs, (vscreate_effect BS st name).1]
    exact ⟨rfl, rfl⟩
  | vsdelete name =>
    simp only [step, Option.some.injEq] at hs
    rw [← hs, (vsdelete_effect BS st name).1]
    exact ⟨rfl, rfl⟩
  | vsopen name mode =>
    simp only [step, Option.some.injEq] at hs
    rw [← hs]
    by_cases hf : (vsopen st name mode).1 = -1
    · simp only [noteOpen, hf, if_true]
      rw [vsopen_fail hf]
      refine ⟨?_, ?_⟩ <;> first | rfl | trivial
    · obtain ⟨fi, slot, _, _, _, _, hfree, _, heq⟩ := vsopen_success hf
      have hne : fd ≠ slot := by
        intro h
        rw [h] at hocc
        exact hocc hfree
      simp only [noteOpen, hf, if_false]
      rw [heq]
      simp only [Int.toNat_ofNat]
      exact ⟨setAt_other _ _ _ _ hne, setAt_other _ _ _ _ hne⟩
  | vsclose fd1 =>
    simp only [step, Option.some.injEq] at hs
    rw [← hs]
    rcases vsclose_effect st fd1 with h | ⟨h0, _, _, h⟩
    · rw [h]; exact ⟨rfl, rfl⟩
    · rw [h]
      have hne : fd ≠ fd1.toNat := by
        intro h1
        apply hc
        rw [h1, Int.toNat_of_nonneg h0]
      exact ⟨setAt_other _ _ _ _ hne, rfl⟩
  | vsread fd1 buf n =>
    obtain ⟨r, hr, ht, _⟩ := vsread_names BS hBS hBS2 st fd1 buf n
    simp only [step, hr, Option.some.injEq] at hs
    rw [← hs, ht]
    exact ⟨rfl, rfl⟩
  | vsappend fd1 buf n =>
    simp only [step, Option.some.injEq] at hs
    rw [← hs, (vsappend_effect BS MA st fd1 buf n).1]
    exact ⟨rfl, rfl⟩

theorem runNoted_keeps_slot (BS : Nat) (MA : Int) (hBS : 0 < BS) (hBS2 : BS < 2147483648)
    (fd : Nat) :
    ∀ (calls : List Call) (st st1 : State) (opened opened1 : Nat → List Nat),
      st.OpenFileTable fd ≠ -1 → Call.vsclose (fd : Int) ∉ calls →
      runNoted BS MA st opened calls = some (st1, opened1) →
      st1.OpenFileTable fd = st.OpenFileTable fd ∧ opened1 fd = opened fd := by
  intro calls
  induction calls with
  | nil =>
    intro st st1 opened opened1 _ _ h
    simp only [runNoted, Option.some.injEq, Prod.mk.injEq] at h
    obtain ⟨e1, e2⟩ := h
    subst e1
    subst e2
    exact ⟨rfl, rfl⟩
  | cons c rest ih =>
    intro st st1 opened opened1 hocc hc h
    obtain ⟨st2, hs⟩ := step_total BS MA hBS hBS2 st c
    unfold runNoted at h
    rw [hs] at h
    simp only at h
    have hc1 : c ≠ Call.vsclose (fd : Int) := by
      intro e
      apply hc
      rw [e]
      exact List.mem_cons_self _ _
    have hc2 : Call.vsclose (fd : Int) ∉ rest := fun e => hc (List.mem_cons_of_mem _ e)
    obtain ⟨k1, k2⟩ := step_keeps_slot BS MA hBS hBS2 st st2 c opened fd hocc hc1 hs
    obtain ⟨g1, g2⟩ := ih st2 st1 (noteOpen st opened c) opened1 (by rw [k1]; exact hocc) hc2 h
    exact ⟨g1.trans k1, g2.trans k2⟩

/-- With unique, terminated names and valid descriptors, the lookup of the
name noted for an occupied slot finds the entry behind the slot. -/
theorem find_file_of_open_slot {st : State} {opened : Nat → List Nat} {fd : Nat}
    (hu : UniqueNames st.metadata.root_directory)
    (ht : TerminatedNames st.metadata.root_directory)
    (hd : DescriptorsValid st opened) (hfd : fd < MAX_OPEN_FILES)
    (hocc : st.OpenFileTable fd ≠ -1) :
    find_file st.metadata.root_directory (opened fd) = st.OpenFileTable fd
    ∧ ∃ idx : Nat, st.OpenFileTable fd = (idx : Int) := by
  obtain ⟨idx, hidx, heq, hused, hname⟩ := hd fd hfd hocc
  have hlen0 := ht idx hidx hused
  rw [hname, List.length_take] at hlen0
  have hlen : strlen (opened fd) < MAX_FILENAME_LENGTH := by
    rw [strlen_eq_length]
    omega
  rw [List.take_of_length_le (by rw [← strlen_eq_length]; omega)] at hname
  have hmatch := match_of_entryName hidx hlen hname
  refine ⟨?_, idx, heq⟩
  obtain ⟨i, hi, hile⟩ := firstIndex_exists
    (p := fun i => (st.metadata.root_directory i).is_used != 0
      && strcmp (filenameAt st.metadata.root_directory i) (opened fd) == 0)
    (n := MAX_DIRECTORY_ENTRIES) (s := 0) (j := idx) (Nat.zero_le _) (by omega)
    (by simp [hused, hmatch])
  have hp := (firstIndex_some hi).2.2.1
  simp only [Bool.and_eq_true, bne_iff_ne, ne_eq, beq_iff_eq] at hp
  have hi128 : i < MAX_DIRECTORY_ENTRIES := by omega
  have hii : i = idx := by
    apply hu i idx hi128 hidx hp.1 hused
    rw [entryName_of_match hi128 hp.2, hname,
      List.take_of_length_le (by rw [← strlen_eq_length]; omega)]
  unfold find_file
  rw [hi, hii, heq]

/-- A name whose lookup finds the entry behind an occupied slot cannot be
opened again. -/
theorem vsopen_refused {st : State} {name : List Nat} {fd idx : Nat} (mode : Int)
    (hfd : fd < MAX_OPEN_FILES) (heq : st.OpenFileTable fd = (idx : Int))
    (hfind : find_file st.metadata.root_directory name = (idx : Int)) :
    vsopen st name mode = (-1, st) := by
  unfold vsopen
  rw [hfind]
  have hne : ¬ ((idx : Int) = -1) := by omega
  simp only [hne, if_false]
  obtain ⟨i, hi, _⟩ := firstIndex_exists
    (p := fun i => st.OpenFileTable i == (idx : Int))
    (n := MAX_OPEN_FILES) (s := 0) (j := fd) (Nat.zero_le _) (by omega) (by simp [heq])
  simp [hi]

/-- After `vsclose(fd)` the name whose lookup finds the entry that was behind
slot `fd` can be opened, when no other slot referred to that entry. -/
theorem vsopen_after_close {st : State} {name : List Nat} {fd idx : Nat} (mode : Int)
    (hfd : fd < MAX_OPEN_FILES) (heq : st.OpenFileTable fd = (idx : Int))
    (hfind : find_file st.metadata.root_directory name = (idx : Int))
    (hinj : TableInjective st.OpenFileTable) :
    (vsclose st (fd : Int)).1 = 0
    ∧ 0 ≤ (vsopen (vsclose st (fd : Int)).2 name mode).1
    ∧ (vsopen (vsclose st (fd : Int)).2 name mode).1 < 16 := by
  have hne : ¬ ((idx : Int) = -1) := by omega
  have hfd16 : fd < 16 := by simpa [MAX_OPEN_FILES] using hfd
  have hclose : vsclose st (fd : Int)
      = (0, { st with OpenFileTable := setAt st.OpenFileTable fd (-1) }) := by
    unfold vsclose
    simp only [Int.toNat_ofNat]
    have : ¬ ((fd : Int) < 0 ∨ (fd : Int) ≥ (MAX_OPEN_FILES : Int)
        ∨ st.OpenFileTable fd = -1) := by
      rw [heq]
      simp only [MAX_OPEN_FILES]
      omega
    rw [if_neg this]
  rw [hclose]
  refine ⟨rfl, ?_⟩
  simp only
  unfold vsopen
  simp only [hfind]
  simp only [hne, if_false]
  have hnone : firstIndex (fun i => setAt st.OpenFileTable fd (-1) i == (idx : Int))
      MAX_OPEN_FILES 0 = none := by
    apply firstIndex_eq_none
    intro j _ hj
    by_cases hjs : j = fd
    · subst hjs
      simp only [setAt_same, beq_eq_false_iff_ne, ne_eq]
      omega
    · simp only [setAt_other _ _ _ _ hjs, beq_eq_false_iff_ne, ne_eq]
      intro hj2
      apply hjs
      exact (hinj fd j hfd (by omega) (by rw [heq]; exact hne) (by rw [heq, hj2])).symm
  simp only [hnone, Option.isSome_none, Bool.false_eq_true, if_false]
  obtain ⟨i, hi, hile⟩ := firstIndex_exists
    (p := fun i => setAt st.OpenFileTable fd (-1) i == -1)
    (n := MAX_OPEN_FILES) (s := 0) (j := fd) (Nat.zero_le _) (by omega) (by simp [setAt_same])
  simp only [hi]
  have hne3 : ¬ ((i : Int) = -1) := by omega
  simp only [hne3, if_false]
  omega

/-! ## Lemmas: a deleted name stays unknown -/

/-- When names, padding and in-use flags are kept, an unknown name of at
most 30 characters stays unknown. -/
theorem find_file_none_of_names {dir dir1 : Nat → DirectoryEntry} {name : List Nat}
    (hlen : strlen name ≤ MAX_FILENAME_LENGTH)
    (h : ∀ i, i < MAX_DIRECTORY_ENTRIES → (dir i).is_used ≠ 0 →
      strcmp (filenameAt dir i) name ≠ 0)
    (hn : ∀ i, i < MAX_DIRECTORY_ENTRIES → (dir1 i).is_used ≠ 0 →
      (dir i).is_used ≠ 0 ∧ (dir1 i).filename = (dir i).filename
        ∧ (dir1 i).padding = (dir i).padding) :
    ∀ i, i < MAX_DIRECTORY_ENTRIES → (dir1 i).is_used ≠ 0 →
      strcmp (filenameAt dir1 i) name ≠ 0 := by
  intro i hi hu
  obtain ⟨h1, h2, h3⟩ := hn i hi hu
  rw [strcmp_filenameAt_congr hi hlen h2 (by rw [h3])]
  exact h i hi h1

theorem find_file_of_no_match {dir : Nat → DirectoryEntry} {name : List Nat}
    (h : ∀ i, i < MAX_DIRECTORY_ENTRIES → (dir i).is_used ≠ 0 →
      strcmp (filenameAt dir i) name ≠ 0) : find_file dir name = -1 := by
  unfold find_file
  rw [firstIndex_eq_none]
  intro j _ hj
  by_cases hu : (dir j).is_used = 0
  · simp [hu]
  · simp [h j (by omega) hu]

theorem step_no_match (BS : Nat) (MA : Int) (hBS : 0 < BS) (hBS2 : BS < 2147483648)
    (st st1 : State) (c : Call) (name : List Nat) (hlen : strlen name ≤ MAX_FILENAME_LENGTH)
    (h : ∀ i, i < MAX_DIRECTORY_ENTRIES → (st.metadata.root_directory i).is_used ≠ 0 →
      strcmp (filenameAt st.metadata.root_directory i) name ≠ 0)
    (hc : ∀ f, c = Call.vscreate f → strcmp (strncpy f MAX_FILENAME_LENGTH) name ≠ 0)
    (hs : step BS MA st c = some st1) :
    ∀ i, i < MAX_DIRECTORY_ENTRIES → (st1.metadata.root_directory i).is_used ≠ 0 →
      strcmp (filenameAt st1.metadata.root_directory i) name ≠ 0 := by
  cases c with
  | vscreate f =>
    simp only [step, Option.some.injEq] at hs
    rw [← hs]
    obtain ⟨_, _, _, _, hd⟩ := vscreate_effect BS st f
    rcases hd with ⟨_, hd⟩ | ⟨k, hk, hk0, _, hd, _⟩
    · rw [hd]; exact h
    · rw [hd]
      intro i hi hu
      by_cases hik : i = k
      · intro hm
        have e1 := entryName_of_match hi hm
        rw [hik, setAt_same, entryName_createdEntry, ← cstring_strncpy,
          List.take_of_length_le (by rw [← strlen_eq_length]; exact hlen)] at e1
        exact hc f rfl ((strcmp_eq_zero_iff _ _).mpr e1)
      · have e := setAt_other st.metadata.root_directory k i
          (createdEntry (st.metadata.root_directory k) f) hik
        rw [e] at hu
        rw [strcmp_filenameAt_congr hi hlen (by rw [e]) (by rw [e])]
        exact h i hi hu
  | vsdelete g =>
    simp only [step, Option.some.injEq] at hs
    rw [← hs]
    obtain ⟨_, _, _, _, hd⟩ := vsdelete_effect BS st g
    rcases hd with ⟨hd, _⟩ | ⟨fi, _, _, _, _, _, hd⟩
    · rw [hd]; exact h
    · rw [hd]
      intro i hi hu
      have hik : i ≠ fi := by
        intro hik
        rw [hik, setAt_same] at hu
        exact hu rfl
      have e := setAt_other st.metadata.root_directory fi i
        { st.metadata.root_directory fi with
          is_used := 0
          size := 0
          start_block := 0
          filename := List.replicate MAX_FILENAME_LENGTH 0 } hik
      rw [e] at hu
      rw [strcmp_filenameAt_congr hi hlen (by rw [e]) (by rw [e])]
      exact h i hi hu
  | vsopen g mode =>
    simp only [step, Option.some.injEq] at hs
    rw [← hs, (vsopen_frame st g mode).1]
    exact h
  | vsclose fd =>
    simp only [step, Option.some.injEq] at hs
    rw [← hs]
    rcases vsclose_effect st fd with hcl | ⟨_, _, _, hcl⟩
    · rw [hcl]; exact h
    · rw [hcl]; exact h
  | vsread fd buf n =>
    obtain ⟨r, hr, _, hn⟩ := vsread_names BS hBS hBS2 st fd buf n
    simp only [step, hr, Option.some.injEq] at hs
    rw [← hs]
    exact find_file_none_of_names hlen h
      (fun i _ hu => ⟨by rw [← (hn i).1]; exact hu, (hn i).2.1, (hn i).2.2⟩)
  | vsappend fd buf n =>
    simp only [step, Option.some.injEq] at hs
    rw [← hs]
    have hn := vsappend_names BS MA st fd buf n
    exact find_file_none_of_names hlen h
      (fun i _ hu => ⟨by rw [← (hn i).1]; exact hu, (hn i).2.1, (hn i).2.2⟩)

theorem run_no_match (BS : Nat) (MA : Int) (hBS : 0 < BS) (hBS2 : BS < 2147483648)
    (name : List Nat) (hlen : strlen name ≤ MAX_FILENAME_LENGTH) :
    ∀ (calls : List Call) (st : State),
      (∀ i, i < MAX_DIRECTORY_ENTRIES → (st.metadata.root_directory i).is_used ≠ 0 →
        strcmp (filenameAt st.metadata.root_directory i) name ≠ 0) →
      (∀ f, Call.vscreate f ∈ calls → strcmp (strncpy f MAX_FILENAME_LENGTH) name ≠ 0) →
      ∃ st1, run BS MA st calls = some st1
        ∧ ∀ i, i < MAX_DIRECTORY_ENTRIES → (st1.metadata.root_directory i).is_used ≠ 0 →
          strcmp (filenameAt st1.metadata.root_directory i) name ≠ 0 := by
  intro calls
  induction calls with
  | nil =>
    intro st h _
    exact ⟨st, rfl, h⟩
  | cons c rest ih =>
    intro st h hc
    obtain ⟨st1, hs⟩ := step_total BS MA hBS hBS2 st c
    obtain ⟨st2, g1, g2⟩ := ih st1
      (step_no_match BS MA hBS hBS2 st st1 c name hlen h
        (fun f e => hc f (by rw [e]; exact List.mem_cons_self _ _)) hs)
      (fun f e => hc f (List.mem_cons_of_mem _ e))
    refine ⟨st2, ?_, g2⟩
    unfold run
    rw [hs]
    exact g1

/-- After a `vsdelete` that returned 0, no in-use entry is found for the
name, when at most one was before. -/
theorem vsdelete_no_match {BS : Nat} {st : State} {name : List Nat}
    (hdel : (vsdelete BS st name).1 = 0)
    (huniq : ∀ i j : Nat, i < MAX_DIRECTORY_ENTRIES → j < MAX_DIRECTORY_ENTRIES →
      (st.metadata.root_directory i).is_used ≠ 0 →
      (st.metadata.root_directory j).is_used ≠ 0 →
      strcmp (filenameAt st.metadata.root_directory i) name = 0 →
      strcmp (filenameAt st.metadata.root_directory j) name = 0 → i = j) :
    strlen name ≤ MAX_FILENAME_LENGTH
    ∧ ∀ i, i < MAX_DIRECTORY_ENTRIES →
      ((vsdelete BS st name).2.metadata.root_directory i).is_used ≠ 0 →
      strcmp (filenameAt (vsdelete BS st name).2.metadata.root_directory i) name ≠ 0 := by
  obtain ⟨_, _, _, _, hd⟩ := vsdelete_effect BS st name
  rcases hd with ⟨hd, _⟩ | ⟨fi, hfi, hlen, _, hused, hname, hd⟩
  · rw [hd] at hdel
    simp at hdel
  · refine ⟨hlen, ?_⟩
    rw [hd]
    intro i hi hu
    have hik : i ≠ fi := by
      intro hik
      rw [hik, setAt_same] at hu
      exact hu rfl
    have e := setAt_other st.metadata.root_directory fi i
      { st.metadata.root_directory fi with
        is_used := 0
        size := 0
        start_block := 0
        filename := List.replicate MAX_FILENAME_LENGTH 0 } hik
    rw [e] at hu
    rw [strcmp_filenameAt_congr hi hlen (by rw [e]) (by rw [e])]
    intro hm
    exact hik (huniq i fi hi (by simpa [MAX_DIRECTORY_ENTRIES] using hfi) hu hused hm hname)

/-! ## Lemmas: the round trip on any formatted volume, and padding bytes -/

/-- Take a block size from 32 to 2048 bytes and a volume that `vsformat`
formatted successfully (any exponent, any prior content of the host file, any
content of the uninitialised local).  `vsmount` then succeeds, and for a name
of fewer than 30 characters and 1 <= n <= BLOCKSIZE the sequence create, open
for append, append n bytes, close, open for reading, read n bytes runs
without error, but the read starts at cursor = size = n: it returns 0 and
leaves the buffer as it was. -/
theorem roundTrip_after_format (BS : Nat) (MR MA : Int) (stack : FileSystemMetadata)
    (d : Disk) (m : Nat) (name : List Nat) (src buf : Mem) (n : Int)
    (hBS : 32 ≤ BS ∧ BS ≤ 2048) (hformat : (vsformat BS stack d m).1 = 0)
    (hname : strlen name < MAX_FILENAME_LENGTH) (hn : 1 ≤ n ∧ n ≤ BS) :
    (vsmount BS (initialState (vsformat BS stack d m).2)).1 = 0
    ∧ (roundTrip BS MR MA (vsmount BS (initialState (vsformat BS stack d m).2)).2
        name src n buf).appended = n
    ∧ (roundTrip BS MR MA (vsmount BS (initialState (vsformat BS stack d m).2)).2
        name src n buf).fd2 = 0
    ∧ ∃ st1, (roundTrip BS MR MA (vsmount BS (initialState (vsformat BS stack d m).2)).2
          name src n buf).read = some (0, st1, buf)
        ∧ ((st1.metadata.root_directory 0).size : Int) = n
        ∧ ((st1.metadata.root_directory 0).current_position : Int) = n := by
  obtain ⟨hmount, hfresh⟩ := vsformat_vsmount_fresh hBS.1 hBS.2 hformat
  have h := roundTrip_on_fresh_volume BS MR MA _ name src buf n hfresh hname hn
  exact ⟨hmount, h.2.2.1, h.2.2.2.2.2.1, h.2.2.2.2.2.2⟩

/-- Padding bytes matter for a name that fills the field.  On a volume
formatted while the local of `vsformat` held the byte 88 everywhere,
`vscreate` of a 30-character name returns 0, but `strcmp` reads the padding
byte behind the unterminated name: `vsopen` of the same name returns -1, and a
second `vscreate` of the name passes the lookup and makes a second entry with
the same name.  A name of one character is found. -/
theorem thirty_characters_over_padding :
    (paddedVolume.metadata.root_directory 0).padding 30 = 88
    ∧ (vscreate 2048 paddedVolume name30).1 = 0
    ∧ (vsopen (vscreate 2048 paddedVolume name30).2 name30 0).1 = -1
    ∧ find_file (vscreate 2048 paddedVolume name30).2.metadata.root_directory name30 = -1
    ∧ (vscreate 2048 (vscreate 2048 paddedVolume name30).2 name30).1 = 0
    ∧ ((vscreate 2048 (vscreate 2048 paddedVolume name30).2
        name30).2.metadata.root_directory 0).is_used = 1
    ∧ ((vscreate 2048 (vscreate 2048 paddedVolume name30).2
        name30).2.metadata.root_directory 1).is_used = 1
    ∧ entryName ((vscreate 2048 (vscreate 2048 paddedVolume name30).2
        name30).2.metadata.root_directory 0)
      = entryName ((vscreate 2048 (vscreate 2048 paddedVolume name30).2
        name30).2.metadata.root_directory 1)
    ∧ (vsopen (vscreate 2048 paddedVolume name_a).2 name_a 0).1 = 0 := by
  refine ⟨?_, ?_, ?_, ?_, ?_, ?_, ?_, ?_, ?_⟩ <;> decide

/-- The volume formatted over padding bytes 88 is a fresh volume. -/
theorem paddedVolume_fresh : FreshVolume 2048 paddedVolume :=
  (vsformat_vsmount_fresh (by decide) (by decide) (by decide)).2

/-! ## The claims -/

/-- C1 does not hold for the code.  With 2048-byte blocks, read mode 0 and
append mode 1, on the volume formatted with m = 18 and mounted, the sequence
`vscreate("a.txt"); fd = vsopen("a.txt", MODE_APPEND); vsappend(fd, "hello",
5); vsclose(fd); fd2 = vsopen("a.txt", MODE_READ); vsread(fd2, buf, 5)` runs
without error (the append returns 5, `vssize` returns 5, both opens return
descriptor 0), but `vsread` returns 0 instead of 5 and leaves `buf` as it was:
`vsappend` left the cursor of the directory entry at the size, and nothing
rewinds it. -/
theorem append_read_round_trip_fails :
    (roundTrip 2048 0 1 freshVolume name_a_txt (memOfList hello) 5 (fun _ => 0)).created = 0
    ∧ (roundTrip 2048 0 1 freshVolume name_a_txt (memOfList hello) 5 (fun _ => 0)).fd = 0
    ∧ (roundTrip 2048 0 1 freshVolume name_a_txt (memOfList hello) 5 (fun _ => 0)).appended = 5
    ∧ (roundTrip 2048 0 1 freshVolume name_a_txt (memOfList hello) 5 (fun _ => 0)).size = 5
    ∧ (roundTrip 2048 0 1 freshVolume name_a_txt (memOfList hello) 5 (fun _ => 0)).closed = 0
    ∧ (roundTrip 2048 0 1 freshVolume name_a_txt (memOfList hello) 5 (fun _ => 0)).fd2 = 0
    ∧ (∃ st1, (roundTrip 2048 0 1 freshVolume name_a_txt (memOfList hello) 5 (fun _ => 0)).read
          = some (0, st1, fun _ => 0)
        ∧ ((st1.metadata.root_directory 0).size : Int) = 5
        ∧ ((st1.metadata.root_directory 0).current_position : Int) = 5)
    ∧ Option.map Prod.fst
        (roundTrip 2048 0 1 freshVolume name_a_txt (memOfList hello) 5 (fun _ => 0)).read
      ≠ some 5 := by
  obtain ⟨h1, h2, h3, h4, h5, h6, h7⟩ := roundTrip_on_fresh_volume 2048 0 1 freshVolume
    name_a_txt (memOfList hello) (fun _ => 0) 5 freshVolume_fresh (by decide)
    ⟨by decide, by decide⟩
  refine ⟨h1, h2, h3, h4, h5, h6, h7, ?_⟩
  decide

/-- Claim C2, evaluated at the failing input.  With 2048-byte blocks, on the
volume formatted with m = 18, after `vscreate("a"); vscreate("b")` entry 1 is
in use and "b" can be opened.  `vsumount` and `vsmount` both return 0, yet
afterwards entry 1 is not in use and `vsopen("b")` returns -1, whether the
volume is mounted again by the same process or by a new one. -/
theorem unmount_mount_loses_second_entry :
    (twoFiles.metadata.root_directory 1).is_used = 1
    ∧ (vsopen twoFiles name_b 0).1 = 0
    ∧ (vsumount 2048 twoFiles).1 = 0
    ∧ (vsmount 2048 (vsumount 2048 twoFiles).2).1 = 0
    ∧ (remounted.metadata.root_directory 1).is_used = 0
    ∧ (vsopen remounted name_b 0).1 = -1
    ∧ (restarted.metadata.root_directory 1).is_used = 0
    ∧ (vsopen restarted name_b 0).1 = -1 := by
  refine ⟨?_, ?_, ?_, ?_, ?_, ?_, ?_, ?_⟩ <;> decide

/-- Claim C3, evaluated at the failing input.  With 2048-byte blocks, on the
volume formatted with m = 18, files "a" and "b" are created and opened for
appending, one byte (120) is appended to "a" and then one byte (121) to "b";
both calls return 1.  Afterwards both entries are in use with size 1, byte 0
of either file is addressed to block 0, and the byte of the backing store
that held the 120 of "a" holds the 121 of "b". -/
theorem two_files_share_block_zero :
    (vsappend 2048 1 twoOpen 0 (memOfList [120]) 1).1 = 1
    ∧ (vsappend 2048 1 afterAppendA 1 (memOfList [121]) 1).1 = 1
    ∧ (afterAppendB.metadata.root_directory 0).is_used = 1
    ∧ (afterAppendB.metadata.root_directory 1).is_used = 1
    ∧ (afterAppendB.metadata.root_directory 0).size = 1
    ∧ (afterAppendB.metadata.root_directory 1).size = 1
    ∧ fileBlock 2048 (afterAppendB.metadata.root_directory 0) 0 = 0
    ∧ fileBlock 2048 (afterAppendB.metadata.root_directory 1) 0 = 0
    ∧ afterAppendA.vdisk.bytes 0 = 120
    ∧ afterAppendB.vdisk.bytes 0 = 121 := by
  refine ⟨?_, ?_, ?_, ?_, ?_, ?_, ?_, ?_, ?_, ?_⟩ <;> decide

/-- Claim C4.  For a descriptor `fd` in range whose slot refers to a
directory entry with `cursor <= size`, and `0 <= n`, if every block holding
one of the requested bytes lies inside the backing store (so that the block
reads succeed), `vsread(fd, buf, n)` returns exactly `min(n, size - cursor)`,
advances the cursor of the entry by that amount and leaves its size alone.
In particular it returns 0, not -1, when `cursor = size`. -/
theorem vsread_clamps (BS : Nat) (st : State) (fd : Int) (buf : Mem) (n : Int)
    (hBS : 0 < BS) (hBS2 : BS < 2147483648)
    (hfd : 0 ≤ fd ∧ fd < 16)
    (hopen : 0 ≤ st.OpenFileTable fd.toNat ∧ st.OpenFileTable fd.toNat < 128)
    (hsize : (st.metadata.root_directory (st.OpenFileTable fd.toNat).toNat).size < 4294967296)
    (hcur : (st.metadata.root_directory (st.OpenFileTable fd.toNat).toNat).current_position
      ≤ (st.metadata.root_directory (st.OpenFileTable fd.toNat).toNat).size)
    (hn : 0 ≤ n ∧ n < 2147483648)
    (hio : ∀ p : Nat,
      (st.metadata.root_directory (st.OpenFileTable fd.toNat).toNat).current_position ≤ p →
      (p : Int) < (st.metadata.root_directory (st.OpenFileTable fd.toNat).toNat).current_position
        + min n (((st.metadata.root_directory (st.OpenFileTable fd.toNat).toNat).size
          - (st.metadata.root_directory (st.OpenFileTable fd.toNat).toNat).current_position : Nat)
            : Int) →
      readable BS st.vdisk
        (i32 (i32 (st.metadata.root_directory (st.OpenFileTable fd.toNat).toNat).start_block
          + (p / BS : Nat)))) :
    ∃ st1 buf1,
      vsread BS st fd buf n
        = some (min n (((st.metadata.root_directory (st.OpenFileTable fd.toNat).toNat).size
          - (st.metadata.root_directory (st.OpenFileTable fd.toNat).toNat).current_position : Nat)
            : Int), st1, buf1)
      ∧ (st1.metadata.root_directory (st.OpenFileTable fd.toNat).toNat).current_position
        = (st.metadata.root_directory (st.OpenFileTable fd.toNat).toNat).current_position
          + (min n (((st.metadata.root_directory (st.OpenFileTable fd.toNat).toNat).size
          - (st.metadata.root_directory (st.OpenFileTable fd.toNat).toNat).current_position : Nat)
            : Int)).toNat
      ∧ (st1.metadata.root_directory (st.OpenFileTable fd.toNat).toNat).size
        = (st.metadata.root_directory (st.OpenFileTable fd.toNat).toNat).size := by
  generalize hidx : (st.OpenFileTable fd.toNat).toNat = idx at *
  generalize he : st.metadata.root_directory idx = e at *
  obtain ⟨hfd0, hfd1⟩ := hfd
  obtain ⟨hn0, hn1⟩ := hn
  have hav : u32 ((e.size : Int) - (e.current_position : Int)) = e.size - e.current_position := by
    rw [u32_of_range (by omega) (by omega)]; omega
  have hun : u32 n = n.toNat := u32_of_range hn0 (by omega)
  have hbtr : (if u32 n < u32 ((e.size : Int) - (e.current_position : Int)) then n
      else i32 (u32 ((e.size : Int) - (e.current_position : Int)) : Nat))
      = min n ((e.size - e.current_position : Nat) : Int) := by
    rw [hav, hun]
    by_cases h : n.toNat < e.size - e.current_position
    · rw [if_pos h, min_eq_left (by omega)]
    · rw [if_neg h, min_eq_right (by omega), i32_of_range (by omega) (by omega)]
  have hk0 : 0 ≤ min n ((e.size - e.current_position : Nat) : Int) :=
    le_min hn0 (Int.ofNat_nonneg _)
  have hk1 : min n ((e.size - e.current_position : Nat) : Int)
      ≤ ((e.size - e.current_position : Nat) : Int) := min_le_right _ _
  rw [← hbtr] at hio hk0 hk1 ⊢
  generalize hkdef : (if u32 n < u32 ((e.size : Int) - (e.current_position : Int)) then n
      else i32 (u32 ((e.size : Int) - (e.current_position : Int)) : Nat)) = k at hio hk0 hk1 ⊢
  have hlt : (e.current_position : Int) + k < 4294967296 := by
    clear hio hkdef hbtr hav hun
    omega
  obtain ⟨d1, buf1, hloop⟩ := vsread_loop_done BS hBS hBS2 (i32 e.start_block)
    k.toNat st.vdisk buf e.current_position 0 k hk0 (le_refl _) hlt hio
  have hguard : ¬ (fd < 0 ∨ fd ≥ (MAX_OPEN_FILES : Int) ∨ st.OpenFileTable fd.toNat = -1) := by
    clear hio hkdef hbtr hav hun hloop
    simp only [MAX_OPEN_FILES]; omega
  refine ⟨{ st with
      vdisk := d1
      metadata := { st.metadata with
        root_directory := setAt st.metadata.root_directory idx
          { e with current_position := e.current_position + k.toNat } } }, buf1, ?_, ?_, ?_⟩
  · unfold vsread
    simp only [hguard, if_false, hidx, he, hkdef, hloop]
  · simp only [setAt_same]
  · simp only [setAt_same]


/-- Claim C4 at a concrete input: 2048-byte blocks, a 5000-byte file with
cursor 100 and a request for 3000 bytes, which spans blocks 0 and 1. -/
theorem vsread_clamps_witness :
    (0 : Int) ≤ 3000
    ∧ ∃ st1 buf1,
      vsread 2048 partlyRead 0 (fun _ => 0) 3000 = some (3000, st1, buf1)
      ∧ (st1.metadata.root_directory 0).current_position = 3100
      ∧ (st1.metadata.root_directory 0).size = 5000 :=
  ⟨by decide,
    vsread_clamps 2048 partlyRead 0 (fun _ => 0) 3000 (by decide) (by decide)
      ⟨by decide, by decide⟩ ⟨by decide, by decide⟩ (by decide) (by decide)
      ⟨by decide, by decide⟩
      (fun p h1 h2 => by
        have e1 : (partlyRead.metadata.root_directory
            (partlyRead.OpenFileTable (0 : Int).toNat).toNat).current_position = 100 := by
          decide
        have e2 : (partlyRead.metadata.root_directory
            (partlyRead.OpenFileTable (0 : Int).toNat).toNat).size = 5000 := by decide
        have e3 : (partlyRead.metadata.root_directory
            (partlyRead.OpenFileTable (0 : Int).toNat).toNat).start_block = 0 := by decide
        rw [e1] at h1
        rw [e1, e2] at h2
        rw [e3]
        have hb : ((100 : Nat) : Int) + min (3000 : Int) (((5000 - 100 : Nat)) : Int) = 3100 := by
          decide
        rw [hb] at h2
        have hall : ∀ k : Nat, k < 2 →
            0 ≤ i32 (i32 (i32 ((0 : Nat) : Int) + (k : Int)) * ((2048 : Nat) : Int))
            ∧ (i32 (i32 (i32 ((0 : Nat) : Int) + (k : Int)) * ((2048 : Nat) : Int))).toNat + 2048
              ≤ partlyRead.vdisk.size := by decide
        exact hall (p / 2048) (by omega))⟩

/-- Claim C5, as amended.  For a descriptor of a newly created file (size and
cursor 0) and a run of `vsappend` calls with lengths `n_1, ..., n_N >= 0` in
which every call returns its `n_i`, `vssize(fd)` afterwards returns
`n_1 + ... + n_N`, provided that sum is below `2^31` (the size is a
`uint32_t` that `vssize` returns as an `int`). -/
theorem size_is_sum_of_appends (BS : Nat) (MA : Int) (st : State) (fd : Int)
    (calls : List (Mem × Int))
    (hfd : 0 ≤ fd ∧ fd < 16)
    (hopen : st.OpenFileTable fd.toNat ≠ -1)
    (hnew : (st.metadata.root_directory (st.OpenFileTable fd.toNat).toNat).size = 0
      ∧ (st.metadata.root_directory (st.OpenFileTable fd.toNat).toNat).current_position = 0)
    (hlen : ∀ x ∈ calls, 0 ≤ x.2)
    (hsucc : (appendRun BS MA fd st calls).1 = calls.map (fun x => x.2))
    (hsum : (calls.map (fun x => x.2)).sum < 2147483648) :
    vssize (appendRun BS MA fd st calls).2 fd = (calls.map (fun x => x.2)).sum := by
  have hsumnn : 0 ≤ (calls.map (fun y => y.2)).sum := by
    apply List.sum_nonneg
    intro y hy
    obtain ⟨z, hz, rfl⟩ := List.mem_map.mp hy
    exact hlen z hz
  obtain ⟨h1, h2⟩ := appendRun_size BS MA fd calls st 0 hnew.2 hnew.1 hlen hsucc
    (by simp only [Nat.cast_zero, zero_add]; omega)
  unfold vssize
  have hg : ¬ (fd < 0 ∨ fd ≥ (MAX_OPEN_FILES : Int)
      ∨ (appendRun BS MA fd st calls).2.OpenFileTable fd.toNat = -1) := by
    rw [h1]; simp only [MAX_OPEN_FILES]; omega
  rw [if_neg hg]
  simp only [h1, h2, Nat.cast_zero, zero_add]
  exact i32_of_range (by omega) hsum


/-- Claim C5, the amended statement at a concrete input: appends of 5 and 3
bytes to the newly created file "a", after which `vssize` returns 8. -/
theorem size_is_sum_of_appends_witness :
    (appendRun 2048 1 0 oneFileOpen [(memOfList hello, 5), (memOfList hello, 3)]).1 = [5, 3]
    ∧ vssize (appendRun 2048 1 0 oneFileOpen [(memOfList hello, 5), (memOfList hello, 3)]).2 0
      = 8 :=
  ⟨by decide,
    size_is_sum_of_appends 2048 1 oneFileOpen 0 [(memOfList hello, 5), (memOfList hello, 3)]
      ⟨by decide, by decide⟩ (by decide) ⟨by decide, by decide⟩
      (by
        intro x hx
        simp only [List.mem_cons, List.mem_singleton, List.not_mem_nil, or_false] at hx
        rcases hx with rfl | rfl <;> decide)
      (by decide) (by decide)⟩

/-- Claim C5 fails as stated: with 2048-byte blocks, 1048576 appends of 2048
bytes each to a newly created file all return 2048; the lengths add up to
2147483648, and `vssize` then returns -2147483648. -/
theorem size_wraps_after_two_gib :
    (appendRun 2048 1 0 oneFileOpen (List.replicate 1048576 (memOfList hello, (2048 : Int)))).1
      = (List.replicate 1048576 (memOfList hello, (2048 : Int))).map (fun x => x.2)
    ∧ ((List.replicate 1048576 (memOfList hello, (2048 : Int))).map (fun x => x.2)).sum
      = 2147483648
    ∧ vssize (appendRun 2048 1 0 oneFileOpen
        (List.replicate 1048576 (memOfList hello, (2048 : Int)))).2 0 = -2147483648 := by
  obtain ⟨f1, f2, f3, f4, f5, f6⟩ := oneFileOpen_facts
  obtain ⟨h1, h2, h3⟩ := appendRun_full_blocks 2048 1 (memOfList hello) (by decide) 1048576
    oneFileOpen 0 f1 f2 f3 f4 f5 f6 (by decide)
  have e : ((2048 : Nat) : Int) = (2048 : Int) := rfl
  rw [e] at h1 h2 h3
  refine ⟨?_, ?_, ?_⟩
  · rw [h1, List.map_replicate]
  · rw [List.map_replicate, List.sum_replicate, nsmul_eq_mul]
    norm_num
  · generalize (appendRun 2048 1 0 oneFileOpen
        (List.replicate 1048576 (memOfList hello, (2048 : Int)))).2 = sf at h2 h3 ⊢
    unfold vssize
    have hg : ¬ ((0 : Int) < 0 ∨ (0 : Int) ≥ (MAX_OPEN_FILES : Int)
        ∨ sf.OpenFileTable (0 : Int).toNat = -1) := by
      rw [Int.toNat_zero, h2]
      decide
    rw [if_neg hg]
    show i32 ((sf.metadata.root_directory (sf.OpenFileTable (0 : Int).toNat).toNat).size : Int)
      = -2147483648
    rw [Int.toNat_zero, h2, Int.toNat_zero, h3]
    decide

/-- Claim C6 fails as stated.  On the fresh volume (2048-byte blocks) after
`vscreate("b"); vscreate("a"); fd = vsopen("a", 1)` (descriptor 0, entry 1),
the calls `vsdelete("b"); vscreate("a")` put a second file named "a" into
entry 0.  Descriptor 0 has not been closed, yet `vsopen("a", 0)` now finds
entry 0 first and returns descriptor 1.  The same happens when the open file
itself is deleted and its name created again after another file took its slot
(`vscreate("a"); vsopen("a", 1); vsdelete("a"); vscreate("b");
vscreate("a")`, each `vscreate` with a name the lookup does not find), and,
on a volume formatted over padding bytes 88, with a name of 30 characters:
the lookup reads the padding behind the stored name, does not find the
30-character name and lets it be created a second time. -/
theorem second_open_succeeds_on_shadowed_name :
    FreshVolume 2048 freshVolume
    ∧ run 2048 1 freshVolume
        [Call.vscreate name_b, Call.vscreate name_a, Call.vsopen name_a 1, Call.vsdelete name_b,
          Call.vscreate name_a] = some shadowed
    ∧ (vsopen (vscreate 2048 (vscreate 2048 freshVolume name_b).2 name_a).2 name_a 1).1 = 0
    ∧ shadowed.OpenFileTable 0 = 1
    ∧ (shadowed.metadata.root_directory 0).is_used = 1
    ∧ (shadowed.metadata.root_directory 1).is_used = 1
    ∧ (vsopen shadowed name_a 0).1 = 1
    ∧ run 2048 1 freshVolume
        [Call.vscreate name_a, Call.vsopen name_a 1, Call.vsdelete name_a, Call.vscreate name_b,
          Call.vscreate name_a] = some recreated
    ∧ (vsopen oneFile name_a 1).1 = 0
    ∧ find_file deletedWhileOpen.metadata.root_directory name_b = -1
    ∧ find_file slotReused.metadata.root_directory name_a = -1
    ∧ recreated.OpenFileTable 0 = 0
    ∧ (vsopen recreated name_a 0).1 = 1
    ∧ FreshVolume 2048 paddedVolume
    ∧ run 2048 1 paddedVolume
        [Call.vscreate name_b, Call.vscreate name30, Call.vsopen name32 1, Call.vsdelete name_b,
          Call.vscreate name30] = some paddedShadowed
    ∧ strlen name30 = 30
    ∧ find_file (vscreate 2048 paddedVolume name_b).2.metadata.root_directory name30 = -1
    ∧ (vsopen (vscreate 2048 (vscreate 2048 paddedVolume name_b).2 name30).2 name32 1).1 = 0
    ∧ find_file (vsdelete 2048
        (vsopen (vscreate 2048 (vscreate 2048 paddedVolume name_b).2 name30).2 name32 1).2
        name_b).2.metadata.root_directory name30 = -1
    ∧ paddedShadowed.OpenFileTable 0 = 1
    ∧ (vsopen paddedShadowed name32 0).1 = 1 := by
  refine ⟨freshVolume_fresh, rfl, ?_, ?_, ?_, ?_, ?_, rfl, ?_, ?_, ?_, ?_, ?_,
    paddedVolume_fresh, rfl, ?_, ?_, ?_, ?_, ?_, ?_⟩ <;> decide

/-- C6, amended.  Start from a freshly formatted and mounted volume and
consider call sequences in which every `vscreate` is given a name of fewer
than 30 characters for which the lookup finds no in-use entry, and no
`vsdelete` names a file that is open.  If after such a sequence
`vsopen(name, m1)` returned a descriptor `fd`, then after every further such
sequence that does not contain `vsclose(fd)`, `vsopen(name, m2)` returns -1
and changes nothing; `vsclose(fd)` then returns 0, and after it
`vsopen(name, m2)` succeeds with a descriptor in 0..15. -/
theorem single_opener (BS : Nat) (MA : Int) (st st1 : State) (calls1 calls2 : List Call)
    (name : List Nat) (m1 m2 : Int)
    (hBS : 0 < BS) (hfresh : FreshVolume BS st)
    (hnew1 : createsAreNew BS MA st calls1) (hok1 : noDeleteOfOpen BS MA st calls1)
    (hrun1 : run BS MA st calls1 = some st1)
    (hopen : (vsopen st1 name m1).1 ≠ -1)
    (hnew2 : createsAreNew BS MA (vsopen st1 name m1).2 calls2)
    (hok2 : noDeleteOfOpen BS MA (vsopen st1 name m1).2 calls2)
    (hkeep : Call.vsclose (vsopen st1 name m1).1 ∉ calls2) :
    ∃ st2, run BS MA (vsopen st1 name m1).2 calls2 = some st2
      ∧ vsopen st2 name m2 = (-1, st2)
      ∧ (vsclose st2 (vsopen st1 name m1).1).1 = 0
      ∧ 0 ≤ (vsopen (vsclose st2 (vsopen st1 name m1).1).2 name m2).1
      ∧ (vsopen (vsclose st2 (vsopen st1 name m1).1).2 name m2).1 < 16 := by
  have hBS2 : BS < 2147483648 := by have := hfresh.2.2.2.2; omega
  -- the state in which the file is opened
  obtain ⟨s1, o1, _, r1, u1, t1, d1, i1⟩ := runNoted_consistent BS MA hBS hBS2 calls1 st
    (fun _ => []) (uniqueNames_of_fresh hfresh)
    (fun i hi hu => absurd (hfresh.1 i hi) hu)
    (descriptorsValid_of_free _ hfresh.2.1) (tableInjective_of_free hfresh.2.1) hnew1 hok1
  rw [hrun1] at r1
  have e1 : s1 = st1 := (Option.some.inj r1).symm
  subst e1
  -- the open
  have hstep : step BS MA s1 (Call.vsopen name m1) = some (vsopen s1 name m1).2 := rfl
  have u2 := step_uniqueNames BS MA hBS hBS2 s1 _ (Call.vsopen name m1) u1 trivial hstep
  have t2 := step_terminatedNames BS MA hBS hBS2 s1 _ (Call.vsopen name m1) t1 trivial hstep
  have d2 := step_descriptorsValid BS MA hBS hBS2 s1 _ (Call.vsopen name m1) o1 d1 trivial hstep
  have i2 := step_tableInjective BS MA hBS hBS2 s1 _ (Call.vsopen name m1) i1 hstep
  obtain ⟨fi, slot, _, hslot, _, _, _, _, heq⟩ := vsopen_success hopen
  have hfd : (vsopen s1 name m1).1 = (slot : Int) := by rw [heq]
  have hocc : (vsopen s1 name m1).2.OpenFileTable slot ≠ -1 := by
    rw [heq]
    simp only [setAt_same]
    omega
  have hnote : noteOpen s1 o1 (Call.vsopen name m1) slot = name := by
    have hne : (slot : Int) ≠ -1 := by omega
    simp only [noteOpen, hfd, Int.toNat_ofNat]
    rw [if_neg hne, setAt_same]
  rw [hfd] at hkeep ⊢
  -- the calls while the descriptor is open
  obtain ⟨s2, o2, n2, r2, u3, t3, d3, i3⟩ := runNoted_consistent BS MA hBS hBS2 calls2
    (vsopen s1 name m1).2 (noteOpen s1 o1 (Call.vsopen name m1)) u2 t2 d2 i2 hnew2 hok2
  obtain ⟨k1, k2⟩ := runNoted_keeps_slot BS MA hBS hBS2 slot calls2 _ s2 _ o2 hocc hkeep n2
  have hocc2 : s2.OpenFileTable slot ≠ -1 := by rw [k1]; exact hocc
  have hslot16 : slot < MAX_OPEN_FILES := by simpa [MAX_OPEN_FILES] using hslot
  obtain ⟨hfind, idx, hidx⟩ := find_file_of_open_slot u3 t3 d3 hslot16 hocc2
  rw [k2, hnote, hidx] at hfind
  refine ⟨s2, r2, vsopen_refused m2 hslot16 hidx hfind, ?_⟩
  exact vsopen_after_close m2 hslot16 hidx hfind i3

/-- C6, amended, on the fresh volume: "a" and "b" are created, "a" is opened
with mode 1; while it is open, "b" is opened, appended to and closed, "c" is
created and "b" is deleted; opening "a" with mode 0 is then refused, and it
succeeds after descriptor 0 was closed. -/
theorem single_opener_witness :
    (vsopen twoFiles name_a 1).1 = 0
    ∧ ∃ st2, run 2048 1 (vsopen twoFiles name_a 1).2
        [Call.vsopen name_b 1, Call.vsappend 1 (memOfList hello) 5, Call.vscreate name_c,
          Call.vsclose 1, Call.vsdelete name_b] = some st2
      ∧ vsopen st2 name_a 0 = (-1, st2)
      ∧ (vsclose st2 (vsopen twoFiles name_a 1).1).1 = 0
      ∧ 0 ≤ (vsopen (vsclose st2 (vsopen twoFiles name_a 1).1).2 name_a 0).1
      ∧ (vsopen (vsclose st2 (vsopen twoFiles name_a 1).1).2 name_a 0).1 < 16 :=
  ⟨by decide,
    single_opener 2048 1 freshVolume twoFiles [Call.vscreate name_a, Call.vscreate name_b]
      [Call.vsopen name_b 1, Call.vsappend 1 (memOfList hello) 5, Call.vscreate name_c,
        Call.vsclose 1, Call.vsdelete name_b] name_a 1 0 (by decide) freshVolume_fresh
      (by
        simp only [createsAreNew, step, and_true, true_and]
        refine ⟨⟨?_, ?_⟩, ?_, ?_⟩ <;> decide)
      (by simp only [noDeleteOfOpen, step, and_true])
      rfl (by decide)
      (by
        simp only [createsAreNew, step, and_true, true_and]
        refine ⟨?_, ?_⟩ <;> decide)
      (by
        simp only [noDeleteOfOpen, step, and_true, true_and]
        decide)
      (by
        have h0 : (vsopen twoFiles name_a 1).1 = 0 := by decide
        rw [h0]
        simp)⟩

/-- Claim C7 fails as stated, in two ways.  On the fresh volume (2048-byte
blocks) `vscreate("a")` succeeds twice; `vsdelete("a")` then returns 0 and
`vsopen("a")` still succeeds, although no `vscreate` came after the delete.
And after `vscreate(name30); vsdelete(name30)` for a name of 30 characters,
`vscreate` of a different name, of 31 characters with the same first 30,
makes `vsopen(name30)` succeed again. -/
theorem deleted_name_still_opens :
    (vscreate 2048 freshVolume name_a).1 = 0
    ∧ (vscreate 2048 oneFile name_a).1 = 0
    ∧ (vsdelete 2048 duplicateNames name_a).1 = 0
    ∧ (vsopen (vsdelete 2048 duplicateNames name_a).2 name_a 0).1 = 0
    ∧ (vscreate 2048 freshVolume name30).1 = 0
    ∧ (vsdelete 2048 (vscreate 2048 freshVolume name30).2 name30).1 = 0
    ∧ (vsopen (vsdelete 2048 (vscreate 2048 freshVolume name30).2 name30).2 name30 0).1 = -1
    ∧ strlen longName = 31
    ∧ (vscreate 2048 (vsdelete 2048 (vscreate 2048 freshVolume name30).2 name30).2
        longName).1 = 0
    ∧ (vsopen truncatedTwin name30 0).1 = 0 := by
  refine ⟨?_, ?_, ?_, ?_, ?_, ?_, ?_, ?_, ?_, ?_⟩ <;> decide

/-- C7, amended.  If `vsdelete(name)` returns 0 and at most one in-use entry
was found for the name before the call, then after every further sequence of
calls in which no `vscreate` is given a name whose first 30 characters are
`name`, `vsopen(name, mode)` returns -1 for every mode and changes
nothing. -/
theorem deleted_file_cannot_be_opened (BS : Nat) (MA : Int) (st : State) (name : List Nat)
    (calls : List Call) (mode : Int)
    (hBS : 0 < BS) (hBS2 : BS < 2147483648)
    (hdel : (vsdelete BS st name).1 = 0)
    (huniq : ∀ i j : Nat, i < MAX_DIRECTORY_ENTRIES → j < MAX_DIRECTORY_ENTRIES →
      (st.metadata.root_directory i).is_used ≠ 0 →
      (st.metadata.root_directory j).is_used ≠ 0 →
      strcmp (filenameAt st.metadata.root_directory i) name = 0 →
      strcmp (filenameAt st.metadata.root_directory j) name = 0 → i = j)
    (hcalls : ∀ f, Call.vscreate f ∈ calls → strcmp (strncpy f MAX_FILENAME_LENGTH) name ≠ 0) :
    ∃ st1, run BS MA (vsdelete BS st name).2 calls = some st1
      ∧ vsopen st1 name mode = (-1, st1) := by
  obtain ⟨hlen, h0⟩ := vsdelete_no_match hdel huniq
  obtain ⟨st1, hrun, h1⟩ := run_no_match BS MA hBS hBS2 name hlen calls _ h0 hcalls
  refine ⟨st1, hrun, ?_⟩
  unfold vsopen
  rw [find_file_of_no_match h1]
  simp

/-- C7, amended, at a concrete input: from the volume holding "a" and "b",
"a" is deleted; then "c" is created, "b" is opened, appended to, closed and
deleted; `vsopen("a")` still returns -1. -/
theorem deleted_file_cannot_be_opened_witness :
    (vsdelete 2048 twoFiles name_a).1 = 0
    ∧ ∃ st1, run 2048 1 (vsdelete 2048 twoFiles name_a).2
        [Call.vscreate name_c, Call.vsopen name_b 1, Call.vsappend 0 (memOfList hello) 5,
          Call.vsclose 0, Call.vsdelete name_b] = some st1
      ∧ vsopen st1 name_a 0 = (-1, st1) :=
  ⟨by decide,
    deleted_file_cannot_be_opened 2048 1 twoFiles name_a
      [Call.vscreate name_c, Call.vsopen name_b 1, Call.vsappend 0 (memOfList hello) 5,
        Call.vsclose 0, Call.vsdelete name_b] 0 (by decide) (by decide) (by decide)
      (fun i j hi hj _ _ h1 h2 =>
        have hu : ∀ k : Nat, k < MAX_DIRECTORY_ENTRIES →
            strcmp (filenameAt twoFiles.metadata.root_directory k) name_a = 0 → k = 0 := by
          decide
        (hu i hi h1).trans (hu j hj h2).symm)
      (fun f hf => by
        simp only [List.mem_cons, Call.vscreate.injEq, List.mem_singleton, or_false,
          List.not_mem_nil, reduceCtorEq, false_or] at hf
        rw [hf]
        decide)⟩

/-- Claim C8, evaluated at the failing input.  With 2048-byte blocks
`vsformat(path, 10)` returns 0 and `vsmount` returns 0; the superblock that is
loaded has `data_blocks = 4294967255`, while
`2^10 / 2048 - 1 - fat_blocks - root_dir_blocks` is -41. -/
theorem format_small_volume_data_blocks_wrap :
    (vsformat 2048 zeroMetadata blankDisk 10).1 = 0
    ∧ (vsmount 2048 (initialState (vsformat 2048 zeroMetadata blankDisk 10).2)).1 = 0
    ∧ (vsmount 2048
        (initialState (vsformat 2048 zeroMetadata blankDisk 10).2)).2.metadata.superblock.data_blocks
      = 4294967255
    ∧ (2 : Int) ^ 10 / 2048 - 1 - FAT_SIZE - ROOT_DIR_BLOCK = -41 := by
  refine ⟨?_, ?_, ?_, ?_⟩ <;> decide

/-- Claim C9, evaluated at the failing inputs.  `2^10` is below
`MIN_DISK_SIZE` and `2^24` is above `MAX_DISK_SIZE`, and with 2048-byte
blocks `vsformat(path, 10)` and `vsformat(path, 24)` both return 0. -/
theorem format_accepts_out_of_range_exponent :
    2 ^ 10 < MIN_DISK_SIZE
    ∧ (vsformat 2048 zeroMetadata blankDisk 10).1 = 0
    ∧ MAX_DISK_SIZE < 2 ^ 24
    ∧ (vsformat 2048 zeroMetadata blankDisk 24).1 = 0 := by
  refine ⟨?_, ?_, ?_, ?_⟩ <;> decide

/-- Claim C10, evaluated at the failing input.  On the fresh volume the file
"a" is created and opened with mode 1, which `vsappend` is given as
`MODE_APPEND` and accepts; `vsread` on that descriptor returns 0, not -1. -/
theorem read_through_append_descriptor :
    (vsopen oneFile name_a 1).1 = 0
    ∧ oneFileOpen.OpenFileModes 0 = 1
    ∧ (vsappend 2048 1 oneFileOpen 0 (memOfList hello) 5).1 = 5
    ∧ Option.map Prod.fst (vsread 2048 oneFileOpen 0 (fun _ => 0) 1) = some 0 := by
  refine ⟨?_, ?_, ?_, ?_⟩ <;> decide

/-- C11: `vsappend(fd, buf, n)` on a descriptor that is out of range
(`fd < 0` or `fd >= MAX_OPEN_FILES`), not occupied, or occupied with a stored
mode other than `MODE_APPEND`, returns -1 and the globals after the call are
the globals before it: no byte of the backing store, no directory entry, no
allocation-table entry and no slot of the open-file table has changed. -/
theorem vsappend_requires_append_mode (BS : Nat) (MA : Int) (st : State) (fd : Int) (buf : Mem)
    (n : Int)
    (h : fd < 0 ∨ fd ≥ (MAX_OPEN_FILES : Int) ∨ st.OpenFileTable fd.toNat = -1
      ∨ st.OpenFileModes fd.toNat ≠ MA) :
    (vsappend BS MA st fd buf n).1 = -1
    ∧ (vsappend BS MA st fd buf n).2 = st := by
  rw [vsappend_guard BS MA st fd buf n h]
  exact ⟨rfl, rfl⟩

/-- C11 on a concrete volume: file "a" is open on descriptor 0 with mode 0,
the append mode is 1, and appending five bytes through descriptor 0 is
refused without any change. -/
theorem vsappend_requires_append_mode_witness :
    oneFileOpenForRead.OpenFileTable 0 = 0
    ∧ oneFileOpenForRead.OpenFileModes 0 = 0
    ∧ (vsappend 2048 1 oneFileOpenForRead 0 (memOfList hello) 5).1 = -1
    ∧ (vsappend 2048 1 oneFileOpenForRead 0 (memOfList hello) 5).2 = oneFileOpenForRead :=
  ⟨by decide, by decide,
    vsappend_requires_append_mode 2048 1 oneFileOpenForRead 0 (memOfList hello) 5
      (Or.inr (Or.inr (Or.inr (by decide))))⟩

/-- C12 does not hold for the code.  With 2048-byte blocks and append mode 1,
file "a" is new (cursor 0) and open for appending on descriptor 0, and entry
0 of the allocation table holds the free sentinel 0xFFFFFFFF.  Appending 2049
bytes, one more than a block, returns -1 instead of 2049: size and cursor
stay 0 and the allocation table still holds the sentinel (no block was
claimed or linked), while the first block of the buffer has already been
written over block 0 of the backing store. -/
theorem append_across_block_boundary_fails :
    oneFileOpen.OpenFileTable 0 = 0
    ∧ oneFileOpen.OpenFileModes 0 = 1
    ∧ (oneFileOpen.metadata.root_directory 0).current_position = 0
    ∧ oneFileOpen.metadata.fat_table 0 = 4294967295
    ∧ (vsappend 2048 1 oneFileOpen 0 manyBytes 2049).1 = -1
    ∧ (vsappend 2048 1 oneFileOpen 0 manyBytes 2049).2.metadata.fat_table 0 = 4294967295
    ∧ ((vsappend 2048 1 oneFileOpen 0 manyBytes 2049).2.metadata.root_directory 0).size = 0
    ∧ ((vsappend 2048 1 oneFileOpen 0 manyBytes 2049).2.metadata.root_directory 0).current_position
        = 0
    ∧ oneFileOpen.vdisk.bytes 0 = 0
    ∧ (vsappend 2048 1 oneFileOpen 0 manyBytes 2049).2.vdisk.bytes 0 = 120 := by
  refine ⟨?_, ?_, ?_, ?_, ?_, ?_, ?_, ?_, ?_, ?_⟩ <;> decide

/-- Claim C14 fails as stated: `vscreate("a"); vscreate("a")` on the fresh
volume (2048-byte blocks, m = 18) both return 0 and leave entries 0 and 1 in
use with the same name, so the reached directory does not have unique
names.  On a volume formatted over padding bytes 88 the same happens with a
name of 30 characters although the lookup does not find the name before the
second `vscreate`: the name is stored without a terminator and `strcmp`
reads on into the padding. -/
theorem duplicate_names_reachable :
    FreshVolume 2048 freshVolume
    ∧ (vscreate 2048 freshVolume name_a).1 = 0
    ∧ (vscreate 2048 oneFile name_a).1 = 0
    ∧ run 2048 1 freshVolume [Call.vscreate name_a, Call.vscreate name_a] = some duplicateNames
    ∧ (duplicateNames.metadata.root_directory 0).is_used = 1
    ∧ (duplicateNames.metadata.root_directory 1).is_used = 1
    ∧ (duplicateNames.metadata.root_directory 0).filename
        = (duplicateNames.metadata.root_directory 1).filename
    ∧ ¬ UniqueNames duplicateNames.metadata.root_directory
    ∧ FreshVolume 2048 paddedVolume
    ∧ strlen name30 = 30
    ∧ find_file paddedVolume.metadata.root_directory name30 = -1
    ∧ (vscreate 2048 paddedVolume name30).1 = 0
    ∧ find_file (vscreate 2048 paddedVolume name30).2.metadata.root_directory name30 = -1
    ∧ (vscreate 2048 (vscreate 2048 paddedVolume name30).2 name30).1 = 0
    ∧ ¬ UniqueNames
        (vscreate 2048 (vscreate 2048 paddedVolume name30).2 name30).2.metadata.root_directory := by
  refine ⟨freshVolume_fresh, by decide, by decide, rfl, by decide, by decide, by decide, ?_,
    paddedVolume_fresh, by decide, by decide, by decide, by decide, by decide, ?_⟩
  · intro h
    have h01 : (0 : Nat) = 1 :=
      h 0 1 (by decide) (by decide) (by decide) (by decide) (by decide)
    exact absurd h01 (by decide)
  · intro h
    have h01 : (0 : Nat) = 1 :=
      h 0 1 (by decide) (by decide) (by decide) (by decide) (by decide)
    exact absurd h01 (by decide)

/-- C14, amended: from a freshly formatted and mounted volume, every sequence
of `vscreate` / `vsdelete` / `vsopen` / `vsclose` / `vsread` / `vsappend`
calls in which each `vscreate` is given a name of fewer than
`MAX_FILENAME_LENGTH` = 30 characters for which the lookup finds no in-use
entry at that moment runs to a state in which no two in-use directory
entries hold the same name. -/
theorem names_unique_when_creates_are_new (BS : Nat) (MA : Int) (st : State) (calls : List Call)
    (hBS : 0 < BS) (hfresh : FreshVolume BS st) (hnew : createsAreNew BS MA st calls) :
    ∃ st1, run BS MA st calls = some st1 ∧ UniqueNames st1.metadata.root_directory :=
  run_uniqueNames BS MA hBS (by have := hfresh.2.2.2.2; omega) calls st
    (uniqueNames_of_fresh hfresh) hnew

/-- C14, amended, on the fresh volume: create "a" and "b", append to "a",
delete "a" and create "a" again. -/
theorem names_unique_when_creates_are_new_witness :
    createsAreNew 2048 1 freshVolume
      [Call.vscreate name_a, Call.vscreate name_b, Call.vsopen name_a 1,
        Call.vsappend 0 (memOfList hello) 5, Call.vsdelete name_a, Call.vscreate name_a]
    ∧ ∃ st1, run 2048 1 freshVolume
        [Call.vscreate name_a, Call.vscreate name_b, Call.vsopen name_a 1,
          Call.vsappend 0 (memOfList hello) 5, Call.vsdelete name_a, Call.vscreate name_a]
          = some st1
        ∧ UniqueNames st1.metadata.root_directory :=
  have hnew : createsAreNew 2048 1 freshVolume
      [Call.vscreate name_a, Call.vscreate name_b, Call.vsopen name_a 1,
        Call.vsappend 0 (memOfList hello) 5, Call.vsdelete name_a, Call.vscreate name_a] := by
    simp only [createsAreNew, step, and_true, true_and]
    refine ⟨⟨?_, ?_⟩, ⟨?_, ?_⟩, ?_, ?_⟩ <;> decide
  ⟨hnew, names_unique_when_creates_are_new 2048 1 freshVolume _ (by decide) freshVolume_fresh hnew⟩

/-- C15 does not hold for `vscreate`.  With 2048-byte blocks on the fresh
volume, `vscreate` of a name of 31 characters (thirty "a" and one "b")
returns 0 instead of -1 and changes the directory: entry 0 becomes in use and
holds the first 30 characters, so a later `vsopen` of the full name finds no
file.  `vsdelete` of the same name does return -1 and leaves entry 0
unused. -/
theorem vscreate_accepts_long_name :
    strlen longName = 31
    ∧ (freshVolume.metadata.root_directory 0).is_used = 0
    ∧ (vscreate 2048 freshVolume longName).1 = 0
    ∧ ((vscreate 2048 freshVolume longName).2.metadata.root_directory 0).is_used = 1
    ∧ ((vscreate 2048 freshVolume longName).2.metadata.root_directory 0).filename
        = List.replicate 30 97
    ∧ (vsopen (vscreate 2048 freshVolume longName).2 longName 0).1 = -1
    ∧ (vsdelete 2048 freshVolume longName).1 = -1
    ∧ ((vsdelete 2048 freshVolume longName).2.metadata.root_directory 0).is_used = 0 := by
  refine ⟨?_, ?_, ?_, ?_, ?_, ?_, ?_, ?_⟩ <;> decide

/-- C16: from a state whose 16 open-file slots are all free, every sequence
of `vsopen` / `vsclose` / `vscreate` / `vsdelete` / `vsread` / `vsappend`
calls (any arguments, successful or not) runs to a state in which every
directory-entry index sits in at most one occupied slot of the open-file
table. -/
theorem open_table_stays_injective (BS : Nat) (MA : Int) (st : State) (calls : List Call)
    (hBS : 0 < BS) (hBS2 : BS < 2147483648)
    (hfree : ∀ i, i < MAX_OPEN_FILES → st.OpenFileTable i = -1) :
    ∃ st1, run BS MA st calls = some st1 ∧ TableInjective st1.OpenFileTable :=
  run_tableInjective BS MA hBS hBS2 calls st (tableInjective_of_free hfree)

/-- C16 on the fresh volume: two files are created, "a" is opened twice (the
second open is refused), "b" is opened, descriptor 0 is closed and "a" is
opened again. -/
theorem open_table_stays_injective_witness :
    (∀ i, i < MAX_OPEN_FILES → freshVolume.OpenFileTable i = -1)
    ∧ ∃ st1, run 2048 1 freshVolume
        [Call.vscreate name_a, Call.vscreate name_b, Call.vsopen name_a 1, Call.vsopen name_a 0,
          Call.vsopen name_b 1, Call.vsread 1 (fun _ => 0) 4, Call.vsclose 0,
          Call.vsopen name_a 0] = some st1
        ∧ TableInjective st1.OpenFileTable :=
  ⟨freshVolume_fresh.2.1,
    open_table_stays_injective 2048 1 freshVolume _ (by decide) (by decide)
      freshVolume_fresh.2.1⟩

/-- C17: for every state, name, mode and descriptor, `vsopen` and `vsclose`
leave the metadata (every directory entry with its cursor, the allocation
table, the superblock) and the backing store as they were, whether they
succeed or fail.  A failed `vsopen` or `vsclose` changes nothing at all.  A
successful `vsopen` returns the lowest-index free slot and stores there the
index of the directory entry found for the name and the mode, leaving the
other slots alone; a successful `vsclose` frees slot `fd` and no other. -/
theorem open_close_leave_directory (st : State) (name : List Nat) (mode : Int) (fd : Int) :
    (vsopen st name mode).2.metadata = st.metadata
    ∧ (vsopen st name mode).2.vdisk = st.vdisk
    ∧ (vsclose st fd).2.metadata = st.metadata
    ∧ (vsclose st fd).2.vdisk = st.vdisk
    ∧ ((vsopen st name mode).1 = -1 → (vsopen st name mode).2 = st)
    ∧ ((vsopen st name mode).1 ≠ -1 →
        ∃ fi slot : Nat, find_file st.metadata.root_directory name = (fi : Int)
          ∧ slot < MAX_OPEN_FILES
          ∧ (vsopen st name mode).1 = (slot : Int)
          ∧ st.OpenFileTable slot = -1
          ∧ (∀ j, j < slot → st.OpenFileTable j ≠ -1)
          ∧ (vsopen st name mode).2.OpenFileTable = setAt st.OpenFileTable slot (fi : Int)
          ∧ (vsopen st name mode).2.OpenFileModes = setAt st.OpenFileModes slot mode)
    ∧ ((vsclose st fd).1 = 0 →
        0 ≤ fd ∧ fd < (MAX_OPEN_FILES : Int) ∧ st.OpenFileTable fd.toNat ≠ -1
          ∧ (vsclose st fd).2.OpenFileTable = setAt st.OpenFileTable fd.toNat (-1)
          ∧ (vsclose st fd).2.OpenFileModes = st.OpenFileModes)
    ∧ ((vsclose st fd).1 ≠ 0 → (vsclose st fd).2 = st) := by
  refine ⟨(vsopen_frame st name mode).1, (vsopen_frame st name mode).2, ?_, ?_, ?_, ?_, ?_, ?_⟩
  · rcases vsclose_effect st fd with h | ⟨_, _, _, h⟩ <;> rw [h]
  · rcases vsclose_effect st fd with h | ⟨_, _, _, h⟩ <;> rw [h]
  · intro h
    rw [vsopen_fail h]
  · intro h
    obtain ⟨fi, slot, _, hslot, hfind, _, hfree, hlow, heq⟩ := vsopen_success h
    refine ⟨fi, slot, hfind, hslot, ?_, hfree, hlow, ?_, ?_⟩ <;> rw [heq]
  · intro h
    rcases vsclose_effect st fd with hc | ⟨h0, h1, h2, hc⟩
    · rw [hc] at h
      simp at h
    · rw [hc]
      exact ⟨h0, h1, h2, rfl, rfl⟩
  · intro h
    rcases vsclose_effect st fd with hc | ⟨_, _, _, hc⟩
    · rw [hc]
    · rw [hc] at h
      exact absurd rfl h

/-- C17 on a concrete volume: after one byte was appended to "a" through
descriptor 0, closing descriptor 0 frees slot 0 and reopening "a" returns
descriptor 0 with the cursor of the file still at 1. -/
theorem open_close_leave_directory_witness :
    ((vsclose afterAppendA 0).2.metadata.root_directory 0).current_position = 1
    ∧ (vsopen (vsclose afterAppendA 0).2 name_a 0).1 = 0
    ∧ (vsopen (vsclose afterAppendA 0).2 name_a 0).2.metadata
        = (vsclose afterAppendA 0).2.metadata
    ∧ (vsopen (vsclose afterAppendA 0).2 name_a 0).2.vdisk = (vsclose afterAppendA 0).2.vdisk
    ∧ (vsclose afterAppendA 0).2.metadata = afterAppendA.metadata
    ∧ (vsclose afterAppendA 0).2.OpenFileTable = setAt afterAppendA.OpenFileTable 0 (-1) :=
  ⟨by decide, by decide,
    (open_close_leave_directory (vsclose afterAppendA 0).2 name_a 0 0).1,
    (open_close_leave_directory (vsclose afterAppendA 0).2 name_a 0 0).2.1,
    (open_close_leave_directory afterAppendA name_a 0 0).2.2.1,
    ((open_close_leave_directory afterAppendA name_a 0 0).2.2.2.2.2.2.1 (by decide)).2.2.2.1⟩

/-- C18 does not hold for the code.  With 2048-byte blocks and append mode 1,
on the fresh volume (m = 18, data region = blocks 41..127) after
`vscreate("a"); vsopen("a", MODE_APPEND)`, the call `vsappend(0, "x", 1)`
returns 1 and the block index it hands to `write_block` is 0, below
`data_start` = 41: block 0 of the backing store, the superblock, is
overwritten (byte 0 becomes the 'x', byte 2 of the stored volume size goes
from 4 to 0). -/
theorem append_overwrites_superblock :
    FreshVolume 2048 freshVolume
    ∧ run 2048 1 freshVolume [Call.vscreate name_a, Call.vsopen name_a 1] = some oneFileOpen
    ∧ oneFileOpen.metadata.superblock.data_start = 41
    ∧ oneFileOpen.metadata.superblock.data_blocks = 87
    ∧ (vsappend 2048 1 oneFileOpen 0 (memOfList [120]) 1).1 = 1
    ∧ vsappend_block_number 2048 oneFileOpen 0 = 0
    ∧ (vsappend 2048 1 oneFileOpen 0 (memOfList [120]) 1).2.vdisk
        = (write_block 2048 oneFileOpen.vdisk (memFrom (memOfList [120]) 0)
            (vsappend_block_number 2048 oneFileOpen 0)).2
    ∧ oneFileOpen.vdisk.bytes 0 = 0
    ∧ oneFileOpen.vdisk.bytes 2 = 4
    ∧ (vsappend 2048 1 oneFileOpen 0 (memOfList [120]) 1).2.vdisk.bytes 0 = 120
    ∧ (vsappend 2048 1 oneFileOpen 0 (memOfList [120]) 1).2.vdisk.bytes 2 = 0 := by
  refine ⟨freshVolume_fresh, rfl, by decide, by decide, by decide, by decide, ?_, by decide,
    by decide, by decide, by decide⟩
  exact vsappend_writes_block 2048 1 oneFileOpen 0 (memOfList [120]) 1 (by decide) (by decide)

/-- Claim C19 fails as stated.  On the fresh volume (2048-byte blocks, append
mode 1), after `vscreate("a"); vsopen("a", MODE_APPEND)` the call
`vsdelete("a")` returns 0 and leaves slot 0 of the open-file table occupied,
referring to directory entry 0, which is no longer in use.  After
`vscreate("b")` entry 0 holds "b", and the old descriptor 0 appends to "b"
and reports its size. -/
theorem descriptor_outlives_deleted_file :
    FreshVolume 2048 freshVolume
    ∧ run 2048 1 freshVolume
        [Call.vscreate name_a, Call.vsopen name_a 1, Call.vsdelete name_a]
        = some deletedWhileOpen
    ∧ (vsopen oneFile name_a 1).1 = 0
    ∧ (vsdelete 2048 oneFileOpen name_a).1 = 0
    ∧ deletedWhileOpen.OpenFileTable 0 = 0
    ∧ (deletedWhileOpen.metadata.root_directory 0).is_used = 0
    ∧ (∀ opened, ¬ DescriptorsValid deletedWhileOpen opened)
    ∧ (vscreate 2048 deletedWhileOpen name_b).1 = 0
    ∧ slotReused.OpenFileTable 0 = 0
    ∧ (slotReused.metadata.root_directory 0).is_used = 1
    ∧ strcmp (filenameAt slotReused.metadata.root_directory 0) name_b = 0
    ∧ strcmp (filenameAt slotReused.metadata.root_directory 0) name_a ≠ 0
    ∧ (vsappend 2048 1 slotReused 0 (memOfList [120]) 1).1 = 1
    ∧ ((vsappend 2048 1 slotReused 0 (memOfList [120]) 1).2.metadata.root_directory 0).size = 1
    ∧ vssize (vsappend 2048 1 slotReused 0 (memOfList [120]) 1).2 0 = 1 := by
  refine ⟨freshVolume_fresh, rfl, by decide, by decide, by decide, by decide, ?_, by decide,
    by decide, by decide, by decide, by decide, by decide, by decide, by decide⟩
  intro opened h
  obtain ⟨idx, _, heq, hu, _⟩ := h 0 (by decide) (by decide)
  have h0 : deletedWhileOpen.OpenFileTable 0 = ((0 : Nat) : Int) := by decide
  rw [h0] at heq
  have hidx : idx = 0 := by omega
  rw [hidx] at hu
  exact hu (by decide)

/-- C19, amended: from a freshly formatted and mounted volume, every sequence
of `vscreate` / `vsdelete` / `vsopen` / `vsclose` / `vsread` / `vsappend`
calls in which no `vsdelete` names a file that a slot of the open-file table
refers to at that moment runs to a state in which every occupied slot refers
to an in-use directory entry holding the name that was given to the `vsopen`
which returned the slot (its first 30 characters, which is all the name field
holds). -/
theorem descriptors_valid_without_delete_of_open (BS : Nat) (MA : Int) (st : State)
    (opened : Nat → List Nat) (calls : List Call)
    (hBS : 0 < BS) (hfresh : FreshVolume BS st) (hok : noDeleteOfOpen BS MA st calls) :
    ∃ st1 opened1, runNoted BS MA st opened calls = some (st1, opened1)
      ∧ run BS MA st calls = some st1
      ∧ DescriptorsValid st1 opened1 :=
  runNoted_descriptorsValid BS MA hBS (by have := hfresh.2.2.2.2; omega) calls st opened
    (descriptorsValid_of_free opened hfresh.2.1) hok

/-- C19, amended, on the fresh volume: "a" and "b" are created, "a" is
opened and appended to, "b" is deleted while "a" is open, "a" is closed and
then deleted. -/
theorem descriptors_valid_without_delete_of_open_witness :
    noDeleteOfOpen 2048 1 freshVolume
      [Call.vscreate name_a, Call.vscreate name_b, Call.vsopen name_a 1,
        Call.vsappend 0 (memOfList hello) 5, Call.vsdelete name_b, Call.vsclose 0,
        Call.vsdelete name_a]
    ∧ ∃ st1 opened1, runNoted 2048 1 freshVolume (fun _ => [])
        [Call.vscreate name_a, Call.vscreate name_b, Call.vsopen name_a 1,
          Call.vsappend 0 (memOfList hello) 5, Call.vsdelete name_b, Call.vsclose 0,
          Call.vsdelete name_a] = some (st1, opened1)
        ∧ run 2048 1 freshVolume
          [Call.vscreate name_a, Call.vscreate name_b, Call.vsopen name_a 1,
            Call.vsappend 0 (memOfList hello) 5, Call.vsdelete name_b, Call.vsclose 0,
            Call.vsdelete name_a] = some st1
        ∧ DescriptorsValid st1 opened1 :=
  have hok : noDeleteOfOpen 2048 1 freshVolume
      [Call.vscreate name_a, Call.vscreate name_b, Call.vsopen name_a 1,
        Call.vsappend 0 (memOfList hello) 5, Call.vsdelete name_b, Call.vsclose 0,
        Call.vsdelete name_a] := by
    simp only [noDeleteOfOpen, step, and_true, true_and]
    refine ⟨?_, ?_⟩ <;> decide
  ⟨hok, descriptors_valid_without_delete_of_open 2048 1 freshVolume (fun _ => []) _ (by decide)
    freshVolume_fresh hok⟩

/-- C20: if every in-use directory entry has cursor <= size, then after any
single `vscreate`, `vsopen`, `vsclose`, `vsread` (any `int` n, negative
ones included), `vsappend` or `vsdelete` call, successful or failed, every
in-use directory entry still has cursor <= size; `vsread` always returns.
Hence for an in-use entry whose size fits `uint32_t` the unsigned difference
size - cursor that `vsread` computes is the true difference. -/
theorem cursor_stays_in_bounds (BS : Nat) (MA : Int) (st : State)
    (hBS : 0 < BS) (hBS2 : BS < 2147483648)
    (hinv : CursorInBounds st.metadata.root_directory) :
    (∀ name, CursorInBounds (vscreate BS st name).2.metadata.root_directory)
    ∧ (∀ name mode, CursorInBounds (vsopen st name mode).2.metadata.root_directory)
    ∧ (∀ fd, CursorInBounds (vsclose st fd).2.metadata.root_directory)
    ∧ (∀ fd buf n, -2147483648 ≤ n → n < 2147483648 →
        ∃ r, vsread BS st fd buf n = some r ∧ CursorInBounds r.2.1.metadata.root_directory)
    ∧ (∀ fd buf n, CursorInBounds (vsappend BS MA st fd buf n).2.metadata.root_directory)
    ∧ (∀ name, CursorInBounds (vsdelete BS st name).2.metadata.root_directory)
    ∧ (∀ i, i < MAX_DIRECTORY_ENTRIES → (st.metadata.root_directory i).is_used ≠ 0 →
        (st.metadata.root_directory i).size < 4294967296 →
        u32 (((st.metadata.root_directory i).size : Int)
            - ((st.metadata.root_directory i).current_position : Int))
          = (st.metadata.root_directory i).size
            - (st.metadata.root_directory i).current_position) := by
  refine ⟨fun name => vscreate_cursorInBounds BS st name hinv, ?_, ?_,
    fun fd buf n hn1 hn2 => vsread_cursorInBounds BS hBS hBS2 st fd buf n hn1 hn2 hinv,
    fun fd buf n => vsappend_cursorInBounds BS MA st fd buf n hinv,
    fun name => vsdelete_cursorInBounds BS st name hinv, ?_⟩
  · intro name mode
    rw [(vsopen_frame st name mode).1]
    exact hinv
  · intro fd
    rcases vsclose_effect st fd with h | ⟨_, _, _, h⟩
    · rw [h]; exact hinv
    · rw [h]; exact hinv
  · intro i hi hu hs
    have hle := hinv i hi hu
    generalize (st.metadata.root_directory i).size = s at hs hle ⊢
    generalize (st.metadata.root_directory i).current_position = c at hle ⊢
    rw [u32_of_range (by omega) (by omega)]
    omega

/-- C20 on a concrete volume: entry 0 is a 5000-byte file with cursor 100,
open on descriptor 0; `vsread(0, buf, -1)` returns and every in-use entry
still has cursor <= size, and so it is after `vsdelete("a")`. -/
theorem cursor_stays_in_bounds_witness :
    CursorInBounds partlyRead.metadata.root_directory
    ∧ (∃ r, vsread 2048 partlyRead 0 (fun _ => 0) (-1) = some r
        ∧ CursorInBounds r.2.1.metadata.root_directory)
    ∧ CursorInBounds (vsdelete 2048 partlyRead name_a).2.metadata.root_directory :=
  have hinv : CursorInBounds partlyRead.metadata.root_directory := by
    unfold CursorInBounds
    decide
  ⟨hinv,
    (cursor_stays_in_bounds 2048 1 partlyRead (by decide) (by decide) hinv).2.2.2.1 0 (fun _ => 0)
      (-1) (by decide) (by decide),
    (cursor_stays_in_bounds 2048 1 partlyRead (by decide) (by decide) hinv).2.2.2.2.2.1 name_a⟩

end VSFS
